import Mathlib

/-!
Verification of the core memory manager of the `my_os` kernel
(`src/kernel/memory.c`) against its natural-language specification.

The C source is shallowly embedded: machine integers become `Nat` with
explicit `% 2^32` wherever 32-bit overflow can occur, global mutable state
becomes an explicit record `MState` threaded through every function, a null
pointer becomes `none`, and a failed `ASSERT`/`PANIC` (which halts the
kernel) becomes the distinguished result `Res.panic`.

External primitives that live in other files of the repository
(`bitmap.c`, `list.c`, `sync.c`, `debug.h`) are modelled from the
specification; each such definition carries a doc comment that says so.
-/

/-- Result of running a piece of kernel code: either a value (with the
updated global state packed inside it) or a halt caused by a failed
`ASSERT`/`PANIC`. -/
inductive Res (α : Type) where
  | ok : α → Res α
  | panic : Res α
deriving DecidableEq, Repr

/-- PG_SIZE from `memory.h`: pages are 4096 bytes. -/
def PG_SIZE : Nat := 4096

/-- Number of small-block descriptors per domain (`DESC_CNT`). -/
def DESC_CNT : Nat := 7

/-- K_HEAP_START from `memory.c`: start of the kernel heap virtual range. -/
def K_HEAP_START : Nat := 0xc0100000

/-- MEM_BITMAP_BASE from `memory.c`. -/
def MEM_BITMAP_BASE : Nat := 0xc009a000

/-- Modulus of 32-bit unsigned arithmetic. -/
def MOD32 : Nat := 4294967296

/-- Modelled from the spec: `sizeof(struct arena)` — the header holds a
descriptor pointer, a `bool` and a `uint32_t`, which occupy 12 bytes under
the 4-byte alignment of the 32-bit target.  The exact struct layout lives
in the compiler, not under `src/`. -/
def sizeof_arena : Nat := 12

/-- DIV_ROUND_UP from `global.h` (modelled from the spec:
`pages = ⌈(size + sizeof(Arena)) / page_size⌉`). -/
def div_round_up (a b : Nat) : Nat := (a + b - 1) / b

/-- PDE_IDX(addr) = (addr & 0xffc00000) >> 22. -/
def PDE_IDX (addr : Nat) : Nat := addr % MOD32 / 2 ^ 22

/-- PTE_IDX(addr) = (addr & 0x003ff000) >> 12. -/
def PTE_IDX (addr : Nat) : Nat := addr % MOD32 / 2 ^ 12 % 2 ^ 10

/-- Index of the virtual page containing `addr`; a page table entry is
identified by this index (the pair PDE index / PTE index in the source). -/
def vpage (addr : Nat) : Nat := addr % MOD32 / PG_SIZE

/-- The two pool flags of `enum pool_flags`. -/
inductive PoolFlags where
  | PF_KERNEL
  | PF_USER
deriving DecidableEq, Repr

/-- Modelled from the spec: the bitmap primitive of `bitmap.c` — a
bit-indexed occupancy map ("scan/set/clear bit ranges"); one `Bool` per
bit, `true` meaning allocated/reserved. -/
structure Bitmap where
  bits : List Bool
deriving DecidableEq, Repr

/-- Does the bitmap hold `cnt` consecutive zero bits starting at `i`
(entirely inside the map)? -/
def zeroRunAt (bits : List Bool) (i cnt : Nat) : Bool :=
  decide (i + cnt ≤ bits.length) &&
    (List.range cnt).all (fun j => bits.getD (i + j) true == false)

/-- Modelled from the spec: `bitmap_scan` — find the first run of `cnt`
consecutive zero bits; `none` when no such run exists. -/
def bitmap_scan (bm : Bitmap) (cnt : Nat) : Option Nat :=
  (List.range (bm.bits.length + 1)).find? (fun i => zeroRunAt bm.bits i cnt)

/-- Modelled from the spec: `bitmap_set` — set one bit to the given value
(out-of-range indices leave the map unchanged). -/
def bitmap_set (bm : Bitmap) (idx : Nat) (v : Bool) : Bitmap :=
  ⟨bm.bits.set idx v⟩

/-- The `while (cnt < pg_cnt) bitmap_set(bm, idx + cnt++, v)` loops of
`vaddr_get` / `vaddr_remove`. -/
def bitmap_set_range (bm : Bitmap) (idx cnt : Nat) (v : Bool) : Bitmap :=
  match cnt with
  | 0 => bm
  | n + 1 => bitmap_set_range (bitmap_set bm idx v) (idx + 1) n v

/-- Association list used to model sparse memory (page-table entries,
arena headers): lookup of the first binding of a key. -/
def alist_get {α : Type} (l : List (Nat × α)) (k : Nat) : Option α :=
  (l.find? (fun kv => kv.1 == k)).map (fun kv => kv.2)

/-- Store a binding, dropping any previous binding of the same key. -/
def alist_set {α : Type} (l : List (Nat × α)) (k : Nat) (v : α) :
    List (Nat × α) :=
  (k, v) :: l.filter (fun kv => kv.1 != k)

/- ### Library lemmas about the bitmap and association-list models -/

theorem listSet_getD (l : List Bool) (i k : Nat) (v : Bool) :
    (l.set i v).getD k false =
      if i = k ∧ i < l.length then v else l.getD k false := by
  by_cases h : i = k
  · subst h
    by_cases h2 : i < l.length
    · simp [List.getD, List.getElem?_set, h2]
    · have hle : l.length ≤ i := by omega
      simp [List.getD, List.getElem?_set, h2, List.getElem?_eq_none hle]
  · simp [List.getD, List.getElem?_set, h]

theorem listSet_length (l : List Bool) (i : Nat) (v : Bool) :
    (l.set i v).length = l.length := l.length_set i v

theorem list_ext_getD (l1 l2 : List Bool) (hlen : l1.length = l2.length)
    (h : ∀ k, l1.getD k false = l2.getD k false) : l1 = l2 := by
  induction l1 generalizing l2 with
  | nil => cases l2 with
    | nil => rfl
    | cons b t => simp at hlen
  | cons a t ih =>
    cases l2 with
    | nil => simp at hlen
    | cons b t2 =>
      have h0 := h 0
      simp [List.getD] at h0
      subst h0
      have := ih t2 (by simpa using hlen) (fun k => by
        have := h (k + 1)
        simpa [List.getD] using this)
      rw [this]

theorem bitmap_set_range_length (bm : Bitmap) (idx cnt : Nat) (v : Bool) :
    (bitmap_set_range bm idx cnt v).bits.length = bm.bits.length := by
  induction cnt generalizing bm idx with
  | zero => rfl
  | succ n ih =>
    simp only [bitmap_set_range]
    rw [ih]
    exact listSet_length _ _ _

theorem bitmap_set_range_getD (bm : Bitmap) (idx cnt : Nat) (v : Bool) (k : Nat) :
    (bitmap_set_range bm idx cnt v).bits.getD k false =
      if idx ≤ k ∧ k < idx + cnt ∧ k < bm.bits.length then v
      else bm.bits.getD k false := by
  induction cnt generalizing bm idx with
  | zero =>
    simp only [bitmap_set_range]
    rw [if_neg (by omega)]
  | succ n ih =>
    simp only [bitmap_set_range]
    rw [ih]
    simp only [bitmap_set, listSet_length, listSet_getD]
    split
    · rename_i h1
      rw [if_pos (by omega)]
    · rename_i h1
      split
      · rename_i h2
        rw [if_pos (by omega)]
      · rename_i h2
        rw [if_neg (by omega)]

theorem Bitmap.ext_bits (a b : Bitmap) (h : a.bits = b.bits) : a = b := by
  cases a; cases b; cases h; rfl

theorem getD_default_irrel (l : List Bool) (k : Nat) (h : k < l.length)
    (d1 d2 : Bool) : l.getD k d1 = l.getD k d2 := by
  simp [List.getD, List.getElem?_eq_getElem h]

theorem bitmap_scan_some (bm : Bitmap) (cnt i : Nat)
    (h : bitmap_scan bm cnt = some i) :
    i + cnt ≤ bm.bits.length ∧
      ∀ t, t < cnt → bm.bits.getD (i + t) false = false := by
  have hp := List.find?_some h
  simp only [zeroRunAt, Bool.and_eq_true, decide_eq_true_eq, List.all_eq_true] at hp
  obtain ⟨h1, h2⟩ := hp
  refine ⟨h1, fun t ht => ?_⟩
  have := h2 t (List.mem_range.mpr ht)
  have hlt : i + t < bm.bits.length := by omega
  have heq : bm.bits.getD (i + t) true = false := by simpa using this
  rw [getD_default_irrel _ _ hlt false true]
  exact heq

/-- Setting a run of bits back to `false` restores the bitmap when the run
was all-`false` to begin with. -/
theorem bitmap_set_range_restore (bm : Bitmap) (idx cnt : Nat)
    (h : ∀ t, t < cnt → bm.bits.getD (idx + t) false = false) :
    bitmap_set_range (bitmap_set_range bm idx cnt true) idx cnt false = bm := by
  have hlen1 := bitmap_set_range_length bm idx cnt true
  apply Bitmap.ext_bits
  apply list_ext_getD
  · rw [bitmap_set_range_length, hlen1]
  · intro k
    rw [bitmap_set_range_getD, bitmap_set_range_getD]
    simp only [hlen1]
    split
    · rename_i hcond
      have := h (k - idx) (by omega)
      have hik : idx + (k - idx) = k := by omega
      rw [hik] at this
      exact this.symm
    · rfl

/- alist lemmas -/

theorem alist_get_cons {α : Type} (a : Nat × α) (l : List (Nat × α)) (k : Nat) :
    alist_get (a :: l) k = if a.1 = k then some a.2 else alist_get l k := by
  by_cases h : a.1 = k
  · simp only [alist_get]
    rw [List.find?_cons_of_pos _ (by simpa using h)]
    simp [h]
  · simp only [alist_get]
    rw [List.find?_cons_of_neg _ (by simpa using h)]
    simp [h]

theorem alist_get_set_eq {α : Type} (l : List (Nat × α)) (k : Nat) (v : α) :
    alist_get (alist_set l k v) k = some v := by
  simp only [alist_set]
  rw [alist_get_cons]
  simp

theorem alist_get_filter_ne {α : Type} (l : List (Nat × α)) (k : Nat)
    (p : Nat × α → Bool) (hp : ∀ kv ∈ l, kv.1 = k → p kv = true) :
    alist_get (l.filter p) k = alist_get l k := by
  induction l with
  | nil => rfl
  | cons a t ih =>
    have iht := ih (fun kv hm he => hp kv (List.mem_cons_of_mem a hm) he)
    rw [List.filter_cons]
    by_cases hak : a.1 = k
    · have hpa : p a = true := hp a (List.mem_cons_self a t) hak
      rw [hpa]
      simp only [if_true]
      rw [alist_get_cons, alist_get_cons, if_pos hak, if_pos hak]
    · cases hpa : p a with
      | true =>
        simp only [if_true]
        rw [alist_get_cons, alist_get_cons, if_neg hak, if_neg hak]
        exact iht
      | false =>
        simp only [Bool.false_eq_true, if_false]
        rw [alist_get_cons, if_neg hak]
        exact iht

theorem alist_get_set_ne {α : Type} (l : List (Nat × α)) (k k2 : Nat) (v : α)
    (h : k ≠ k2) : alist_get (alist_set l k v) k2 = alist_get l k2 := by
  simp only [alist_set]
  rw [alist_get_cons, if_neg (show ¬((k, v).1 = k2) from h)]
  exact alist_get_filter_ne l k2 _ (fun kv hm he => by
    simp only [bne_iff_ne, ne_eq]
    intro hc
    exact h (hc ▸ he))

/- ### Data model (struct pool, struct virtual_addr, struct arena,
struct mem_block_desc, and the global state of memory.c) -/

/-- struct pool from `memory.c`: physical pool bitmap, start address, byte
capacity, and its mutex (modelled as a `locked` flag; the lock itself is
the `sync.c` primitive, modelled from the spec as a sleep-capable mutex
serialising the single running thread). -/
structure Pool where
  pool_bitmap : Bitmap
  phy_addr_start : Nat
  pool_size : Nat
  locked : Bool
deriving DecidableEq, Repr

/-- struct virtual_addr (from `memory.h`): virtual-pool bitmap plus start
address. -/
structure VirtualAddr where
  vaddr_bitmap : Bitmap
  vaddr_start : Nat
deriving DecidableEq, Repr

/-- struct arena: the header at the base of every arena page.  The C
`desc` pointer either is NULL (`none`) or points into the kernel
descriptor array (`some (true, idx)`) or into the current task's user
descriptor array (`some (false, idx)`). -/
structure ArenaHdr where
  desc : Option (Bool × Nat)
  large : Bool
  cnt : Nat
deriving DecidableEq, Repr

instance : Inhabited ArenaHdr := ⟨⟨none, false, 0⟩⟩

/-- struct mem_block_desc: block size, blocks per arena, and the intrusive
free list (modelled from the spec as the list of free block addresses,
head first; `list_append` adds at the tail, `list_pop` removes the head). -/
structure BlockDesc where
  block_size : Nat
  blocks_per_arena : Nat
  free_list : List Nat
deriving DecidableEq, Repr

instance : Inhabited BlockDesc := ⟨⟨0, 0, []⟩⟩

/-- The global state of `memory.c` together with the parts of the current
task (`running_thread()`) that the allocator reads: its page directory

(`pgdir_null = true` means a kernel thread), its user virtual pool and its
user block descriptors.  `pdes` is the set of present page-directory
entries; `ptes` maps a virtual page index to its 32-bit page-table entry
(entries absent from the list read as 0 — freshly created tables are
zeroed by the source).  `arenas` models the arena headers stored at the
base of currently-allocated pages; freeing or re-zeroing a page discards
the header stored in it.  `zeroed` is a log of the `memset(_, 0, _)`
calls, newest first. -/
structure MState where
  kernel_pool : Pool
  user_pool : Pool
  kernel_vaddr : VirtualAddr
  user_vaddr : VirtualAddr
  pgdir_null : Bool
  pdes : List Nat
  ptes : List (Nat × Nat)
  k_block_descs : List BlockDesc
  u_block_descs : List BlockDesc
  arenas : List (Nat × ArenaHdr)
  zeroed : List (Nat × Nat)
deriving DecidableEq, Repr

/-- The value read through `pte_ptr(vaddr)`: the page-table entry of a
virtual page (0 when the entry was never written — boot-time tables and
freshly allocated tables are zeroed). -/
def pte_val (s : MState) (vp : Nat) : Nat := (alist_get s.ptes vp).getD 0

/-- The pool selected by `pf & PF_KERNEL ? &kernel_pool : &user_pool`. -/
def poolOf (pf : PoolFlags) (s : MState) : Pool :=
  match pf with
  | .PF_KERNEL => s.kernel_pool
  | .PF_USER => s.user_pool

def setPool (pf : PoolFlags) (p : Pool) (s : MState) : MState :=
  match pf with
  | .PF_KERNEL => { s with kernel_pool := p }
  | .PF_USER => { s with user_pool := p }

/-- Modelled from the spec: `lock_acquire` on the pool mutex.  The model
executes one thread at a time, so acquiring marks the mutex held. -/
def acquire_pool (pf : PoolFlags) (s : MState) : MState :=
  setPool pf { poolOf pf s with locked := true } s

/-- Modelled from the spec: `lock_release` on the pool mutex. -/
def release_pool (pf : PoolFlags) (s : MState) : MState :=
  setPool pf { poolOf pf s with locked := false } s

/-- The pool flag used by a caller whose task has (`false`) or has not
(`true`) a page directory. -/
def pfOf (isK : Bool) : PoolFlags := if isK then .PF_KERNEL else .PF_USER

/-- memset(addr, 0, len) as the model sees it: log the zeroed range and
discard any arena header whose page base lies inside it (its storage is
overwritten). -/
def memset_state (addr len : Nat) (s : MState) : MState :=
  { s with
    zeroed := (addr, len) :: s.zeroed,
    arenas := s.arenas.filter (fun kv => !(decide (addr ≤ kv.1 ∧ kv.1 < addr + len))) }

/-- Writing the arena header fields at page base `a` (the
`a->desc = ...; a->cnt = ...; a->large = ...` stores). -/
def set_arena (a : Nat) (hdr : ArenaHdr) (s : MState) : MState :=
  { s with arenas := alist_set s.arenas a hdr }

/-- Discard the arena headers stored in a range of pages whose backing
memory has just been freed (model bookkeeping for `mfree_page`). -/
def arenas_drop_range (addr len : Nat) (s : MState) : MState :=
  { s with arenas := s.arenas.filter (fun kv => !(decide (addr ≤ kv.1 ∧ kv.1 < addr + len))) }

/-- Free list of descriptor `d` of the kernel (`isK = true`) or the
current task (`isK = false`). -/
def free_list_of (s : MState) (isK : Bool) (d : Nat) : List Nat :=
  ((if isK then s.k_block_descs else s.u_block_descs).getD d default).free_list

def set_free_list (isK : Bool) (d : Nat) (l : List Nat) (s : MState) : MState :=
  if isK then
    { s with k_block_descs := List.modify (fun bd => { bd with free_list := l }) d s.k_block_descs }
  else
    { s with u_block_descs := List.modify (fun bd => { bd with free_list := l }) d s.u_block_descs }

/-- Descriptor `dp.2` of the array designated by the arena's `desc`
pointer (`dp.1 = true`: the kernel array `k_block_descs`). -/
def desc_of (s : MState) (dp : Bool × Nat) : BlockDesc :=
  (if dp.1 then s.k_block_descs else s.u_block_descs).getD dp.2 default

/- ### vaddr_get, palloc, page_table_add, malloc_page (memory.c lines 60-161) -/

/-- vaddr_get: reserve `pg_cnt` consecutive virtual pages in the kernel or
current user virtual pool.  The user branch asserts
`vaddr_start < 0xc0000000 - PG_SIZE` (on the start address only). -/
def vaddr_get (pf : PoolFlags) (pg_cnt : Nat) (s : MState) :
    Res (Option Nat × MState) :=
  match pf with
  | .PF_KERNEL =>
    match bitmap_scan s.kernel_vaddr.vaddr_bitmap pg_cnt with
    | none => .ok (none, s)
    | some bit_idx_start =>
      let bm := bitmap_set_range s.kernel_vaddr.vaddr_bitmap bit_idx_start pg_cnt true
      let vaddr_start := (s.kernel_vaddr.vaddr_start + bit_idx_start * PG_SIZE) % MOD32
      .ok (some vaddr_start,
        { s with kernel_vaddr := { s.kernel_vaddr with vaddr_bitmap := bm } })
  | .PF_USER =>
    match bitmap_scan s.user_vaddr.vaddr_bitmap pg_cnt with
    | none => .ok (none, s)
    | some bit_idx_start =>
      let bm := bitmap_set_range s.user_vaddr.vaddr_bitmap bit_idx_start pg_cnt true
      let vaddr_start := (s.user_vaddr.vaddr_start + bit_idx_start * PG_SIZE) % MOD32
      if vaddr_start < 0xc0000000 - PG_SIZE then
        .ok (some vaddr_start,
          { s with user_vaddr := { s.user_vaddr with vaddr_bitmap := bm } })
      else .panic

/-- palloc: allocate one physical frame from a pool (scan one zero bit,
set it); `none` when the pool is exhausted. -/
def palloc (p : Pool) : Option (Nat × Pool) :=
  match bitmap_scan p.pool_bitmap 1 with
  | none => none
  | some bit_idx =>
    some ((bit_idx * PG_SIZE + p.phy_addr_start) % MOD32,
      { p with pool_bitmap := bitmap_set p.pool_bitmap bit_idx true })

/-- page_table_add: install the PTE for `vaddr → page_phyaddr`.  When the
PDE is absent a fresh kernel frame is allocated for the page table (the
source does not check that palloc succeeded) and the new table is zeroed;
when the PDE is present the present PTE bit is asserted clear
(`ASSERT(!(*pte & 1))`).  Flags are `PG_US_U | PG_RW_W | PG_P_1 = 7`. -/
def page_table_add (vaddr page_phyaddr : Nat) (s : MState) : Res MState :=
  let pde_idx := PDE_IDX vaddr
  if s.pdes.contains pde_idx then
    if pte_val s (vpage vaddr) % 2 = 1 then .panic
    else .ok { s with ptes := alist_set s.ptes (vpage vaddr) (page_phyaddr ||| 7) }
  else
    let kp := match palloc s.kernel_pool with
      | none => s.kernel_pool
      | some x => x.2
    let s1 := { s with
      kernel_pool := kp,
      pdes := pde_idx :: s.pdes,
      ptes := s.ptes.filter (fun kv => kv.1 / 2 ^ 10 != pde_idx) }
    .ok { s1 with ptes := alist_set s1.ptes (vpage vaddr) (page_phyaddr ||| 7) }

/-- The `while (cnt-- > 0)` loop of malloc_page: for each page allocate a
frame from the caller's pool and map it.  Returns `false` when palloc runs
out mid-loop (the source returns NULL without rolling anything back — a
known leak). -/
def malloc_page_loop (pf : PoolFlags) (vaddr cnt : Nat) (s : MState) :
    Res (Bool × MState) :=
  match cnt with
  | 0 => .ok (true, s)
  | n + 1 =>
    match palloc (poolOf pf s) with
    | none => .ok (false, s)
    | some (phy, pl) =>
      match page_table_add vaddr phy (setPool pf pl s) with
      | .panic => .panic
      | .ok s1 => malloc_page_loop pf ((vaddr + PG_SIZE) % MOD32) n s1

/-- malloc_page: `ASSERT(pg_cnt > 0 && pg_cnt < 3840)`, reserve virtual
pages, then map each one to a fresh frame. -/
def malloc_page (pf : PoolFlags) (pg_cnt : Nat) (s : MState) :
    Res (Option Nat × MState) :=
  if ¬(0 < pg_cnt ∧ pg_cnt < 3840) then .panic
  else
    match vaddr_get pf pg_cnt s with
    | .panic => .panic
    | .ok (none, s1) => .ok (none, s1)
    | .ok (some vaddr_start, s1) =>
      match malloc_page_loop pf vaddr_start pg_cnt s1 with
      | .panic => .panic
      | .ok (false, s2) => .ok (none, s2)
      | .ok (true, s2) => .ok (some vaddr_start, s2)

/- ### Public page-allocation entry points (memory.c lines 164-233) -/

/-- get_kernel_pages: take the kernel pool lock, allocate, zero on
success, release. -/
def get_kernel_pages (pg_cnt : Nat) (s : MState) : Res (Option Nat × MState) :=
  let s1 := acquire_pool .PF_KERNEL s
  match malloc_page .PF_KERNEL pg_cnt s1 with
  | .panic => .panic
  | .ok (none, s2) => .ok (none, release_pool .PF_KERNEL s2)
  | .ok (some vaddr, s2) =>
    .ok (some vaddr, release_pool .PF_KERNEL (memset_state vaddr (pg_cnt * PG_SIZE) s2))

/-- get_user_pages: take the user pool lock, allocate, zero on success,
release. -/
def get_user_pages (pg_cnt : Nat) (s : MState) : Res (Option Nat × MState) :=
  let s1 := acquire_pool .PF_USER s
  match malloc_page .PF_USER pg_cnt s1 with
  | .panic => .panic
  | .ok (none, s2) => .ok (none, release_pool .PF_USER s2)
  | .ok (some vaddr, s2) =>
    .ok (some vaddr, release_pool .PF_USER (memset_state vaddr (pg_cnt * PG_SIZE) s2))

/-- get_a_page: reserve the page containing `vaddr` directly.  As in the
source, when `palloc` returns NULL the function returns NULL **without
releasing the pool lock** (`lock_release` is only on the success path). -/
def get_a_page (pf : PoolFlags) (vaddr : Nat) (s : MState) :
    Res (Option Nat × MState) :=
  let s1 := acquire_pool pf s
  if !s1.pgdir_null ∧ pf = .PF_USER then
    let bit_idx := (vaddr + MOD32 - s1.user_vaddr.vaddr_start) % MOD32 / PG_SIZE
    if bit_idx = 0 then .panic
    else
      let s2 := { s1 with user_vaddr :=
        { s1.user_vaddr with vaddr_bitmap := bitmap_set s1.user_vaddr.vaddr_bitmap bit_idx true } }
      match palloc (poolOf pf s2) with
      | none => .ok (none, s2)
      | some (phy, pl) =>
        match page_table_add vaddr phy (setPool pf pl s2) with
        | .panic => .panic
        | .ok s3 => .ok (some vaddr, release_pool pf s3)
  else if s1.pgdir_null ∧ pf = .PF_KERNEL then
    let bit_idx := (vaddr + MOD32 - s1.kernel_vaddr.vaddr_start) % MOD32 / PG_SIZE
    if bit_idx = 0 then .panic
    else
      let s2 := { s1 with kernel_vaddr :=
        { s1.kernel_vaddr with vaddr_bitmap := bitmap_set s1.kernel_vaddr.vaddr_bitmap bit_idx true } }
      match palloc (poolOf pf s2) with
      | none => .ok (none, s2)
      | some (phy, pl) =>
        match page_table_add vaddr phy (setPool pf pl s2) with
        | .panic => .panic
        | .ok s3 => .ok (some vaddr, release_pool pf s3)
  else .panic

/-- get_a_page_without_opvaddrbitmap: same as get_a_page but skips the
virtual bitmap; this one does release the lock on the palloc-failure
path. -/
def get_a_page_without_opvaddrbitmap (pf : PoolFlags) (vaddr : Nat) (s : MState) :
    Res (Option Nat × MState) :=
  let s1 := acquire_pool pf s
  match palloc (poolOf pf s1) with
  | none => .ok (none, release_pool pf s1)
  | some (phy, pl) =>
    match page_table_add vaddr phy (setPool pf pl s1) with
    | .panic => .panic
    | .ok s2 => .ok (some vaddr, release_pool pf s2)

/-- addr_v2p: `(*pte & 0xfffff000) + (vaddr & 0x00000fff)`. -/
def addr_v2p (vaddr : Nat) (s : MState) : Nat :=
  pte_val s (vpage vaddr) / PG_SIZE * PG_SIZE + vaddr % PG_SIZE

/- ### mem_pool_init and block_desc_init (memory.c lines 236-316) -/

/-- Bytes reserved before the pools: the low 1 MiB plus the 256 prebuilt
page-table pages (`page_table_size + 0x100000`). -/
def used_mem : Nat := PG_SIZE * 256 + 0x100000

/-- The `uint16_t all_free_pages = free_mem / PG_SIZE` local of
mem_pool_init: the free page count is truncated to 16 bits by the
variable's type. -/
def all_free_pages_of (all_mem : Nat) : Nat :=
  (all_mem % MOD32 + MOD32 - used_mem) % MOD32 / PG_SIZE % 2 ^ 16

/-- `uint16_t kernel_free_pages = all_free_pages / 2`. -/
def kernel_free_pages_of (all_mem : Nat) : Nat := all_free_pages_of all_mem / 2

/-- `uint16_t user_free_pages = all_free_pages - kernel_free_pages`. -/
def user_free_pages_of (all_mem : Nat) : Nat :=
  all_free_pages_of all_mem - kernel_free_pages_of all_mem

/-- The outcome of mem_pool_init: both physical pools and the kernel
virtual pool (the printing calls have no effect on this state). -/
structure PoolInit where
  kernel_pool : Pool
  user_pool : Pool
  kernel_vaddr : VirtualAddr
deriving DecidableEq, Repr

/-- mem_pool_init: split the free frames between the two pools
(`kernel = all/2`, `user = all - kernel`), place the bitmaps, zero them,
initialise the locks and the kernel virtual pool. -/
def mem_pool_init (all_mem : Nat) : PoolInit :=
  let kernel_free_pages := kernel_free_pages_of all_mem
  let user_free_pages := user_free_pages_of all_mem
  let kbm_length := kernel_free_pages / 8
  let ubm_length := user_free_pages / 8
  let kp_start := used_mem
  let up_start := (kp_start + kernel_free_pages * PG_SIZE) % MOD32
  { kernel_pool :=
      { pool_bitmap := ⟨List.replicate (kbm_length * 8) false⟩,
        phy_addr_start := kp_start,
        pool_size := kernel_free_pages * PG_SIZE,
        locked := false },
    user_pool :=
      { pool_bitmap := ⟨List.replicate (ubm_length * 8) false⟩,
        phy_addr_start := up_start,
        pool_size := user_free_pages * PG_SIZE,
        locked := false },
    kernel_vaddr :=
      { vaddr_bitmap := ⟨List.replicate (kbm_length * 8) false⟩,
        vaddr_start := K_HEAP_START } }

/-- The recursion of block_desc_init: `block_size` starts at 16 and
doubles for each of the `DESC_CNT` descriptors;
`blocks_per_arena = (PG_SIZE - sizeof(struct arena)) / block_size`; every
free list starts empty. -/
def block_descs_build : Nat → Nat → List BlockDesc
  | 0, _ => []
  | n + 1, bs =>
    { block_size := bs,
      blocks_per_arena := (PG_SIZE - sizeof_arena) / bs,
      free_list := [] } :: block_descs_build n (bs * 2)

/-- block_desc_init applied to a descriptor array. -/
def block_desc_init : List BlockDesc := block_descs_build DESC_CNT 16

/- ### sys_malloc (memory.c lines 329-413) -/

/-- arena2block: address of block `idx` of the arena at `a`
(`a + sizeof(struct arena) + idx * a->desc->block_size`, 32-bit). -/
def arena2block (a bs idx : Nat) : Nat := (a + sizeof_arena + idx * bs) % MOD32

/-- block2arena: `(uint32_t)b & 0xfffff000`. -/
def block2arena (b : Nat) : Nat := b % MOD32 / PG_SIZE * PG_SIZE

/-- The `for (desc_idx = 0; desc_idx < DESC_CNT; desc_idx++)` search of
sys_malloc: index of the first descriptor with `size <= block_size`
(`DESC_CNT` when none matches, which cannot happen for `size <= 1024`). -/
def find_desc_idx (descs : List BlockDesc) (size : Nat) : Nat :=
  ((List.range DESC_CNT).find?
    (fun i => size ≤ (descs.getD i default).block_size)).getD DESC_CNT

/-- The slab-populating loop of sys_malloc: append blocks `idx`, `idx+1`,
… of a fresh arena to the free list, asserting each is not yet on it
(`ASSERT(!elem_find(...))`).  Interrupts are disabled around this loop in
the source; the model is single-threaded, so that has no observable
effect. -/
def populate_from (a bs idx cnt : Nat) (l : List Nat) : Res (List Nat) :=
  match cnt with
  | 0 => .ok l
  | n + 1 =>
    let b := arena2block a bs idx
    if l.contains b then .panic
    else populate_from a bs (idx + 1) n (l ++ [b])

/-- The tail of sys_malloc's slab path shared by both branches: pop the
head of the free list (`list_pop`), zero the block, decrement its arena's
counter, release the lock and return the block address.  `list_pop` on an
empty list dereferences the list sentinel — undefined behaviour, modelled
as a halt (it is unreachable in the source). -/
def sys_malloc_pop (isK : Bool) (d : Nat) (s : MState) : Res (Option Nat × MState) :=
  match free_list_of s isK d with
  | [] => .panic
  | b :: rest =>
    let s1 := set_free_list isK d rest s
    let bs := ((if isK then s1.k_block_descs else s1.u_block_descs).getD d default).block_size
    let s2 := memset_state b bs s1
    let a := block2arena b
    let hdr := (alist_get s2.arenas a).getD default
    let s3 := set_arena a { hdr with cnt := (hdr.cnt + MOD32 - 1) % MOD32 } s2
    .ok (some b, release_pool (pfOf isK) s3)

/-- The `size > 1024` path of sys_malloc: allocate
`DIV_ROUND_UP(size + sizeof(struct arena), PG_SIZE)` pages, zero them,
fill in the header `{desc = NULL, cnt = page_cnt, large = true}` and
return `(void *)(a + 1)`. -/
def sys_malloc_large (isK : Bool) (size : Nat) (s : MState) :
    Res (Option Nat × MState) :=
  match malloc_page (pfOf isK) (div_round_up (size + sizeof_arena) PG_SIZE) s with
  | .panic => .panic
  | .ok (none, s1) => .ok (none, release_pool (pfOf isK) s1)
  | .ok (some a, s1) =>
    .ok (some ((a + sizeof_arena) % MOD32),
      release_pool (pfOf isK)
        (set_arena a
          { desc := none, large := true,
            cnt := div_round_up (size + sizeof_arena) PG_SIZE }
          (memset_state a (div_round_up (size + sizeof_arena) PG_SIZE * PG_SIZE) s1)))

/-- The `size <= 1024` path of sys_malloc: pick the best descriptor; when
its free list is empty build a fresh one-page arena
(`{desc = &descs[idx], large = false, cnt = blocks_per_arena}`), populate
the free list, then pop a block. -/
def sys_malloc_small (isK : Bool) (size : Nat) (s : MState) :
    Res (Option Nat × MState) :=
  let pf := pfOf isK
  let descs := if isK then s.k_block_descs else s.u_block_descs
  let d := find_desc_idx descs size
  if (descs.getD d default).free_list.isEmpty then
    match malloc_page pf 1 s with
    | .panic => .panic
    | .ok (none, s1) => .ok (none, release_pool pf s1)
    | .ok (some a, s1) =>
      let s2 := memset_state a PG_SIZE s1
      let bd := (if isK then s2.k_block_descs else s2.u_block_descs).getD d default
      let s3 := set_arena a { desc := some (isK, d), large := false, cnt := bd.blocks_per_arena } s2
      match populate_from a bd.block_size 0 bd.blocks_per_arena (free_list_of s3 isK d) with
      | .panic => .panic
      | .ok l2 => sys_malloc_pop isK d (set_free_list isK d l2 s3)
  else sys_malloc_pop isK d s

/-- sys_malloc: pick the caller's domain from `running_thread()->pgdir`,
reject out-of-range sizes before taking the lock, then dispatch on
`size > 1024`. -/
def sys_malloc (size : Nat) (s : MState) : Res (Option Nat × MState) :=
  let isK := s.pgdir_null
  let pool_size := if isK then s.kernel_pool.pool_size else s.user_pool.pool_size
  if ¬(0 < size ∧ size < pool_size) then .ok (none, s)
  else
    let s1 := acquire_pool (pfOf isK) s
    if 1024 < size then sys_malloc_large isK size s1
    else sys_malloc_small isK size s1

/- ### pfree, page_table_pte_remove, vaddr_remove, mfree_page
(memory.c lines 416-497) -/

/-- pfree: clear the frame's bit in the pool owning it (chosen by
comparing against `user_pool.phy_addr_start`). -/
def pfree (pg_phy_addr : Nat) (s : MState) : MState :=
  if s.user_pool.phy_addr_start ≤ pg_phy_addr then
    let bit_idx := (pg_phy_addr + MOD32 - s.user_pool.phy_addr_start) % MOD32 / PG_SIZE
    { s with user_pool :=
      { s.user_pool with pool_bitmap := bitmap_set s.user_pool.pool_bitmap bit_idx false } }
  else
    let bit_idx := (pg_phy_addr + MOD32 - s.kernel_pool.phy_addr_start) % MOD32 / PG_SIZE
    { s with kernel_pool :=
      { s.kernel_pool with pool_bitmap := bitmap_set s.kernel_pool.pool_bitmap bit_idx false } }

/-- page_table_pte_remove: `*pte &= ~PG_P_1` (clear the present bit;
`invlpg` has no effect on the model state). -/
def page_table_pte_remove (vaddr : Nat) (s : MState) : MState :=
  { s with ptes := alist_set s.ptes (vpage vaddr) (pte_val s (vpage vaddr) / 2 * 2) }

/-- vaddr_remove: clear `pg_cnt` virtual-bitmap bits starting at
`(vaddr - vaddr_start) / PG_SIZE`. -/
def vaddr_remove (pf : PoolFlags) (vaddr pg_cnt : Nat) (s : MState) : MState :=
  match pf with
  | .PF_KERNEL =>
    let bit_idx_start := (vaddr + MOD32 - s.kernel_vaddr.vaddr_start) % MOD32 / PG_SIZE
    { s with kernel_vaddr := { s.kernel_vaddr with
        vaddr_bitmap := bitmap_set_range s.kernel_vaddr.vaddr_bitmap bit_idx_start pg_cnt false } }
  | .PF_USER =>
    let bit_idx_start := (vaddr + MOD32 - s.user_vaddr.vaddr_start) % MOD32 / PG_SIZE
    { s with user_vaddr := { s.user_vaddr with
        vaddr_bitmap := bitmap_set_range s.user_vaddr.vaddr_bitmap bit_idx_start pg_cnt false } }

/-- The user-pool loop of mfree_page: free page `i`, `i+1`, …; each
iteration asserts the frame is page-aligned and above
`user_pool.phy_addr_start`. -/
def mfree_loop_user (vaddr0 i cnt : Nat) (s : MState) : Res MState :=
  match cnt with
  | 0 => .ok s
  | n + 1 =>
    let vaddr := (vaddr0 + i * PG_SIZE) % MOD32
    let pg_phy_addr := addr_v2p vaddr s
    if pg_phy_addr % PG_SIZE = 0 ∧ s.user_pool.phy_addr_start ≤ pg_phy_addr then
      mfree_loop_user vaddr0 (i + 1) n (page_table_pte_remove vaddr (pfree pg_phy_addr s))
    else .panic

/-- The kernel-pool loop of mfree_page: as above but each frame is
asserted to lie in `[kernel_pool.phy_addr_start, user_pool.phy_addr_start)`. -/
def mfree_loop_kernel (vaddr0 i cnt : Nat) (s : MState) : Res MState :=
  match cnt with
  | 0 => .ok s
  | n + 1 =>
    let vaddr := (vaddr0 + i * PG_SIZE) % MOD32
    let pg_phy_addr := addr_v2p vaddr s
    if pg_phy_addr % PG_SIZE = 0 ∧ s.kernel_pool.phy_addr_start ≤ pg_phy_addr ∧
        pg_phy_addr < s.user_pool.phy_addr_start then
      mfree_loop_kernel vaddr0 (i + 1) n (page_table_pte_remove vaddr (pfree pg_phy_addr s))
    else .panic

/-- mfree_page: `ASSERT(pg_cnt >= 1 && vaddr % PG_SIZE == 0)`, then
`ASSERT(pg_phy_addr % PG_SIZE == 0 && pg_phy_addr >= 0x102000)` on the
first frame (nothing below the low 1 MiB plus the boot page directory and
first page table may ever be freed), then free every page through the
pool-specific loop and release the virtual bits.  The headers stored in
the freed pages are dead afterwards (model bookkeeping). -/
def mfree_page (pf : PoolFlags) (vaddr pg_cnt : Nat) (s : MState) : Res MState :=
  if ¬(1 ≤ pg_cnt ∧ vaddr % PG_SIZE = 0) then .panic
  else
    let pg_phy_addr := addr_v2p vaddr s
    if ¬(pg_phy_addr % PG_SIZE = 0 ∧ 0x102000 ≤ pg_phy_addr) then .panic
    else if s.user_pool.phy_addr_start ≤ pg_phy_addr then
      match mfree_loop_user vaddr 0 pg_cnt s with
      | .panic => .panic
      | .ok s1 =>
        .ok (arenas_drop_range vaddr (pg_cnt * PG_SIZE) (vaddr_remove pf vaddr pg_cnt s1))
    else
      match mfree_loop_kernel vaddr 0 pg_cnt s with
      | .panic => .panic
      | .ok s1 =>
        .ok (arenas_drop_range vaddr (pg_cnt * PG_SIZE) (vaddr_remove pf vaddr pg_cnt s1))

/- ### sys_free (memory.c lines 503-542) -/

/-- The unlink loop of sys_free: remove blocks `idx`, `idx+1`, … of a
fully-free arena from the free list; each `list_remove` is preceded by
`ASSERT(elem_find(...))`. -/
def unlink_from (a bs idx cnt : Nat) (l : List Nat) : Res (List Nat) :=
  match cnt with
  | 0 => .ok l
  | n + 1 =>
    let b := arena2block a bs idx
    if l.contains b then unlink_from a bs (idx + 1) n (l.erase b)
    else .panic

/-- sys_free: `ASSERT(ptr != NULL)`; kernel threads additionally assert
`ptr >= K_HEAP_START`.  Large arenas are freed wholesale; a small block is
appended back to its descriptor's free list and, when its arena becomes
fully free, the arena's blocks are unlinked and its page freed.
Dereferencing a NULL `a->desc` on the small path (possible only for a
corrupted header) is undefined behaviour, modelled as a halt. -/
def sys_free (ptr : Option Nat) (s : MState) : Res MState :=
  match ptr with
  | none => .panic
  | some p =>
    if s.pgdir_null ∧ p < K_HEAP_START then .panic
    else
      let isK := s.pgdir_null
      let pf := pfOf isK
      let s1 := acquire_pool pf s
      let a := block2arena p
      let hdr := (alist_get s1.arenas a).getD default
      if hdr.desc = none ∧ hdr.large = true then
        match mfree_page pf a hdr.cnt s1 with
        | .panic => .panic
        | .ok s2 => .ok (release_pool pf s2)
      else
        match hdr.desc with
        | none => .panic
        | some dp =>
          let l1 := free_list_of s1 dp.1 dp.2 ++ [p]
          let newCnt := (hdr.cnt + 1) % MOD32
          let s2 := set_arena a { hdr with cnt := newCnt } (set_free_list dp.1 dp.2 l1 s1)
          let bd := desc_of s2 dp
          if newCnt = bd.blocks_per_arena then
            match unlink_from a bd.block_size 0 bd.blocks_per_arena (free_list_of s2 dp.1 dp.2) with
            | .panic => .panic
            | .ok l2 =>
              match mfree_page pf a 1 (set_free_list dp.1 dp.2 l2 s2) with
              | .panic => .panic
              | .ok s3 => .ok (release_pool pf s3)
          else .ok (release_pool pf s2)

/-- free_a_phy_page: clear the frame's pool bit without touching the page
tables. -/
def free_a_phy_page (pg_phy_addr : Nat) (s : MState) : MState := pfree pg_phy_addr s

/-- The round trip of the spec's property 3: `sys_free(sys_malloc(s))`. -/
def malloc_free_trip (size : Nat) (s : MState) : Res MState :=
  match sys_malloc size s with
  | .panic => .panic
  | .ok (p, s1) => sys_free p s1

/- ### Helper projections for closed statements about results -/

/-- Was the computation free of assertion failures? -/
def res_is_ok {α : Type} (r : Res α) : Bool :=
  match r with
  | .ok _ => true
  | .panic => false

/-- The pointer returned by an allocation entry point (`none` both for a
NULL return and for a halt; used together with `res_is_ok`). -/
def res_addr (r : Res (Option Nat × MState)) : Option Nat :=
  match r with
  | .ok (p, _) => p
  | .panic => none

/-- The kernel-pool lock flag in the state an entry point returned. -/
def res_kernel_locked (r : Res (Option Nat × MState)) : Option Bool :=
  match r with
  | .ok (_, st) => some st.kernel_pool.locked
  | .panic => none

/-- A small, fully concrete machine state used to instantiate theorems:
both pools and both virtual pools manage 8 pages each and are empty, the
descriptors are freshly initialised, and the page-directory entries
covering both 8-page virtual ranges are present (PDE 768 covers the
kernel heap base 0xc0100000, PDE 32 covers the user base 0x8048000). -/
def baseState : MState :=
  { kernel_pool := ⟨⟨List.replicate 8 false⟩, 0x200000, 0xF00000, false⟩,
    user_pool := ⟨⟨List.replicate 8 false⟩, 0x1100000, 0xF00000, false⟩,
    kernel_vaddr := ⟨⟨List.replicate 8 false⟩, K_HEAP_START⟩,
    user_vaddr := ⟨⟨List.replicate 8 false⟩, 0x8048000⟩,
    pgdir_null := true,
    pdes := [768, 32],
    ptes := [],
    k_block_descs := block_desc_init,
    u_block_descs := block_desc_init,
    arenas := [],
    zeroed := [] }

/- ### C3 — the split of the free frames between the pools -/

/-- C3 (counterexample): with 0x203000 bytes of RAM there are 3 free
frames (odd); `mem_pool_init` gives the kernel pool 1 frame and the user
pool 2, so `kernel_pool.pool_size < user_pool.pool_size` — the odd extra
frame goes to the **user** pool, contradicting the claim that it goes to
the kernel pool and that `kernel_pool.pool_size >= user_pool.pool_size`. -/
theorem mem_pool_split_cex :
    all_free_pages_of 0x203000 % 2 = 1 ∧
      (mem_pool_init 0x203000).kernel_pool.pool_size <
        (mem_pool_init 0x203000).user_pool.pool_size := by
  decide

/-- C3 (amended): `mem_pool_init` computes
`kernel_free_pages = all_free_pages / 2` and
`user_free_pages = all_free_pages - kernel_free_pages`, so the split is
even with the odd extra frame assigned to the **user** pool; hence
`user_pool.pool_size = kernel_pool.pool_size + (all_free_pages % 2) * PG_SIZE`
and `kernel_pool.pool_size ≤ user_pool.pool_size` for every total memory
size. -/
theorem mem_pool_split (all_mem : Nat) :
    (mem_pool_init all_mem).user_pool.pool_size =
        (mem_pool_init all_mem).kernel_pool.pool_size +
          all_free_pages_of all_mem % 2 * PG_SIZE ∧
      (mem_pool_init all_mem).kernel_pool.pool_size ≤
        (mem_pool_init all_mem).user_pool.pool_size := by
  simp only [mem_pool_init, kernel_free_pages_of, user_free_pages_of, PG_SIZE]
  omega

/- ### C9 — 16-bit truncation of the free page count -/

/-- C9: `mem_pool_init` stores the free page count in a `uint16_t`; when
the free region holds at least 2^16 frames the pools are sized and placed
from the count reduced mod 2^16, which then differs from (and the kernel
pool is strictly smaller than it would be under) the true count. -/
theorem mem_pool_init_truncation (all_mem : Nat)
    (h1 : used_mem ≤ all_mem) (h2 : all_mem < MOD32)
    (h3 : 2 ^ 16 ≤ (all_mem - used_mem) / PG_SIZE) :
    all_free_pages_of all_mem = (all_mem - used_mem) / PG_SIZE % 2 ^ 16 ∧
      all_free_pages_of all_mem ≠ (all_mem - used_mem) / PG_SIZE ∧
      (mem_pool_init all_mem).kernel_pool.pool_size =
        (all_mem - used_mem) / PG_SIZE % 2 ^ 16 / 2 * PG_SIZE ∧
      (mem_pool_init all_mem).user_pool.pool_size =
        ((all_mem - used_mem) / PG_SIZE % 2 ^ 16 -
          (all_mem - used_mem) / PG_SIZE % 2 ^ 16 / 2) * PG_SIZE ∧
      (mem_pool_init all_mem).user_pool.phy_addr_start =
        used_mem + (all_mem - used_mem) / PG_SIZE % 2 ^ 16 / 2 * PG_SIZE ∧
      (mem_pool_init all_mem).kernel_pool.pool_size <
        (all_mem - used_mem) / PG_SIZE / 2 * PG_SIZE := by
  have hfree : all_free_pages_of all_mem = (all_mem - used_mem) / PG_SIZE % 2 ^ 16 := by
    simp only [all_free_pages_of, used_mem, PG_SIZE, MOD32] at *
    omega
  refine ⟨hfree, ?_, ?_, ?_, ?_, ?_⟩
  · simp only [hfree, PG_SIZE] at *
    omega
  · simp only [mem_pool_init, kernel_free_pages_of, hfree]
  · simp only [mem_pool_init, kernel_free_pages_of, user_free_pages_of, hfree]
  · simp only [mem_pool_init, kernel_free_pages_of, hfree, used_mem, PG_SIZE, MOD32]
    omega
  · simp only [mem_pool_init, kernel_free_pages_of, hfree, PG_SIZE] at *
    omega

/-- C9 (witness): with 512 MiB of RAM the free region holds 130560 frames
(≥ 2^16); the pools are computed from 130560 mod 2^16 = 65024. -/
theorem mem_pool_init_truncation_witness :
    used_mem ≤ 0x20000000 ∧ (0x20000000 : Nat) < MOD32 ∧
      2 ^ 16 ≤ ((0x20000000 : Nat) - used_mem) / PG_SIZE ∧
      all_free_pages_of 0x20000000 = 65024 :=
  ⟨by decide, by decide, by decide,
    by
      have h := mem_pool_init_truncation 0x20000000 (by decide) (by decide) (by decide)
      rw [h.1]
      decide⟩

/-- Reduce an `if` on a boolean known to be true. -/
theorem ite_bool_true {α : Sort 1} {b : Bool} (h : b = true) (x y : α) :
    (if b then x else y) = x := by
  subst h
  rfl

/-- Reduce an `if` on a boolean known to be false. -/
theorem ite_bool_false {α : Sort 1} {b : Bool} (h : b = false) (x y : α) :
    (if b then x else y) = y := by
  subst h
  rfl

/- ### C4 — out-of-range sizes in sys_malloc -/

/-- A state whose kernel virtual pool is completely full, so that any
kernel page allocation fails with NULL. -/
def exhaustedState : MState :=
  { baseState with kernel_vaddr := ⟨⟨List.replicate 8 true⟩, K_HEAP_START⟩ }

/-- C4 (counterexample): `sys_malloc` also returns NULL on exhaustion:
in `exhaustedState` the request `sys_malloc(16)` satisfies
`0 < 16 < pool_size` yet returns NULL (the virtual pool has no free run),
so "returns null exactly when size == 0 or size >= pool_size" is false. -/
theorem sys_malloc_exhaustion_cex :
    sys_malloc 16 exhaustedState = .ok (none, exhaustedState) ∧
      0 < 16 ∧ 16 < exhaustedState.kernel_pool.pool_size := by
  decide

/-- C4 (amended): `sys_malloc(size)` returns NULL whenever `size == 0` or
`size >= pool_size` of the caller's domain, and in that case the entire
state — every bitmap, free list, arena, page table and lock — is returned
unchanged (the check precedes `lock_acquire`); it can additionally return
NULL when the page allocator is exhausted. -/
theorem sys_malloc_oob_null (s : MState) (size : Nat)
    (h : size = 0 ∨
      (if s.pgdir_null then s.kernel_pool.pool_size else s.user_pool.pool_size) ≤ size) :
    sys_malloc size s = .ok (none, s) := by
  cases hpg : s.pgdir_null with
  | true =>
    simp only [ite_bool_true hpg] at h
    simp only [sys_malloc, ite_bool_true hpg]
    rw [if_pos (by omega)]
  | false =>
    simp only [ite_bool_false hpg] at h
    simp only [sys_malloc, ite_bool_false hpg]
    rw [if_pos (by omega)]

/-- C4 (witness): `sys_malloc(0)` and an over-large request both return
NULL with the state unchanged. -/
theorem sys_malloc_oob_null_witness :
    sys_malloc 0 baseState = .ok (none, baseState) ∧
      sys_malloc 0xF00000 baseState = .ok (none, baseState) :=
  ⟨sys_malloc_oob_null baseState 0 (Or.inl rfl),
    sys_malloc_oob_null baseState 0xF00000 (Or.inr (by decide))⟩

/- ### C5 — size-class selection -/

set_option maxRecDepth 4000 in
/-- C5: for `0 < size ≤ 1024`, sys_malloc's descriptor search selects the
first (and because block sizes double, the smallest) descriptor with
`block_size ≥ size` among the classes 16, 32, 64, 128, 256, 512, 1024;
for `size > 1024` (and in range) sys_malloc takes the large multi-page
path `sys_malloc_large` instead of the slab path. -/
theorem sys_malloc_size_class (size : Nat) (h0 : 0 < size) :
    (block_desc_init.map (fun bd => bd.block_size) =
        [16, 32, 64, 128, 256, 512, 1024]) ∧
      (size ≤ 1024 →
        find_desc_idx block_desc_init size < DESC_CNT ∧
          size ≤ (block_desc_init.getD (find_desc_idx block_desc_init size)
            default).block_size ∧
          (∀ e, size ≤ (block_desc_init.getD e default).block_size →
            find_desc_idx block_desc_init size ≤ e)) ∧
      (1024 < size → ∀ s : MState,
        size < (if s.pgdir_null then s.kernel_pool.pool_size
          else s.user_pool.pool_size) →
        sys_malloc size s =
          sys_malloc_large s.pgdir_null size (acquire_pool (pfOf s.pgdir_null) s)) := by
  refine ⟨by decide, fun h1024 => ?_, fun hgt s hps => ?_⟩
  · have hb : ∀ sz, sz < 1025 → 0 < sz →
        find_desc_idx block_desc_init sz < DESC_CNT ∧
          sz ≤ (block_desc_init.getD (find_desc_idx block_desc_init sz)
            default).block_size ∧
          (∀ e, e < DESC_CNT →
            sz ≤ (block_desc_init.getD e default).block_size →
            find_desc_idx block_desc_init sz ≤ e) := by decide
    obtain ⟨hc1, hc2, hc3⟩ := hb size (by omega) h0
    refine ⟨hc1, hc2, fun e he => ?_⟩
    by_cases hlt : e < DESC_CNT
    · exact hc3 e hlt he
    · exfalso
      have hge : 7 ≤ e := by
        simp only [DESC_CNT] at hlt
        omega
      have hlen : block_desc_init.length = 7 := by decide
      have hzero : (block_desc_init.getD e default).block_size = 0 := by
        have hnone : block_desc_init.getD e default = default := by
          simp only [List.getD]
          rw [List.get?_eq_none.mpr (by omega)]
          rfl
        rw [hnone]
        rfl
      omega
  · cases hpg : s.pgdir_null with
    | true =>
      simp only [ite_bool_true hpg] at hps
      simp only [sys_malloc, ite_bool_true hpg]
      rw [if_neg (by omega), if_pos hgt, hpg]
    | false =>
      simp only [ite_bool_false hpg] at hps
      simp only [sys_malloc, ite_bool_false hpg]
      rw [if_neg (by omega), if_pos hgt, hpg]

/-- C5 (witness): `sys_malloc(100)` selects the 128-byte class (index 3),
`sys_malloc(1024)` the 1024-byte class (index 6), and 1025 takes the
large path. -/
theorem sys_malloc_size_class_witness :
    find_desc_idx block_desc_init 100 = 3 ∧
      (block_desc_init.getD 3 default).block_size = 128 ∧
      find_desc_idx block_desc_init 1024 = 6 ∧
      (0 : Nat) < 100 ∧ (100 : Nat) ≤ 1024 ∧
      100 ≤ (block_desc_init.getD (find_desc_idx block_desc_init 100)
        default).block_size ∧
      sys_malloc 1025 baseState =
        sys_malloc_large true 1025 (acquire_pool .PF_KERNEL baseState) := by
  refine ⟨by decide, by decide, by decide, by decide, by decide,
    ((sys_malloc_size_class 100 (by decide)).2.1 (by decide)).2.1, ?_⟩
  have h := (sys_malloc_size_class 1025 (by decide)).2.2 (by decide) baseState (by decide)
  simpa using h

/- ### C7 — the user virtual-address upper-bound assertion -/

/-- A state whose current user virtual pool starts three pages below the
kernel base. -/
def highUserState : MState :=
  { baseState with
    pgdir_null := false,
    user_vaddr := ⟨⟨List.replicate 3 false⟩, 0xbfffd000⟩ }

/-- C7 (counterexample): a 3-page user reservation starting at 0xbfffd000
extends to 0xc0000000, past `0xc0000000 - PG_SIZE`; the claim says this
must halt on an assertion for any n, yet the source asserts only the base
address, which is in bounds, so `vaddr_get` succeeds. -/
theorem vaddr_get_user_overrun_cex :
    res_is_ok (vaddr_get .PF_USER 3 highUserState) = true ∧
      res_addr (vaddr_get .PF_USER 3 highUserState) = some 0xbfffd000 ∧
      0xc0000000 - PG_SIZE < 0xbfffd000 + 3 * PG_SIZE := by
  decide

/-- C7 (amended): the assertion in `vaddr_get` checks only the **base**
of the reserved run: every user reservation that returns successfully has
`base < 0xc0000000 - PG_SIZE`; later pages of the run may extend past
that bound without triggering the assertion. -/
theorem vaddr_get_user_base_bound (s : MState) (n v : Nat) (s2 : MState)
    (h : vaddr_get .PF_USER n s = .ok (some v, s2)) :
    v < 0xc0000000 - PG_SIZE := by
  simp only [vaddr_get] at h
  split at h
  · exact absurd h (by simp)
  · split at h
    · rename_i hlt
      injection h with h1
      injection h1 with h2 h3
      injection h2 with h4
      subst h4
      exact hlt
    · exact absurd h (by simp)


/- ### C10 — the pg_cnt assertion in malloc_page -/

/-- A state with a pool large enough that a 15 MiB request passes the
size check of sys_malloc. -/
def bigPoolState : MState :=
  { baseState with kernel_pool := ⟨⟨List.replicate 8 false⟩, 0x200000, 0x1000000, false⟩ }

/-- C10: every allocation routed through malloc_page asserts
`0 < pg_cnt < 3840`: a request of 0 pages or of ≥ 3840 pages halts the
kernel instead of returning NULL — through `get_kernel_pages`,
`get_user_pages`, and the large path of `sys_malloc` — regardless of the
state (so regardless of how much memory is actually free). -/
theorem malloc_page_count_assert :
    (∀ pf s, malloc_page pf 0 s = .panic) ∧
      (∀ pf (s : MState) n, 3840 ≤ n → malloc_page pf n s = .panic) ∧
      (∀ s, get_kernel_pages 0 s = .panic) ∧
      (∀ s, get_user_pages 0 s = .panic) ∧
      (∀ (s : MState) size, s.pgdir_null = true → 1024 < size →
        size < s.kernel_pool.pool_size →
        3840 ≤ div_round_up (size + sizeof_arena) PG_SIZE →
        sys_malloc size s = .panic) := by
  have hm0 : ∀ pf s, malloc_page pf 0 s = .panic := by
    intro pf s
    simp [malloc_page]
  have hmBig : ∀ pf (s : MState) n, 3840 ≤ n → malloc_page pf n s = .panic := by
    intro pf s n hn
    rw [malloc_page, if_pos (by omega)]
  refine ⟨hm0, hmBig, ?_, ?_, ?_⟩
  · intro s
    rw [get_kernel_pages, hm0]
  · intro s
    rw [get_user_pages, hm0]
  · intro s size hpg hgt hps hcnt
    have hm := hmBig (pfOf s.pgdir_null) (acquire_pool (pfOf s.pgdir_null) s)
      (div_round_up (size + sizeof_arena) PG_SIZE) hcnt
    simp only [sys_malloc, ite_bool_true hpg]
    rw [if_neg (by omega)]
    rw [if_pos hgt]
    rw [sys_malloc_large.eq_def, hm]

/-- C10 (witness): a zero-page request and a 3840-page request halt; so
does `sys_malloc(16 MiB - 16)` in a state whose kernel pool is 16 MiB. -/
theorem malloc_page_count_assert_witness :
    malloc_page .PF_KERNEL 0 baseState = .panic ∧
      malloc_page .PF_KERNEL 3840 baseState = .panic ∧
      get_kernel_pages 0 baseState = .panic ∧
      get_user_pages 0 baseState = .panic ∧
      sys_malloc 0xFFFFF0 bigPoolState = .panic :=
  ⟨malloc_page_count_assert.1 .PF_KERNEL baseState,
    malloc_page_count_assert.2.1 .PF_KERNEL baseState 3840 (by decide),
    malloc_page_count_assert.2.2.1 baseState,
    malloc_page_count_assert.2.2.2.1 baseState,
    malloc_page_count_assert.2.2.2.2 bigPoolState 0xFFFFF0 (by decide) (by decide)
      (by decide) (by decide)⟩

/- ### C2 — lock release on failure paths -/

/-- A state whose kernel physical pool is completely full, so `palloc`
fails. -/
def fullKernelPoolState : MState :=
  { baseState with kernel_pool := ⟨⟨List.replicate 8 true⟩, 0x200000, 0xF00000, false⟩ }

set_option maxRecDepth 10000 in
/-- C2: when `get_a_page` fails because `palloc` returns NULL it returns
NULL **without releasing the pool lock** (the source releases only on the
success path): starting unlocked, the call leaves `kernel_pool.lock`
held.  By contrast, `get_a_page_without_opvaddrbitmap` on the same
failing state releases the lock before returning NULL — the claim's
required behaviour. -/
theorem get_a_page_lock_leak :
    fullKernelPoolState.kernel_pool.locked = false ∧
      res_addr (get_a_page .PF_KERNEL (K_HEAP_START + PG_SIZE) fullKernelPoolState) = none ∧
      res_is_ok (get_a_page .PF_KERNEL (K_HEAP_START + PG_SIZE) fullKernelPoolState) = true ∧
      res_kernel_locked (get_a_page .PF_KERNEL (K_HEAP_START + PG_SIZE) fullKernelPoolState) =
        some true ∧
      res_kernel_locked
        (get_a_page_without_opvaddrbitmap .PF_KERNEL (K_HEAP_START + PG_SIZE)
          fullKernelPoolState) = some false := by
  decide

/-- The state left by the 1-page user reservation used as witness. -/
def highUserStateAfter : MState :=
  match vaddr_get .PF_USER 1 highUserState with
  | .ok (_, st) => st
  | .panic => highUserState

/-- C7 (witness): a successful 1-page user reservation at 0xbfffd000 is
below the asserted bound. -/
theorem vaddr_get_user_base_bound_witness :
    vaddr_get .PF_USER 1 highUserState = .ok (some 0xbfffd000, highUserStateAfter) ∧
      0xbfffd000 < 0xc0000000 - PG_SIZE :=
  ⟨by decide,
    vaddr_get_user_base_bound highUserState 1 0xbfffd000 highUserStateAfter (by decide)⟩

/- ### C8 — the reserved-region assertions of mfree_page -/

theorem addr_v2p_pfree (a p : Nat) (s : MState) :
    addr_v2p a (pfree p s) = addr_v2p a s := by
  simp only [addr_v2p, pte_val, pfree]
  split <;> rfl

theorem addr_v2p_pte_remove_ne (a b : Nat) (s : MState) (h : vpage b ≠ vpage a) :
    addr_v2p a (page_table_pte_remove b s) = addr_v2p a s := by
  simp only [addr_v2p, pte_val, page_table_pte_remove]
  rw [alist_get_set_ne _ _ _ _ h]

theorem pfree_upool_start (p : Nat) (s : MState) :
    (pfree p s).user_pool.phy_addr_start = s.user_pool.phy_addr_start := by
  simp only [pfree]
  split <;> rfl

theorem pfree_kpool_start (p : Nat) (s : MState) :
    (pfree p s).kernel_pool.phy_addr_start = s.kernel_pool.phy_addr_start := by
  simp only [pfree]
  split <;> rfl

/-- Every iteration of the user branch of mfree_page's loop succeeds only
if the frame it frees — read from the entry state's page table — is
page-aligned and at or above the user pool base. -/
theorem mfree_loop_user_frames (vaddr0 : Nat) : ∀ cnt i s s2,
    mfree_loop_user vaddr0 i cnt s = .ok s2 →
    (∀ t1 t2, i ≤ t1 → t1 < i + cnt → i ≤ t2 → t2 < i + cnt → t1 ≠ t2 →
      vpage ((vaddr0 + t1 * PG_SIZE) % MOD32) ≠
        vpage ((vaddr0 + t2 * PG_SIZE) % MOD32)) →
    ∀ t, i ≤ t → t < i + cnt →
      addr_v2p ((vaddr0 + t * PG_SIZE) % MOD32) s % PG_SIZE = 0 ∧
        s.user_pool.phy_addr_start ≤ addr_v2p ((vaddr0 + t * PG_SIZE) % MOD32) s := by
  intro cnt
  induction cnt with
  | zero =>
    intro i s s2 h hdist t ht1 ht2
    omega
  | succ n ih =>
    intro i s s2 h hdist t ht1 ht2
    simp only [mfree_loop_user] at h
    split at h
    · rename_i hcond
      by_cases hti : t = i
      · subst hti
        exact hcond
      · have hne : vpage ((vaddr0 + i * PG_SIZE) % MOD32) ≠
            vpage ((vaddr0 + t * PG_SIZE) % MOD32) :=
          hdist i t (by omega) (by omega) (by omega) (by omega) (by omega)
        have hrec := ih (i + 1)
          (page_table_pte_remove ((vaddr0 + i * PG_SIZE) % MOD32)
            (pfree (addr_v2p ((vaddr0 + i * PG_SIZE) % MOD32) s) s)) s2 h
          (fun t1 t2 a1 a2 a3 a4 a5 =>
            hdist t1 t2 (by omega) (by omega) (by omega) (by omega) a5)
          t (by omega) (by omega)
        rw [addr_v2p_pte_remove_ne _ _ _ hne, addr_v2p_pfree] at hrec
        have hst : (page_table_pte_remove ((vaddr0 + i * PG_SIZE) % MOD32)
            (pfree (addr_v2p ((vaddr0 + i * PG_SIZE) % MOD32) s) s)).user_pool.phy_addr_start =
            s.user_pool.phy_addr_start := by
          rw [show ∀ x y, (page_table_pte_remove x y).user_pool = y.user_pool from
            fun x y => rfl]
          exact pfree_upool_start _ _
        rw [hst] at hrec
        exact hrec
    · exact absurd h (by simp)

/-- Every iteration of the kernel branch of mfree_page's loop succeeds
only if the frame it frees is page-aligned and inside
`[kernel_pool.phy_addr_start, user_pool.phy_addr_start)`. -/
theorem mfree_loop_kernel_frames (vaddr0 : Nat) : ∀ cnt i s s2,
    mfree_loop_kernel vaddr0 i cnt s = .ok s2 →
    (∀ t1 t2, i ≤ t1 → t1 < i + cnt → i ≤ t2 → t2 < i + cnt → t1 ≠ t2 →
      vpage ((vaddr0 + t1 * PG_SIZE) % MOD32) ≠
        vpage ((vaddr0 + t2 * PG_SIZE) % MOD32)) →
    ∀ t, i ≤ t → t < i + cnt →
      addr_v2p ((vaddr0 + t * PG_SIZE) % MOD32) s % PG_SIZE = 0 ∧
        s.kernel_pool.phy_addr_start ≤ addr_v2p ((vaddr0 + t * PG_SIZE) % MOD32) s := by
  intro cnt
  induction cnt with
  | zero =>
    intro i s s2 h hdist t ht1 ht2
    omega
  | succ n ih =>
    intro i s s2 h hdist t ht1 ht2
    simp only [mfree_loop_kernel] at h
    split at h
    · rename_i hcond
      by_cases hti : t = i
      · subst hti
        exact ⟨hcond.1, hcond.2.1⟩
      · have hne : vpage ((vaddr0 + i * PG_SIZE) % MOD32) ≠
            vpage ((vaddr0 + t * PG_SIZE) % MOD32) :=
          hdist i t (by omega) (by omega) (by omega) (by omega) (by omega)
        have hrec := ih (i + 1)
          (page_table_pte_remove ((vaddr0 + i * PG_SIZE) % MOD32)
            (pfree (addr_v2p ((vaddr0 + i * PG_SIZE) % MOD32) s) s)) s2 h
          (fun t1 t2 a1 a2 a3 a4 a5 =>
            hdist t1 t2 (by omega) (by omega) (by omega) (by omega) a5)
          t (by omega) (by omega)
        rw [addr_v2p_pte_remove_ne _ _ _ hne, addr_v2p_pfree] at hrec
        have hst : (page_table_pte_remove ((vaddr0 + i * PG_SIZE) % MOD32)
            (pfree (addr_v2p ((vaddr0 + i * PG_SIZE) % MOD32) s) s)).kernel_pool.phy_addr_start =
            s.kernel_pool.phy_addr_start := by
          rw [show ∀ x y, (page_table_pte_remove x y).kernel_pool = y.kernel_pool from
            fun x y => rfl]
          exact pfree_kpool_start _ _
        rw [hst] at hrec
        exact hrec
    · exact absurd h (by simp)

/-- The frame from which page `i` of the range freed by
`mfree_page(pf, vaddr, n)` is backed, as recorded in the entry state's
page table. -/
def mfree_frame (s : MState) (vaddr i : Nat) : Nat :=
  addr_v2p ((vaddr + i * PG_SIZE) % MOD32) s

/-- C8: `mfree_page(domain, vaddr, n)` halts on a failed assertion when
`vaddr` is not page-aligned or `n < 1`; when it returns normally every
one of the `n` freed frames was asserted to lie at or above 0x102000
(the low 1 MiB plus the boot page directory and first page table — in
particular above the claim's "first 1 MiB + 2 KiB"); and it halts
whenever any freed frame lies below 0x102000 (hence whenever one lies
inside the reserved region).  The pool bases sit above the reserved
region, as `mem_pool_init` guarantees. -/
theorem mfree_page_reserved_guard (pf : PoolFlags) (s : MState) (vaddr n : Nat)
    (hk : 0x102000 ≤ s.kernel_pool.phy_addr_start)
    (hu : 0x102000 ≤ s.user_pool.phy_addr_start)
    (hnw : vaddr + n * PG_SIZE < MOD32) :
    (¬(1 ≤ n ∧ vaddr % PG_SIZE = 0) → mfree_page pf vaddr n s = .panic) ∧
      (∀ s2, mfree_page pf vaddr n s = .ok s2 →
        ∀ i, i < n → 0x102000 ≤ mfree_frame s vaddr i) ∧
      ((∃ i, i < n ∧ mfree_frame s vaddr i < 0x102000) →
        mfree_page pf vaddr n s = .panic) := by
  have hdist : ∀ t1 t2, 0 ≤ t1 → t1 < 0 + n → 0 ≤ t2 → t2 < 0 + n → t1 ≠ t2 →
      vpage ((vaddr + t1 * PG_SIZE) % MOD32) ≠ vpage ((vaddr + t2 * PG_SIZE) % MOD32) := by
    intro t1 t2 a1 a2 a3 a4 a5
    have e1 : (vaddr + t1 * PG_SIZE) % MOD32 = vaddr + t1 * PG_SIZE := by
      apply Nat.mod_eq_of_lt
      simp only [PG_SIZE, MOD32] at *
      omega
    have e2 : (vaddr + t2 * PG_SIZE) % MOD32 = vaddr + t2 * PG_SIZE := by
      apply Nat.mod_eq_of_lt
      simp only [PG_SIZE, MOD32] at *
      omega
    rw [e1, e2]
    simp only [vpage]
    rw [Nat.mod_eq_of_lt (by simp only [PG_SIZE, MOD32] at *; omega),
      Nat.mod_eq_of_lt (by simp only [PG_SIZE, MOD32] at *; omega)]
    simp only [PG_SIZE, MOD32] at *
    omega
  have hmain : ∀ s2, mfree_page pf vaddr n s = .ok s2 →
      ∀ i, i < n → 0x102000 ≤ mfree_frame s vaddr i := by
    intro s2 hok i hi
    simp only [mfree_page] at hok
    split at hok
    · exact absurd hok (by simp)
    · split at hok
      · exact absurd hok (by simp)
      · split at hok
        · split at hok
          · exact absurd hok (by simp)
          · rename_i s1 hloop
            have := mfree_loop_user_frames vaddr n 0 s s1 hloop hdist i (by omega)
              (by omega)
            exact le_trans hu this.2
        · split at hok
          · exact absurd hok (by simp)
          · rename_i s1 hloop
            have := mfree_loop_kernel_frames vaddr n 0 s s1 hloop hdist i (by omega)
              (by omega)
            exact le_trans hk this.2
  refine ⟨?_, hmain, ?_⟩
  · intro hbad
    simp only [mfree_page]
    rw [if_pos hbad]
  · intro hlow
    obtain ⟨i, hi, hfr⟩ := hlow
    cases hres : mfree_page pf vaddr n s with
    | panic => rfl
    | ok s2 =>
      have := hmain s2 hres i hi
      omega

/-- A state with one mapped user page at 0x8048000 backed by the frame
0x5000, which lies inside the boot-reserved region. -/
def lowFrameState : MState :=
  { baseState with ptes := [(vpage 0x8048000, 0x5007)] }

/-- C8 (witness): freeing one page whose frame is 0x5000 < 0x102000 halts
on an assertion; an unaligned address or a zero count also halts. -/
theorem mfree_page_reserved_guard_witness :
    mfree_page .PF_USER 0x8048000 1 lowFrameState = .panic ∧
      mfree_page .PF_KERNEL 0x8048001 1 lowFrameState = .panic ∧
      mfree_page .PF_KERNEL 0x8048000 0 lowFrameState = .panic ∧
      mfree_frame lowFrameState 0x8048000 0 = 0x5000 :=
  ⟨(mfree_page_reserved_guard .PF_USER lowFrameState 0x8048000 1 (by decide) (by decide)
      (by decide)).2.2 ⟨0, by decide, by decide⟩,
    (mfree_page_reserved_guard .PF_KERNEL lowFrameState 0x8048001 1 (by decide) (by decide)
      (by decide)).1 (by decide),
    (mfree_page_reserved_guard .PF_KERNEL lowFrameState 0x8048000 0 (by decide) (by decide)
      (by decide)).1 (by decide),
    by decide⟩

/- ### C6 — the large allocation path of sys_malloc -/

theorem palloc_some_meta (p : Pool) (phy : Nat) (p2 : Pool)
    (h : palloc p = some (phy, p2)) :
    p2.phy_addr_start = p.phy_addr_start ∧ p2.pool_size = p.pool_size ∧
      p2.locked = p.locked := by
  simp only [palloc] at h
  split at h
  · exact absurd h (by simp)
  · injection h with h1
    have h2 := congrArg Prod.snd h1
    simp only [] at h2
    subst h2
    exact ⟨rfl, rfl, rfl⟩

theorem palloc_pool_meta (p : Pool) :
    (match palloc p with | none => p | some x => x.2).phy_addr_start = p.phy_addr_start ∧
      (match palloc p with | none => p | some x => x.2).pool_size = p.pool_size ∧
      (match palloc p with | none => p | some x => x.2).locked = p.locked := by
  cases hp : palloc p with
  | none => exact ⟨rfl, rfl, rfl⟩
  | some x =>
    have := palloc_some_meta p x.1 x.2 (by rw [hp])
    simp only [hp]
    exact this

/-- Fields of the state that `page_table_add` never changes (it touches
only `ptes`, `pdes` and — when it allocates a page-table frame — the
kernel pool's bitmap). -/
theorem page_table_add_frame (v p : Nat) (s s1 : MState)
    (h : page_table_add v p s = .ok s1) :
    s1.kernel_vaddr = s.kernel_vaddr ∧ s1.user_vaddr = s.user_vaddr ∧
      s1.k_block_descs = s.k_block_descs ∧ s1.u_block_descs = s.u_block_descs ∧
      s1.arenas = s.arenas ∧ s1.zeroed = s.zeroed ∧ s1.pgdir_null = s.pgdir_null ∧
      s1.kernel_pool.phy_addr_start = s.kernel_pool.phy_addr_start ∧
      s1.kernel_pool.pool_size = s.kernel_pool.pool_size ∧
      s1.kernel_pool.locked = s.kernel_pool.locked ∧
      s1.user_pool = s.user_pool := by
  simp only [page_table_add] at h
  split at h
  · split at h
    · exact absurd h (by simp)
    · injection h with h1
      subst h1
      exact ⟨rfl, rfl, rfl, rfl, rfl, rfl, rfl, rfl, rfl, rfl, rfl⟩
  · injection h with h1
    subst h1
    have hm := palloc_pool_meta s.kernel_pool
    exact ⟨rfl, rfl, rfl, rfl, rfl, rfl, rfl, hm.1, hm.2.1, hm.2.2, rfl⟩

/-- Fields of the state that the page-mapping loop of `malloc_page` never
changes: both virtual pools, both descriptor arrays, the arena headers,
the memset log, the caller kind, and the metadata (base, size, lock) of
both physical pools. -/
theorem malloc_page_loop_frame (pf : PoolFlags) : ∀ cnt vaddr s r s2,
    malloc_page_loop pf vaddr cnt s = .ok (r, s2) →
    s2.kernel_vaddr = s.kernel_vaddr ∧ s2.user_vaddr = s.user_vaddr ∧
      s2.k_block_descs = s.k_block_descs ∧ s2.u_block_descs = s.u_block_descs ∧
      s2.arenas = s.arenas ∧ s2.zeroed = s.zeroed ∧ s2.pgdir_null = s.pgdir_null ∧
      s2.kernel_pool.phy_addr_start = s.kernel_pool.phy_addr_start ∧
      s2.kernel_pool.pool_size = s.kernel_pool.pool_size ∧
      s2.kernel_pool.locked = s.kernel_pool.locked ∧
      s2.user_pool.phy_addr_start = s.user_pool.phy_addr_start ∧
      s2.user_pool.pool_size = s.user_pool.pool_size ∧
      s2.user_pool.locked = s.user_pool.locked := by
  intro cnt
  induction cnt with
  | zero =>
    intro vaddr s r s2 h
    simp only [malloc_page_loop] at h
    injection h with h1
    have h2 : s = s2 := congrArg Prod.snd h1
    subst h2
    exact ⟨rfl, rfl, rfl, rfl, rfl, rfl, rfl, rfl, rfl, rfl, rfl, rfl, rfl⟩
  | succ n ih =>
    intro vaddr s r s2 h
    simp only [malloc_page_loop] at h
    split at h
    · injection h with h1
      have h2 : s = s2 := congrArg Prod.snd h1
      subst h2
      exact ⟨rfl, rfl, rfl, rfl, rfl, rfl, rfl, rfl, rfl, rfl, rfl, rfl, rfl⟩
    · rename_i phy pl hpal
      split at h
      · exact absurd h (by simp)
      · rename_i s1 hpta
        have hf1 := page_table_add_frame _ _ _ _ hpta
        have hf2 := ih _ _ _ _ h
        have hmeta := palloc_some_meta (poolOf pf s) phy pl hpal
        cases pf with
        | PF_KERNEL =>
          simp only [setPool, poolOf] at hf1 hmeta ⊢
          exact ⟨hf2.1.trans hf1.1, hf2.2.1.trans hf1.2.1,
            hf2.2.2.1.trans hf1.2.2.1, hf2.2.2.2.1.trans hf1.2.2.2.1,
            hf2.2.2.2.2.1.trans hf1.2.2.2.2.1,
            hf2.2.2.2.2.2.1.trans hf1.2.2.2.2.2.1,
            hf2.2.2.2.2.2.2.1.trans hf1.2.2.2.2.2.2.1,
            (hf2.2.2.2.2.2.2.2.1.trans hf1.2.2.2.2.2.2.2.1).trans hmeta.1,
            (hf2.2.2.2.2.2.2.2.2.1.trans hf1.2.2.2.2.2.2.2.2.1).trans hmeta.2.1,
            (hf2.2.2.2.2.2.2.2.2.2.1.trans hf1.2.2.2.2.2.2.2.2.2.1).trans hmeta.2.2,
            hf2.2.2.2.2.2.2.2.2.2.2.1.trans (congrArg Pool.phy_addr_start
              hf1.2.2.2.2.2.2.2.2.2.2),
            hf2.2.2.2.2.2.2.2.2.2.2.2.1.trans (congrArg Pool.pool_size
              hf1.2.2.2.2.2.2.2.2.2.2),
            hf2.2.2.2.2.2.2.2.2.2.2.2.2.trans (congrArg Pool.locked
              hf1.2.2.2.2.2.2.2.2.2.2)⟩
        | PF_USER =>
          simp only [setPool, poolOf] at hf1 hmeta ⊢
          exact ⟨hf2.1.trans hf1.1, hf2.2.1.trans hf1.2.1,
            hf2.2.2.1.trans hf1.2.2.1, hf2.2.2.2.1.trans hf1.2.2.2.1,
            hf2.2.2.2.2.1.trans hf1.2.2.2.2.1,
            hf2.2.2.2.2.2.1.trans hf1.2.2.2.2.2.1,
            hf2.2.2.2.2.2.2.1.trans hf1.2.2.2.2.2.2.1,
            hf2.2.2.2.2.2.2.2.1.trans hf1.2.2.2.2.2.2.2.1,
            hf2.2.2.2.2.2.2.2.2.1.trans hf1.2.2.2.2.2.2.2.2.1,
            hf2.2.2.2.2.2.2.2.2.2.1.trans hf1.2.2.2.2.2.2.2.2.2.1,
            (hf2.2.2.2.2.2.2.2.2.2.2.1.trans (congrArg Pool.phy_addr_start
              hf1.2.2.2.2.2.2.2.2.2.2)).trans hmeta.1,
            (hf2.2.2.2.2.2.2.2.2.2.2.2.1.trans (congrArg Pool.pool_size
              hf1.2.2.2.2.2.2.2.2.2.2)).trans hmeta.2.1,
            (hf2.2.2.2.2.2.2.2.2.2.2.2.2.trans (congrArg Pool.locked
              hf1.2.2.2.2.2.2.2.2.2.2)).trans hmeta.2.2⟩

/- Projection lemmas: which fields the state helpers leave unchanged. -/

@[simp] theorem setPool_kernel_vaddr (pf : PoolFlags) (p : Pool) (s : MState) :
    (setPool pf p s).kernel_vaddr = s.kernel_vaddr := by cases pf <;> rfl

@[simp] theorem setPool_user_vaddr (pf : PoolFlags) (p : Pool) (s : MState) :
    (setPool pf p s).user_vaddr = s.user_vaddr := by cases pf <;> rfl

@[simp] theorem setPool_pgdir (pf : PoolFlags) (p : Pool) (s : MState) :
    (setPool pf p s).pgdir_null = s.pgdir_null := by cases pf <;> rfl

@[simp] theorem setPool_arenas (pf : PoolFlags) (p : Pool) (s : MState) :
    (setPool pf p s).arenas = s.arenas := by cases pf <;> rfl

@[simp] theorem setPool_zeroed (pf : PoolFlags) (p : Pool) (s : MState) :
    (setPool pf p s).zeroed = s.zeroed := by cases pf <;> rfl

@[simp] theorem setPool_ptes (pf : PoolFlags) (p : Pool) (s : MState) :
    (setPool pf p s).ptes = s.ptes := by cases pf <;> rfl

@[simp] theorem setPool_pdes (pf : PoolFlags) (p : Pool) (s : MState) :
    (setPool pf p s).pdes = s.pdes := by cases pf <;> rfl

@[simp] theorem setPool_kdescs (pf : PoolFlags) (p : Pool) (s : MState) :
    (setPool pf p s).k_block_descs = s.k_block_descs := by cases pf <;> rfl

@[simp] theorem setPool_udescs (pf : PoolFlags) (p : Pool) (s : MState) :
    (setPool pf p s).u_block_descs = s.u_block_descs := by cases pf <;> rfl

@[simp] theorem memset_kernel_vaddr (a l : Nat) (s : MState) :
    (memset_state a l s).kernel_vaddr = s.kernel_vaddr := rfl

@[simp] theorem memset_user_vaddr (a l : Nat) (s : MState) :
    (memset_state a l s).user_vaddr = s.user_vaddr := rfl

@[simp] theorem memset_kernel_pool (a l : Nat) (s : MState) :
    (memset_state a l s).kernel_pool = s.kernel_pool := rfl

@[simp] theorem memset_user_pool (a l : Nat) (s : MState) :
    (memset_state a l s).user_pool = s.user_pool := rfl

@[simp] theorem memset_pgdir (a l : Nat) (s : MState) :
    (memset_state a l s).pgdir_null = s.pgdir_null := rfl

@[simp] theorem memset_ptes (a l : Nat) (s : MState) :
    (memset_state a l s).ptes = s.ptes := rfl

@[simp] theorem memset_pdes (a l : Nat) (s : MState) :
    (memset_state a l s).pdes = s.pdes := rfl

@[simp] theorem memset_kdescs (a l : Nat) (s : MState) :
    (memset_state a l s).k_block_descs = s.k_block_descs := rfl

@[simp] theorem memset_udescs (a l : Nat) (s : MState) :
    (memset_state a l s).u_block_descs = s.u_block_descs := rfl

@[simp] theorem set_arena_kernel_vaddr (a : Nat) (h : ArenaHdr) (s : MState) :
    (set_arena a h s).kernel_vaddr = s.kernel_vaddr := rfl

@[simp] theorem set_arena_user_vaddr (a : Nat) (h : ArenaHdr) (s : MState) :
    (set_arena a h s).user_vaddr = s.user_vaddr := rfl

@[simp] theorem set_arena_kernel_pool (a : Nat) (h : ArenaHdr) (s : MState) :
    (set_arena a h s).kernel_pool = s.kernel_pool := rfl

@[simp] theorem set_arena_user_pool (a : Nat) (h : ArenaHdr) (s : MState) :
    (set_arena a h s).user_pool = s.user_pool := rfl

@[simp] theorem set_arena_pgdir (a : Nat) (h : ArenaHdr) (s : MState) :
    (set_arena a h s).pgdir_null = s.pgdir_null := rfl

@[simp] theorem set_arena_ptes (a : Nat) (h : ArenaHdr) (s : MState) :
    (set_arena a h s).ptes = s.ptes := rfl

@[simp] theorem set_arena_zeroed (a : Nat) (h : ArenaHdr) (s : MState) :
    (set_arena a h s).zeroed = s.zeroed := rfl

@[simp] theorem set_arena_kdescs (a : Nat) (h : ArenaHdr) (s : MState) :
    (set_arena a h s).k_block_descs = s.k_block_descs := rfl

@[simp] theorem set_arena_udescs (a : Nat) (h : ArenaHdr) (s : MState) :
    (set_arena a h s).u_block_descs = s.u_block_descs := rfl

@[simp] theorem set_arena_arenas (a : Nat) (h : ArenaHdr) (s : MState) :
    (set_arena a h s).arenas = alist_set s.arenas a h := rfl

/-- The virtual pool of the caller's domain. -/
def callerVaddr (s : MState) : VirtualAddr :=
  if s.pgdir_null then s.kernel_vaddr else s.user_vaddr

/-- C6: on every successful large request (`size > 1024`), sys_malloc
reserves exactly `⌈(size + sizeof(struct arena)) / PG_SIZE⌉` contiguous
virtual pages of the caller's domain (that many previously-clear bitmap
bits starting at the base, all other bits untouched), zeroes the whole
range, writes the arena header `{desc = NULL, large = true, cnt = page
count}` at the base, and returns `base + sizeof(struct arena)`. -/
theorem sys_malloc_large_path (s : MState) (size r : Nat) (s2 : MState)
    (hgt : 1024 < size)
    (hnwk : s.kernel_vaddr.vaddr_start +
      s.kernel_vaddr.vaddr_bitmap.bits.length * PG_SIZE < MOD32)
    (hnwu : s.user_vaddr.vaddr_start +
      s.user_vaddr.vaddr_bitmap.bits.length * PG_SIZE < MOD32)
    (hok : sys_malloc size s = .ok (some r, s2)) :
    ∃ a i,
      r = a + sizeof_arena ∧
      a = (callerVaddr s).vaddr_start + i * PG_SIZE ∧
      i + div_round_up (size + sizeof_arena) PG_SIZE ≤
        (callerVaddr s).vaddr_bitmap.bits.length ∧
      alist_get s2.arenas a =
        some ⟨none, true, div_round_up (size + sizeof_arena) PG_SIZE⟩ ∧
      (a, div_round_up (size + sizeof_arena) PG_SIZE * PG_SIZE) ∈ s2.zeroed ∧
      (∀ t, t < div_round_up (size + sizeof_arena) PG_SIZE →
        (callerVaddr s).vaddr_bitmap.bits.getD (i + t) false = false ∧
          (callerVaddr s2).vaddr_bitmap.bits.getD (i + t) false = true) ∧
      (∀ k, k < i ∨ i + div_round_up (size + sizeof_arena) PG_SIZE ≤ k →
        (callerVaddr s2).vaddr_bitmap.bits.getD k false =
          (callerVaddr s).vaddr_bitmap.bits.getD k false) := by
  have hN1 : 1 ≤ div_round_up (size + sizeof_arena) PG_SIZE := by
    simp only [div_round_up, PG_SIZE, sizeof_arena]
    omega
  cases hpg : s.pgdir_null with
  | true =>
    simp only [sys_malloc, ite_bool_true hpg] at hok
    rw [hpg] at hok
    rw [if_pos hgt] at hok
    split at hok
    · exact absurd hok (by simp)
    · rw [show pfOf true = PoolFlags.PF_KERNEL from rfl] at hok
      rw [sys_malloc_large.eq_def] at hok
      simp only [show pfOf true = PoolFlags.PF_KERNEL from rfl] at hok
      split at hok
      · exact absurd hok (by simp)
      · exact absurd hok (by simp)
      · rename_i a s1 hmal
        injection hok with h1
        rw [Prod.mk.injEq, Option.some.injEq] at h1
        obtain ⟨hr, hs2⟩ := h1
        simp only [malloc_page] at hmal
        split at hmal
        · exact absurd hmal (by simp)
        · split at hmal
          · exact absurd hmal (by simp)
          · exact absurd hmal (by simp)
          · rename_i v sv hv
            split at hmal
            · exact absurd hmal (by simp)
            · exact absurd hmal (by simp)
            · rename_i s3 hloop
              injection hmal with h2
              rw [Prod.mk.injEq, Option.some.injEq] at h2
              obtain ⟨ha, hs1⟩ := h2
              simp only [vaddr_get, acquire_pool, setPool] at hv
              split at hv
              · exact absurd hv (by simp)
              · rename_i i hscan
                injection hv with h3
                rw [Prod.mk.injEq, Option.some.injEq] at h3
                obtain ⟨hvv, hsv⟩ := h3
                obtain ⟨hilen, hbits⟩ := bitmap_scan_some _ _ _ hscan
                have hmod : (s.kernel_vaddr.vaddr_start + i * PG_SIZE) % MOD32 =
                    s.kernel_vaddr.vaddr_start + i * PG_SIZE := by
                  apply Nat.mod_eq_of_lt
                  simp only [PG_SIZE, MOD32] at *
                  omega
                have hfr := malloc_page_loop_frame .PF_KERNEL
                  (div_round_up (size + sizeof_arena) PG_SIZE) v sv true s3 hloop
                have hkv : s2.kernel_vaddr.vaddr_bitmap = bitmap_set_range
                    s.kernel_vaddr.vaddr_bitmap i
                    (div_round_up (size + sizeof_arena) PG_SIZE) true := by
                  rw [← hs2]
                  simp only [release_pool, setPool_kernel_vaddr,
                    set_arena_kernel_vaddr, memset_kernel_vaddr]
                  rw [← hs1, hfr.1, ← hsv]
                have hpg2 : s2.pgdir_null = true := by
                  rw [← hs2]
                  simp only [release_pool, setPool_pgdir, set_arena_pgdir, memset_pgdir]
                  rw [← hs1, hfr.2.2.2.2.2.2.1, ← hsv]
                  exact hpg
                have haren : s2.arenas = alist_set
                    (memset_state a (div_round_up (size + sizeof_arena) PG_SIZE * PG_SIZE)
                      s1).arenas a
                    { desc := none, large := true,
                      cnt := div_round_up (size + sizeof_arena) PG_SIZE } := by
                  rw [← hs2]
                  simp only [release_pool, setPool_arenas, set_arena_arenas]
                have hzer : s2.zeroed =
                    (a, div_round_up (size + sizeof_arena) PG_SIZE * PG_SIZE) ::
                      s1.zeroed := by
                  rw [← hs2]
                  simp only [release_pool, setPool_zeroed, set_arena_zeroed]
                  rfl
                refine ⟨a, i, ?_, ?_, ?_, ?_, ?_, ?_, ?_⟩
                · rw [← hr]
                  apply Nat.mod_eq_of_lt
                  rw [← ha, ← hvv, hmod]
                  simp only [PG_SIZE, MOD32, sizeof_arena] at *
                  omega
                · simp only [callerVaddr, ite_bool_true hpg]
                  rw [← ha, ← hvv, hmod]
                · simp only [callerVaddr, ite_bool_true hpg]
                  omega
                · rw [haren]
                  exact alist_get_set_eq _ _ _
                · rw [hzer]
                  exact List.mem_cons_self _ _
                · intro t ht
                  simp only [callerVaddr, ite_bool_true hpg, ite_bool_true hpg2]
                  refine ⟨hbits t ht, ?_⟩
                  rw [hkv, bitmap_set_range_getD]
                  rw [if_pos (by omega)]
                · intro k hk
                  simp only [callerVaddr, ite_bool_true hpg, ite_bool_true hpg2]
                  rw [hkv, bitmap_set_range_getD]
                  rw [if_neg (by omega)]
  | false =>
    simp only [sys_malloc, ite_bool_false hpg] at hok
    rw [hpg] at hok
    rw [if_pos hgt] at hok
    split at hok
    · exact absurd hok (by simp)
    · rw [show pfOf false = PoolFlags.PF_USER from rfl] at hok
      rw [sys_malloc_large.eq_def] at hok
      simp only [show pfOf false = PoolFlags.PF_USER from rfl] at hok
      split at hok
      · exact absurd hok (by simp)
      · exact absurd hok (by simp)
      · rename_i a s1 hmal
        injection hok with h1
        rw [Prod.mk.injEq, Option.some.injEq] at h1
        obtain ⟨hr, hs2⟩ := h1
        simp only [malloc_page] at hmal
        split at hmal
        · exact absurd hmal (by simp)
        · split at hmal
          · exact absurd hmal (by simp)
          · exact absurd hmal (by simp)
          · rename_i v sv hv
            split at hmal
            · exact absurd hmal (by simp)
            · exact absurd hmal (by simp)
            · rename_i s3 hloop
              injection hmal with h2
              rw [Prod.mk.injEq, Option.some.injEq] at h2
              obtain ⟨ha, hs1⟩ := h2
              simp only [vaddr_get, acquire_pool, setPool] at hv
              split at hv
              · exact absurd hv (by simp)
              · rename_i i hscan
                split at hv
                swap
                · exact absurd hv (by simp)
                rename_i hbound
                injection hv with h3
                rw [Prod.mk.injEq, Option.some.injEq] at h3
                obtain ⟨hvv, hsv⟩ := h3
                obtain ⟨hilen, hbits⟩ := bitmap_scan_some _ _ _ hscan
                have hmod : (s.user_vaddr.vaddr_start + i * PG_SIZE) % MOD32 =
                    s.user_vaddr.vaddr_start + i * PG_SIZE := by
                  apply Nat.mod_eq_of_lt
                  simp only [PG_SIZE, MOD32] at *
                  omega
                have hfr := malloc_page_loop_frame .PF_USER
                  (div_round_up (size + sizeof_arena) PG_SIZE) v sv true s3 hloop
                have hkv : s2.user_vaddr.vaddr_bitmap = bitmap_set_range
                    s.user_vaddr.vaddr_bitmap i
                    (div_round_up (size + sizeof_arena) PG_SIZE) true := by
                  rw [← hs2]
                  simp only [release_pool, setPool_user_vaddr,
                    set_arena_user_vaddr, memset_user_vaddr]
                  rw [← hs1, hfr.2.1, ← hsv]
                have hpg2 : s2.pgdir_null = false := by
                  rw [← hs2]
                  simp only [release_pool, setPool_pgdir, set_arena_pgdir, memset_pgdir]
                  rw [← hs1, hfr.2.2.2.2.2.2.1, ← hsv]
                  exact hpg
                have haren : s2.arenas = alist_set
                    (memset_state a (div_round_up (size + sizeof_arena) PG_SIZE * PG_SIZE)
                      s1).arenas a
                    { desc := none, large := true,
                      cnt := div_round_up (size + sizeof_arena) PG_SIZE } := by
                  rw [← hs2]
                  simp only [release_pool, setPool_arenas, set_arena_arenas]
                have hzer : s2.zeroed =
                    (a, div_round_up (size + sizeof_arena) PG_SIZE * PG_SIZE) ::
                      s1.zeroed := by
                  rw [← hs2]
                  simp only [release_pool, setPool_zeroed, set_arena_zeroed]
                  rfl
                refine ⟨a, i, ?_, ?_, ?_, ?_, ?_, ?_, ?_⟩
                · rw [← hr]
                  apply Nat.mod_eq_of_lt
                  rw [← ha, ← hvv, hmod]
                  simp only [PG_SIZE, MOD32, sizeof_arena] at *
                  omega
                · simp only [callerVaddr, ite_bool_false hpg]
                  rw [← ha, ← hvv, hmod]
                · simp only [callerVaddr, ite_bool_false hpg]
                  omega
                · rw [haren]
                  exact alist_get_set_eq _ _ _
                · rw [hzer]
                  exact List.mem_cons_self _ _
                · intro t ht
                  simp only [callerVaddr, ite_bool_false hpg, ite_bool_false hpg2]
                  refine ⟨hbits t ht, ?_⟩
                  rw [hkv, bitmap_set_range_getD]
                  rw [if_pos (by omega)]
                · intro k hk
                  simp only [callerVaddr, ite_bool_false hpg, ite_bool_false hpg2]
                  rw [hkv, bitmap_set_range_getD]
                  rw [if_neg (by omega)]

/-- The state after the witness call `sys_malloc(2000)`. -/
def c6After : MState :=
  match sys_malloc 2000 baseState with
  | .ok (_, st) => st
  | .panic => baseState

set_option maxRecDepth 10000 in
/-- C6 (witness): `sys_malloc(2000)` takes the large path, allocates
`⌈(2000 + sizeof(struct arena)) / 4096⌉ = 1` page at 0xc0100000, and
returns `0xc0100000 + sizeof(struct arena)`. -/
theorem sys_malloc_large_path_witness :
    (1024 < 2000 ∧ div_round_up (2000 + sizeof_arena) PG_SIZE = 1 ∧
      sys_malloc 2000 baseState = Res.ok (some 0xc010000c, c6After)) ∧
      (∃ a i, (0xc010000c : Nat) = a + sizeof_arena ∧
        a = (callerVaddr baseState).vaddr_start + i * PG_SIZE ∧
        i + div_round_up (2000 + sizeof_arena) PG_SIZE ≤
          (callerVaddr baseState).vaddr_bitmap.bits.length ∧
        alist_get c6After.arenas a =
          some ⟨none, true, div_round_up (2000 + sizeof_arena) PG_SIZE⟩ ∧
        (a, div_round_up (2000 + sizeof_arena) PG_SIZE * PG_SIZE) ∈ c6After.zeroed ∧
        (∀ t, t < div_round_up (2000 + sizeof_arena) PG_SIZE →
          (callerVaddr baseState).vaddr_bitmap.bits.getD (i + t) false = false ∧
            (callerVaddr c6After).vaddr_bitmap.bits.getD (i + t) false = true) ∧
        (∀ k, k < i ∨ i + div_round_up (2000 + sizeof_arena) PG_SIZE ≤ k →
          (callerVaddr c6After).vaddr_bitmap.bits.getD k false =
            (callerVaddr baseState).vaddr_bitmap.bits.getD k false)) :=
  ⟨⟨by decide, by decide, by decide⟩,
    sys_malloc_large_path baseState 2000 0xc010000c c6After (by decide) (by decide)
      (by decide) (by decide)⟩

/- ### C1 — the sys_free / sys_malloc round trip -/

/-- A kernel-thread state with one live 16-byte slab arena at 0xc0101000
whose free list holds two blocks (in list order first 0xc010100c, then
0xc010101c); the arena's counter 2 equals its number of free blocks. -/
def roundtripListState : MState :=
  { baseState with
    k_block_descs := List.modify
      (fun bd => { bd with free_list := [0xc010100c, 0xc010101c] }) 0 block_desc_init,
    arenas := [(0xc0101000, ⟨some (true, 0), false, 2⟩)] }

def roundtripListAfter : MState :=
  match malloc_free_trip 16 roundtripListState with
  | .ok st => st
  | .panic => roundtripListState

/-- A user-process state whose heap page at 0x8048000 has no
page-directory entry yet (PDE 32 absent), so mapping it allocates a
page-table frame from the kernel pool. -/
def roundtripPdeState : MState :=
  { baseState with pgdir_null := false, pdes := [768] }

def roundtripPdeAfter : MState :=
  match malloc_free_trip 2000 roundtripPdeState with
  | .ok st => st
  | .panic => roundtripPdeState

set_option maxRecDepth 10000 in
/-- C1 (counterexample): the round trip `sys_free(sys_malloc(s))` does
not restore the exact prior state.  (1) `sys_malloc(16)` pops the head of
the 16-byte free list and `sys_free` appends it at the tail, so the free
list comes back in a different order; (2) for a user process whose page
needs a fresh page table, `page_table_add` allocates a kernel-pool frame
that `sys_free` never returns, so the kernel physical bitmap differs. -/
theorem malloc_free_roundtrip_cex :
    ((0 : Nat) < 16 ∧ 16 < roundtripListState.kernel_pool.pool_size ∧
      malloc_free_trip 16 roundtripListState = .ok roundtripListAfter ∧
      (roundtripListState.k_block_descs.getD 0 default).free_list =
        [0xc010100c, 0xc010101c] ∧
      (roundtripListAfter.k_block_descs.getD 0 default).free_list =
        [0xc010101c, 0xc010100c]) ∧
    ((0 : Nat) < 2000 ∧ 2000 < roundtripPdeState.user_pool.pool_size ∧
      malloc_free_trip 2000 roundtripPdeState = .ok roundtripPdeAfter ∧
      roundtripPdeAfter.kernel_pool.pool_bitmap ≠
        roundtripPdeState.kernel_pool.pool_bitmap ∧
      roundtripPdeAfter.user_pool.pool_bitmap =
        roundtripPdeState.user_pool.pool_bitmap ∧
      roundtripPdeAfter.user_vaddr.vaddr_bitmap =
        roundtripPdeState.user_vaddr.vaddr_bitmap) := by
  decide

/- ### C1 supporting lemmas: bit-list folds, 32-bit arithmetic, palloc -/

/-- The opposite pool flag. -/
def otherPf (pf : PoolFlags) : PoolFlags :=
  match pf with
  | .PF_KERNEL => .PF_USER
  | .PF_USER => .PF_KERNEL

/-- Set each listed bit of a bitmap to `v`, first element first. -/
def setBits (js : List Nat) (v : Bool) (bm : Bitmap) : Bitmap :=
  js.foldl (fun acc j => bitmap_set acc j v) bm

theorem setBits_length (js : List Nat) (v : Bool) (bm : Bitmap) :
    (setBits js v bm).bits.length = bm.bits.length := by
  induction js generalizing bm with
  | nil => rfl
  | cons j t ih =>
    simp only [setBits, List.foldl] at *
    rw [ih]
    exact listSet_length _ _ _

theorem setBits_getD (js : List Nat) (v : Bool) (bm : Bitmap) (k : Nat) :
    (setBits js v bm).bits.getD k false =
      if k ∈ js ∧ k < bm.bits.length then v else bm.bits.getD k false := by
  induction js generalizing bm with
  | nil =>
    simp only [setBits, List.foldl, List.not_mem_nil, false_and, if_false]
  | cons j t ih =>
    simp only [setBits, List.foldl] at *
    rw [ih]
    simp only [bitmap_set, listSet_length, listSet_getD, List.mem_cons]
    by_cases hmem : k ∈ t ∧ k < bm.bits.length
    · rw [if_pos hmem, if_pos ⟨Or.inr hmem.1, hmem.2⟩]
    · rw [if_neg hmem]
      by_cases hj : j = k ∧ j < bm.bits.length
      · rw [if_pos hj, if_pos ⟨Or.inl hj.1.symm, hj.1 ▸ hj.2⟩]
      · rw [if_neg hj]
        rw [if_neg (by
          rintro ⟨hor | hor, hk2⟩
          · exact hj ⟨hor.symm, hor ▸ hk2⟩
          · exact hmem ⟨hor, hk2⟩)]

/-- Clearing a list of bits after setting them restores a bitmap in which
they were all clear. -/
theorem setBits_restore (js : List Nat) (bm : Bitmap)
    (h : ∀ j ∈ js, bm.bits.getD j false = false) :
    setBits js false (setBits js true bm) = bm := by
  apply Bitmap.ext_bits
  apply list_ext_getD
  · rw [setBits_length, setBits_length]
  · intro k
    rw [setBits_getD]
    simp only [setBits_length]
    rw [setBits_getD]
    by_cases hk : k ∈ js ∧ k < bm.bits.length
    · rw [if_pos hk]
      exact (h k hk.1).symm
    · rw [if_neg hk, if_neg hk]

theorem vpage_mod_add (a b : Nat) : vpage (a % MOD32 + b) = vpage (a + b) := by
  simp only [vpage]
  rw [Nat.mod_add_mod]

theorem pde_idx_mod_add (a b : Nat) : PDE_IDX (a % MOD32 + b) = PDE_IDX (a + b) := by
  simp only [PDE_IDX]
  rw [Nat.mod_add_mod]

theorem vpage_of_lt (a : Nat) (h : a < MOD32) : vpage a = a / PG_SIZE := by
  simp only [vpage]
  rw [Nat.mod_eq_of_lt h]

/-- ORing the flag bits `PG_US_U | PG_RW_W | PG_P_1 = 7` into a
page-aligned address is plain addition. -/
theorem lor_seven_eq_add (p : Nat) (h : p % PG_SIZE = 0) : p ||| 7 = p + 7 := by
  obtain ⟨q, rfl⟩ : ∃ q, p = 2 ^ 12 * q := ⟨p / 4096, by simp only [PG_SIZE] at h; omega⟩
  apply Nat.eq_of_testBit_eq
  intro i
  rw [Nat.testBit_lor]
  rw [Nat.testBit_mul_pow_two_add _ (by norm_num : (7 : Nat) < 2 ^ 12)]
  rcases Nat.lt_or_ge i 12 with hi | hi
  · simp only [if_pos hi, Nat.testBit_mul_pow_two]
    simp [Nat.not_le_of_lt hi, Nat.lt_of_lt_of_le hi]
  · simp only [if_neg (Nat.not_lt_of_le hi), Nat.testBit_mul_pow_two]
    have h7 : Nat.testBit 7 i = false := by
      have : (7 : Nat) < 2 ^ i :=
        Nat.lt_of_lt_of_le (by norm_num) (Nat.pow_le_pow_right (by norm_num) hi)
      exact Nat.testBit_lt_two_pow this
    simp [hi, h7]

/-- What a successful palloc did: it found the first clear bit `j`,
set it, and returned `j * PG_SIZE + phy_addr_start`. -/
theorem palloc_some_char (p : Pool) (phy : Nat) (p2 : Pool)
    (h : palloc p = some (phy, p2)) :
    ∃ j, j < p.pool_bitmap.bits.length ∧
      p.pool_bitmap.bits.getD j false = false ∧
      phy = (j * PG_SIZE + p.phy_addr_start) % MOD32 ∧
      p2 = { p with pool_bitmap := bitmap_set p.pool_bitmap j true } := by
  simp only [palloc] at h
  split at h
  · exact absurd h (by simp)
  · rename_i j hscan
    injection h with h1
    rw [Prod.mk.injEq] at h1
    obtain ⟨hphy, hp2⟩ := h1
    obtain ⟨hlen, hbit⟩ := bitmap_scan_some _ _ _ hscan
    exact ⟨j, by omega, by simpa using hbit 0 (by omega), hphy.symm, hp2.symm⟩

@[simp] theorem poolOf_setPool_same (pf : PoolFlags) (p : Pool) (s : MState) :
    poolOf pf (setPool pf p s) = p := by cases pf <;> rfl

@[simp] theorem poolOf_setPool_other (pf : PoolFlags) (p : Pool) (s : MState) :
    poolOf (otherPf pf) (setPool pf p s) = poolOf (otherPf pf) s := by
  cases pf <;> rfl

@[simp] theorem poolOf_ptes_update (pf : PoolFlags) (x : MState) (l : List (Nat × Nat)) :
    poolOf pf { x with ptes := l } = poolOf pf x := by cases pf <;> rfl

/-- Full characterization of a successful mapping loop when every needed
page-directory entry is already present: it allocated a list `js` of
previously-clear caller-pool bits (one per page, in order), set them,
installed `pte = frame | 7` for every page, and touched nothing else in
the page table, the other pool, or the PDE set. -/
theorem malloc_page_loop_char (pf : PoolFlags) : ∀ cnt vaddr s s2,
    malloc_page_loop pf vaddr cnt s = .ok (true, s2) →
    (∀ t, t < cnt → s.pdes.contains (PDE_IDX (vaddr + t * PG_SIZE)) = true) →
    (∀ t1 t2, t1 < cnt → t2 < cnt → t1 ≠ t2 →
      vpage (vaddr + t1 * PG_SIZE) ≠ vpage (vaddr + t2 * PG_SIZE)) →
    ∃ js : List Nat,
      js.length = cnt ∧ js.Nodup ∧
      (∀ j ∈ js, j < (poolOf pf s).pool_bitmap.bits.length ∧
        (poolOf pf s).pool_bitmap.bits.getD j false = false) ∧
      (poolOf pf s2).pool_bitmap = setBits js true (poolOf pf s).pool_bitmap ∧
      poolOf (otherPf pf) s2 = poolOf (otherPf pf) s ∧
      (∀ t, t < cnt → pte_val s2 (vpage (vaddr + t * PG_SIZE)) =
        (js.getD t 0 * PG_SIZE + (poolOf pf s).phy_addr_start) % MOD32 ||| 7) ∧
      (∀ k, (∀ t, t < cnt → k ≠ vpage (vaddr + t * PG_SIZE)) →
        pte_val s2 k = pte_val s k) ∧
      s2.pdes = s.pdes := by
  intro cnt
  induction cnt with
  | zero =>
    intro vaddr s s2 h hpde hvp
    simp only [malloc_page_loop] at h
    injection h with h1
    rw [Prod.mk.injEq] at h1
    obtain ⟨-, hs⟩ := h1
    subst hs
    refine ⟨[], rfl, List.nodup_nil, ?_, rfl, rfl, ?_, ?_, rfl⟩
    · intro j hj
      exact absurd hj (List.not_mem_nil j)
    · intro t ht
      omega
    · intro k _
      rfl
  | succ n ih =>
    intro vaddr s s2 h hpde hvp
    simp only [malloc_page_loop] at h
    split at h
    · exact absurd h (by simp)
    · rename_i phy pl hpal
      split at h
      · exact absurd h (by simp)
      · rename_i s1 hpta
        obtain ⟨j, hjlen, hjbit, hphy, hpl⟩ := palloc_some_char _ _ _ hpal
        subst hphy
        subst hpl
        have hcont : (setPool pf
            { poolOf pf s with pool_bitmap := bitmap_set (poolOf pf s).pool_bitmap j true }
            s).pdes.contains (PDE_IDX vaddr) = true := by
          rw [setPool_pdes]
          have h0 := hpde 0 (by omega)
          simpa using h0
        simp only [page_table_add, ite_bool_true hcont] at hpta
        split at hpta
        · exact absurd hpta (by simp)
        · rename_i hodd
          injection hpta with h2
          subst h2
          have hpde2 : ∀ t, t < n →
              ({ setPool pf
                  { poolOf pf s with
                    pool_bitmap := bitmap_set (poolOf pf s).pool_bitmap j true } s with
                ptes := alist_set (setPool pf
                  { poolOf pf s with
                    pool_bitmap := bitmap_set (poolOf pf s).pool_bitmap j true } s).ptes
                  (vpage vaddr)
                  ((j * PG_SIZE + (poolOf pf s).phy_addr_start) % MOD32 |||
                    7) } : MState).pdes.contains
                (PDE_IDX ((vaddr + PG_SIZE) % MOD32 + t * PG_SIZE)) = true := by
            intro t ht
            show (setPool pf _ s).pdes.contains _ = true
            rw [setPool_pdes, pde_idx_mod_add]
            have e : vaddr + PG_SIZE + t * PG_SIZE = vaddr + (t + 1) * PG_SIZE := by ring
            rw [e]
            exact hpde (t + 1) (by omega)
          have hvp2 : ∀ t1 t2, t1 < n → t2 < n → t1 ≠ t2 →
              vpage ((vaddr + PG_SIZE) % MOD32 + t1 * PG_SIZE) ≠
                vpage ((vaddr + PG_SIZE) % MOD32 + t2 * PG_SIZE) := by
            intro t1 t2 a1 a2 a3
            rw [vpage_mod_add, vpage_mod_add]
            have e1 : vaddr + PG_SIZE + t1 * PG_SIZE = vaddr + (t1 + 1) * PG_SIZE := by ring
            have e2 : vaddr + PG_SIZE + t2 * PG_SIZE = vaddr + (t2 + 1) * PG_SIZE := by ring
            rw [e1, e2]
            exact hvp (t1 + 1) (t2 + 1) (by omega) (by omega) (by omega)
          obtain ⟨js2, hlen2, hnd2, hfresh2, hbm2, hoth2, hpte2, hkeep2, hpdes2⟩ :=
            ih _ _ _ h hpde2 hvp2
          have hp1 : poolOf pf ({ setPool pf
              { poolOf pf s with
                pool_bitmap := bitmap_set (poolOf pf s).pool_bitmap j true } s with
              ptes := alist_set (setPool pf
                { poolOf pf s with
                  pool_bitmap := bitmap_set (poolOf pf s).pool_bitmap j true } s).ptes
                (vpage vaddr)
                ((j * PG_SIZE + (poolOf pf s).phy_addr_start) % MOD32 ||| 7) } : MState) =
              { poolOf pf s with
                pool_bitmap := bitmap_set (poolOf pf s).pool_bitmap j true } := by
            rw [poolOf_ptes_update, poolOf_setPool_same]
          refine ⟨j :: js2, by simp [hlen2], ?_, ?_, ?_, ?_, ?_, ?_, ?_⟩
          · rw [List.nodup_cons]
            refine ⟨fun hmem => ?_, hnd2⟩
            have := (hfresh2 j hmem).2
            rw [hp1] at this
            simp only [bitmap_set] at this
            rw [listSet_getD, if_pos ⟨rfl, hjlen⟩] at this
            exact Bool.noConfusion this
          · intro j2 hj2
            rcases List.mem_cons.mp hj2 with hj2 | hj2
            · subst hj2
              exact ⟨hjlen, hjbit⟩
            · have := hfresh2 j2 hj2
              rw [hp1] at this
              simp only [bitmap_set, listSet_length, listSet_getD] at this
              refine ⟨this.1, ?_⟩
              have h2 := this.2
              split at h2
              · exact absurd h2 (by simp)
              · exact h2
          · rw [hbm2, hp1]
            simp only [setBits, List.foldl, bitmap_set]
          · rw [hoth2]
            rw [show otherPf pf = otherPf pf from rfl] at *
            rw [poolOf_ptes_update, poolOf_setPool_other]
          · intro t ht
            cases t with
            | zero =>
              simp only [Nat.zero_mul, Nat.add_zero, List.getD_cons_zero]
              have hne : ∀ t2, t2 < n → vpage vaddr ≠
                  vpage ((vaddr + PG_SIZE) % MOD32 + t2 * PG_SIZE) := by
                intro t2 ht2
                rw [vpage_mod_add]
                have e : vaddr + PG_SIZE + t2 * PG_SIZE = vaddr + (t2 + 1) * PG_SIZE := by
                  ring
                rw [e]
                have := hvp 0 (t2 + 1) (by omega) (by omega) (by omega)
                simpa using this
              have hkv := hkeep2 (vpage vaddr) hne
              rw [hkv]
              show (alist_get (alist_set _ (vpage vaddr) _) (vpage vaddr)).getD 0 = _
              rw [alist_get_set_eq]
              rfl
            | succ t2 =>
              have := hpte2 t2 (by omega)
              rw [vpage_mod_add] at this
              have e : vaddr + PG_SIZE + t2 * PG_SIZE = vaddr + (t2 + 1) * PG_SIZE := by
                ring
              rw [e] at this
              rw [this, hp1]
              simp only [List.getD_cons_succ]
          · intro k hk
            have hk2 : ∀ t, t < n → k ≠ vpage ((vaddr + PG_SIZE) % MOD32 + t * PG_SIZE) := by
              intro t ht
              rw [vpage_mod_add]
              have e : vaddr + PG_SIZE + t * PG_SIZE = vaddr + (t + 1) * PG_SIZE := by ring
              rw [e]
              exact hk (t + 1) (by omega)
            rw [hkeep2 k hk2]
            show (alist_get (alist_set _ (vpage vaddr) _) k).getD 0 = pte_val s k
            rw [alist_get_set_ne _ _ _ _ (fun he => hk 0 (by omega) (by
              rw [← he]
              simp))]
            rw [setPool_ptes]
            rfl
          · rw [hpdes2]
            exact setPool_pdes pf _ s

theorem vpage_mod (x : Nat) : vpage (x % MOD32) = vpage x := by
  simp only [vpage, MOD32, PG_SIZE]
  omega

/-- Exact effect of a successful kernel-branch free loop when the freed
range is backed by frames `J t * PG_SIZE + kernel start`: it clears
exactly the bits `J i, …, J (i+cnt-1)` of the kernel pool bitmap and
leaves everything but the page table untouched. -/
theorem mfree_loop_kernel_char (vaddr0 : Nat) (J : Nat → Nat) : ∀ cnt i s s2,
    mfree_loop_kernel vaddr0 i cnt s = .ok s2 →
    (∀ t, i ≤ t → t < i + cnt → pte_val s (vpage (vaddr0 + t * PG_SIZE)) =
      (J t * PG_SIZE + s.kernel_pool.phy_addr_start) % MOD32 ||| 7) →
    (∀ t, i ≤ t → t < i + cnt → J t < s.kernel_pool.pool_bitmap.bits.length) →
    (∀ t1 t2, i ≤ t1 → t1 < i + cnt → i ≤ t2 → t2 < i + cnt → t1 ≠ t2 →
      vpage (vaddr0 + t1 * PG_SIZE) ≠ vpage (vaddr0 + t2 * PG_SIZE)) →
    vaddr0 % PG_SIZE = 0 →
    s.kernel_pool.phy_addr_start % PG_SIZE = 0 →
    s.kernel_pool.phy_addr_start +
      s.kernel_pool.pool_bitmap.bits.length * PG_SIZE ≤ s.user_pool.phy_addr_start →
    s.user_pool.phy_addr_start < MOD32 →
    s2.kernel_pool.pool_bitmap = setBits
        (List.map (fun t => J (i + t)) (List.range cnt)) false
        s.kernel_pool.pool_bitmap ∧
      s2.kernel_pool.phy_addr_start = s.kernel_pool.phy_addr_start ∧
      s2.kernel_pool.pool_size = s.kernel_pool.pool_size ∧
      s2.kernel_pool.locked = s.kernel_pool.locked ∧
      s2.user_pool = s.user_pool ∧
      s2.kernel_vaddr = s.kernel_vaddr ∧ s2.user_vaddr = s.user_vaddr ∧
      s2.k_block_descs = s.k_block_descs ∧ s2.u_block_descs = s.u_block_descs ∧
      s2.arenas = s.arenas ∧ s2.zeroed = s.zeroed ∧ s2.pgdir_null = s.pgdir_null := by
  intro cnt
  induction cnt with
  | zero =>
    intro i s s2 h hpte hjlen hvp halign hka hbound hu32
    simp only [mfree_loop_kernel] at h
    injection h with h1
    subst h1
    exact ⟨rfl, rfl, rfl, rfl, rfl, rfl, rfl, rfl, rfl, rfl, rfl, rfl⟩
  | succ n ih =>
    intro i s s2 h hpte hjlen hvp halign hka hbound hu32
    simp only [mfree_loop_kernel] at h
    have hphy : addr_v2p ((vaddr0 + i * PG_SIZE) % MOD32) s =
        J i * PG_SIZE + s.kernel_pool.phy_addr_start := by
      simp only [addr_v2p]
      rw [vpage_mod, hpte i (by omega) (by omega)]
      have hji := hjlen i (by omega) (by omega)
      rw [show (J i * PG_SIZE + s.kernel_pool.phy_addr_start) % MOD32 =
          J i * PG_SIZE + s.kernel_pool.phy_addr_start by
        apply Nat.mod_eq_of_lt
        simp only [PG_SIZE, MOD32] at *
        omega]
      rw [lor_seven_eq_add _ (by simp only [PG_SIZE] at *; omega)]
      simp only [PG_SIZE, MOD32] at *
      omega
    rw [hphy] at h
    rw [if_pos (by
      refine ⟨by simp only [PG_SIZE] at *; omega, by omega, ?_⟩
      have hji := hjlen i (by omega) (by omega)
      have := hbound
      simp only [PG_SIZE] at *
      omega)] at h
    have hps : ¬(s.user_pool.phy_addr_start ≤
        J i * PG_SIZE + s.kernel_pool.phy_addr_start) := by
      have hji := hjlen i (by omega) (by omega)
      simp only [PG_SIZE] at *
      omega
    rw [show pfree (J i * PG_SIZE + s.kernel_pool.phy_addr_start) s =
        { s with kernel_pool := { s.kernel_pool with
          pool_bitmap := bitmap_set s.kernel_pool.pool_bitmap (J i) false } } from by
      simp only [pfree]
      rw [if_neg hps]
      have : (J i * PG_SIZE + s.kernel_pool.phy_addr_start + MOD32 -
          s.kernel_pool.phy_addr_start) % MOD32 / PG_SIZE = J i := by
        have hji := hjlen i (by omega) (by omega)
        simp only [PG_SIZE, MOD32] at *
        omega
      rw [this]] at h
    rw [show page_table_pte_remove ((vaddr0 + i * PG_SIZE) % MOD32)
        { s with kernel_pool := { s.kernel_pool with
          pool_bitmap := bitmap_set s.kernel_pool.pool_bitmap (J i) false } } =
        { s with
          kernel_pool := { s.kernel_pool with
            pool_bitmap := bitmap_set s.kernel_pool.pool_bitmap (J i) false },
          ptes := alist_set s.ptes (vpage (vaddr0 + i * PG_SIZE))
            (pte_val s (vpage (vaddr0 + i * PG_SIZE)) / 2 * 2) } from by
      simp only [page_table_pte_remove, vpage_mod]
      rfl] at h
    have hrec := ih (i + 1) _ s2 h
      (by
        intro t ht1 ht2
        show (alist_get (alist_set _ _ _) _).getD 0 = _
        rw [alist_get_set_ne _ _ _ _
          (hvp i t (by omega) (by omega) (by omega) (by omega) (by omega))]
        exact hpte t (by omega) (by omega))
      (by
        intro t ht1 ht2
        have := hjlen t (by omega) (by omega)
        simpa only [bitmap_set, List.length_set] using this)
      (fun t1 t2 a1 a2 a3 a4 a5 => hvp t1 t2 (by omega) (by omega) (by omega)
        (by omega) a5)
      halign hka
      (by simpa only [bitmap_set, List.length_set] using hbound)
      hu32
    have hmap : List.map (fun t => J (i + t)) (List.range (n + 1)) =
        J i :: List.map (fun t => J (i + 1 + t)) (List.range n) := by
      rw [List.range_succ_eq_map, List.map_cons, List.map_map]
      refine congrArg₂ _ (by rw [Nat.add_zero]) ?_
      apply List.map_congr_left
      intro t ht
      show J (i + (t + 1)) = J (i + 1 + t)
      congr 1
      omega
    refine ⟨?_, ?_, ?_, ?_, ?_, ?_, ?_, ?_, ?_, ?_, ?_, ?_⟩
    · rw [hrec.1, hmap]
      simp only [setBits, List.foldl_cons]
    · rw [hrec.2.1]
    · rw [hrec.2.2.1]
    · rw [hrec.2.2.2.1]
    · rw [hrec.2.2.2.2.1]
    · rw [hrec.2.2.2.2.2.1]
    · rw [hrec.2.2.2.2.2.2.1]
    · rw [hrec.2.2.2.2.2.2.2.1]
    · rw [hrec.2.2.2.2.2.2.2.2.1]
    · rw [hrec.2.2.2.2.2.2.2.2.2.1]
    · rw [hrec.2.2.2.2.2.2.2.2.2.2.1]
    · rw [hrec.2.2.2.2.2.2.2.2.2.2.2]

/-- Exact effect of a successful user-branch free loop: it clears exactly
the bits `J i, …, J (i+cnt-1)` of the user pool bitmap and leaves
everything but the page table untouched. -/
theorem mfree_loop_user_char (vaddr0 : Nat) (J : Nat → Nat) : ∀ cnt i s s2,
    mfree_loop_user vaddr0 i cnt s = .ok s2 →
    (∀ t, i ≤ t → t < i + cnt → pte_val s (vpage (vaddr0 + t * PG_SIZE)) =
      (J t * PG_SIZE + s.user_pool.phy_addr_start) % MOD32 ||| 7) →
    (∀ t, i ≤ t → t < i + cnt → J t < s.user_pool.pool_bitmap.bits.length) →
    (∀ t1 t2, i ≤ t1 → t1 < i + cnt → i ≤ t2 → t2 < i + cnt → t1 ≠ t2 →
      vpage (vaddr0 + t1 * PG_SIZE) ≠ vpage (vaddr0 + t2 * PG_SIZE)) →
    vaddr0 % PG_SIZE = 0 →
    s.user_pool.phy_addr_start % PG_SIZE = 0 →
    s.user_pool.phy_addr_start +
      s.user_pool.pool_bitmap.bits.length * PG_SIZE < MOD32 →
    s2.user_pool.pool_bitmap = setBits
        (List.map (fun t => J (i + t)) (List.range cnt)) false
        s.user_pool.pool_bitmap ∧
      s2.user_pool.phy_addr_start = s.user_pool.phy_addr_start ∧
      s2.user_pool.pool_size = s.user_pool.pool_size ∧
      s2.user_pool.locked = s.user_pool.locked ∧
      s2.kernel_pool = s.kernel_pool ∧
      s2.kernel_vaddr = s.kernel_vaddr ∧ s2.user_vaddr = s.user_vaddr ∧
      s2.k_block_descs = s.k_block_descs ∧ s2.u_block_descs = s.u_block_descs ∧
      s2.arenas = s.arenas ∧ s2.zeroed = s.zeroed ∧ s2.pgdir_null = s.pgdir_null := by
  intro cnt
  induction cnt with
  | zero =>
    intro i s s2 h hpte hjlen hvp halign hua hbound
    simp only [mfree_loop_user] at h
    injection h with h1
    subst h1
    exact ⟨rfl, rfl, rfl, rfl, rfl, rfl, rfl, rfl, rfl, rfl, rfl, rfl⟩
  | succ n ih =>
    intro i s s2 h hpte hjlen hvp halign hua hbound
    simp only [mfree_loop_user] at h
    have hphy : addr_v2p ((vaddr0 + i * PG_SIZE) % MOD32) s =
        J i * PG_SIZE + s.user_pool.phy_addr_start := by
      simp only [addr_v2p]
      rw [vpage_mod, hpte i (by omega) (by omega)]
      have hji := hjlen i (by omega) (by omega)
      rw [show (J i * PG_SIZE + s.user_pool.phy_addr_start) % MOD32 =
          J i * PG_SIZE + s.user_pool.phy_addr_start by
        apply Nat.mod_eq_of_lt
        simp only [PG_SIZE, MOD32] at *
        omega]
      rw [lor_seven_eq_add _ (by simp only [PG_SIZE] at *; omega)]
      simp only [PG_SIZE, MOD32] at *
      omega
    rw [hphy] at h
    rw [if_pos (by
      exact ⟨by simp only [PG_SIZE] at *; omega, by omega⟩)] at h
    rw [show pfree (J i * PG_SIZE + s.user_pool.phy_addr_start) s =
        { s with user_pool := { s.user_pool with
          pool_bitmap := bitmap_set s.user_pool.pool_bitmap (J i) false } } from by
      simp only [pfree]
      rw [if_pos (by omega)]
      have : (J i * PG_SIZE + s.user_pool.phy_addr_start + MOD32 -
          s.user_pool.phy_addr_start) % MOD32 / PG_SIZE = J i := by
        have hji := hjlen i (by omega) (by omega)
        simp only [PG_SIZE, MOD32] at *
        omega
      rw [this]] at h
    rw [show page_table_pte_remove ((vaddr0 + i * PG_SIZE) % MOD32)
        { s with user_pool := { s.user_pool with
          pool_bitmap := bitmap_set s.user_pool.pool_bitmap (J i) false } } =
        { s with
          user_pool := { s.user_pool with
            pool_bitmap := bitmap_set s.user_pool.pool_bitmap (J i) false },
          ptes := alist_set s.ptes (vpage (vaddr0 + i * PG_SIZE))
            (pte_val s (vpage (vaddr0 + i * PG_SIZE)) / 2 * 2) } from by
      simp only [page_table_pte_remove, vpage_mod]
      rfl] at h
    have hrec := ih (i + 1) _ s2 h
      (by
        intro t ht1 ht2
        show (alist_get (alist_set _ _ _) _).getD 0 = _
        rw [alist_get_set_ne _ _ _ _
          (hvp i t (by omega) (by omega) (by omega) (by omega) (by omega))]
        exact hpte t (by omega) (by omega))
      (by
        intro t ht1 ht2
        have := hjlen t (by omega) (by omega)
        simpa only [bitmap_set, List.length_set] using this)
      (fun t1 t2 a1 a2 a3 a4 a5 => hvp t1 t2 (by omega) (by omega) (by omega)
        (by omega) a5)
      halign hua
      (by simpa only [bitmap_set, List.length_set] using hbound)
    have hmap : List.map (fun t => J (i + t)) (List.range (n + 1)) =
        J i :: List.map (fun t => J (i + 1 + t)) (List.range n) := by
      rw [List.range_succ_eq_map, List.map_cons, List.map_map]
      refine congrArg₂ _ (by rw [Nat.add_zero]) ?_
      apply List.map_congr_left
      intro t ht
      show J (i + (t + 1)) = J (i + 1 + t)
      congr 1
      omega
    refine ⟨?_, ?_, ?_, ?_, ?_, ?_, ?_, ?_, ?_, ?_, ?_, ?_⟩
    · rw [hrec.1, hmap]
      simp only [setBits, List.foldl_cons]
    · rw [hrec.2.1]
    · rw [hrec.2.2.1]
    · rw [hrec.2.2.2.1]
    · rw [hrec.2.2.2.2.1]
    · rw [hrec.2.2.2.2.2.1]
    · rw [hrec.2.2.2.2.2.2.1]
    · rw [hrec.2.2.2.2.2.2.2.1]
    · rw [hrec.2.2.2.2.2.2.2.2.1]
    · rw [hrec.2.2.2.2.2.2.2.2.2.1]
    · rw [hrec.2.2.2.2.2.2.2.2.2.2.1]
    · rw [hrec.2.2.2.2.2.2.2.2.2.2.2]

/- ### Helper lemmas and well-formedness for the round-trip theorem -/

theorem modify_getD_self (f : BlockDesc → BlockDesc) (l : List BlockDesc)
    (d : Nat) (hd : d < l.length) :
    (List.modify f d l).getD d default = f (l.getD d default) := by
  rw [List.getD_eq_getElem?_getD, List.getD_eq_getElem?_getD, List.getElem?_modify]
  rw [List.getElem?_eq_getElem hd]
  simp

theorem modify_getD_ne (f : BlockDesc → BlockDesc) (l : List BlockDesc)
    (d e : Nat) (h : d ≠ e) :
    (List.modify f d l).getD e default = l.getD e default := by
  rw [List.getD_eq_getElem?_getD, List.getD_eq_getElem?_getD, List.getElem?_modify]
  cases l[e]? with
  | none => rfl
  | some x => simp [h]

theorem alist_get_mem {α : Type} (l : List (Nat × α)) (k : Nat) (v : α)
    (h : alist_get l k = some v) : (k, v) ∈ l := by
  simp only [alist_get] at h
  cases hf : l.find? (fun kv => kv.1 == k) with
  | none => rw [hf] at h; exact absurd h (by simp)
  | some kv =>
    rw [hf] at h
    rw [show Option.map (fun kv : Nat × α => kv.2) (some kv) = some kv.2 from rfl] at h
    injection h with h1
    have hk : kv.1 = k := by simpa using List.find?_some hf
    have hm := List.mem_of_find?_eq_some hf
    have : (k, v) = kv := by
      cases kv
      simp only [Prod.mk.injEq]
      exact ⟨hk.symm, h1.symm⟩
    rw [this]
    exact hm

theorem alist_get_none {α : Type} (l : List (Nat × α)) (k : Nat)
    (h : ∀ kv ∈ l, kv.1 ≠ k) : alist_get l k = none := by
  simp only [alist_get]
  rw [List.find?_eq_none.mpr (fun kv hm => by simpa using h kv hm)]
  rfl

theorem alist_get_filter_none {α : Type} (l : List (Nat × α)) (k : Nat)
    (p : Nat × α → Bool) (hp : ∀ kv ∈ l, kv.1 = k → p kv = false) :
    alist_get (l.filter p) k = none := by
  apply alist_get_none
  intro kv hm he
  rw [List.mem_filter] at hm
  rw [hp kv hm.1 he] at hm
  exact absurd hm.2 (by simp)

/-- The virtual pool used by a caller's domain. -/
def vaddrOf (pf : PoolFlags) (s : MState) : VirtualAddr :=
  match pf with
  | .PF_KERNEL => s.kernel_vaddr
  | .PF_USER => s.user_vaddr

/-- Geometry of the two physical pools and the two virtual pools: aligned,
disjoint, above the reserved region and free of 32-bit wraparound. -/
def poolsGeom (s : MState) : Prop :=
  s.kernel_pool.phy_addr_start % PG_SIZE = 0 ∧
  0x102000 ≤ s.kernel_pool.phy_addr_start ∧
  s.kernel_pool.phy_addr_start +
    s.kernel_pool.pool_bitmap.bits.length * PG_SIZE ≤ s.user_pool.phy_addr_start ∧
  s.user_pool.phy_addr_start % PG_SIZE = 0 ∧
  s.user_pool.phy_addr_start +
    s.user_pool.pool_bitmap.bits.length * PG_SIZE < MOD32 ∧
  s.kernel_vaddr.vaddr_start % PG_SIZE = 0 ∧
  K_HEAP_START ≤ s.kernel_vaddr.vaddr_start ∧
  s.kernel_vaddr.vaddr_start +
    s.kernel_vaddr.vaddr_bitmap.bits.length * PG_SIZE < MOD32 ∧
  s.user_vaddr.vaddr_start % PG_SIZE = 0 ∧
  s.user_vaddr.vaddr_start +
    s.user_vaddr.vaddr_bitmap.bits.length * PG_SIZE < MOD32

/-- Every page-directory entry covering either virtual pool is present
(the round trip is exact only under this proviso: an absent PDE makes
page_table_add consume a kernel frame that is never freed). -/
def pdesPresent (s : MState) : Prop :=
  (∀ i, i < s.kernel_vaddr.vaddr_bitmap.bits.length →
    s.pdes.contains (PDE_IDX (s.kernel_vaddr.vaddr_start + i * PG_SIZE)) = true) ∧
  (∀ i, i < s.user_vaddr.vaddr_bitmap.bits.length →
    s.pdes.contains (PDE_IDX (s.user_vaddr.vaddr_start + i * PG_SIZE)) = true)

/-- Every recorded arena header sits at a page base whose virtual-pool bit
is set (arena pages are allocated pages). -/
def arenasWF (s : MState) : Prop :=
  ∀ kv ∈ s.arenas, kv.1 % PG_SIZE = 0 ∧
    (s.kernel_vaddr.vaddr_start ≤ kv.1 →
      kv.1 < s.kernel_vaddr.vaddr_start +
        s.kernel_vaddr.vaddr_bitmap.bits.length * PG_SIZE →
      s.kernel_vaddr.vaddr_bitmap.bits.getD
        ((kv.1 - s.kernel_vaddr.vaddr_start) / PG_SIZE) false = true) ∧
    (s.user_vaddr.vaddr_start ≤ kv.1 →
      kv.1 < s.user_vaddr.vaddr_start +
        s.user_vaddr.vaddr_bitmap.bits.length * PG_SIZE →
      s.user_vaddr.vaddr_bitmap.bits.getD
        ((kv.1 - s.user_vaddr.vaddr_start) / PG_SIZE) false = true)

/-- A descriptor array as block_desc_init builds it: seven descriptors
with doubling block sizes (only the free lists evolve afterwards). -/
def descsWF (descs : List BlockDesc) : Prop :=
  descs.length = DESC_CNT ∧
  ∀ e, e < DESC_CNT →
    (descs.getD e default).block_size = 16 * 2 ^ e ∧
    (descs.getD e default).blocks_per_arena =
      (PG_SIZE - sizeof_arena) / (16 * 2 ^ e)

/-- Every block parked on a free list of domain `isK` belongs to a
recorded arena of the matching descriptor whose counter is in range and
whose arena is not yet fully free (the source reclaims an arena the
moment its counter reaches blocks_per_arena). -/
def blocksWF (s : MState) (isK : Bool) : Prop :=
  ∀ d, d < DESC_CNT → ∀ b ∈ free_list_of s isK d,
    b < MOD32 ∧
    sizeof_arena ≤ b % PG_SIZE ∧
    b % PG_SIZE + 16 * 2 ^ d ≤ PG_SIZE ∧
    (isK = true → K_HEAP_START ≤ b) ∧
    (alist_get s.arenas (block2arena b)).isSome = true ∧
    ((alist_get s.arenas (block2arena b)).getD default).desc = some (isK, d) ∧
    ((alist_get s.arenas (block2arena b)).getD default).cnt < MOD32 ∧
    ((alist_get s.arenas (block2arena b)).getD default).cnt ≠
      (PG_SIZE - sizeof_arena) / (16 * 2 ^ d)

/-- The well-formedness invariant under which the round trip of C1 is
proved: pool geometry, all covering PDEs present, arena headers on
allocated pages, initialised descriptor arrays, and consistent free
lists. -/
def stateWF (s : MState) : Prop :=
  poolsGeom s ∧ pdesPresent s ∧ arenasWF s ∧
  descsWF s.k_block_descs ∧ descsWF s.u_block_descs ∧
  blocksWF s true ∧ blocksWF s false

theorem Pool.ext4 (p q : Pool) (h1 : p.pool_bitmap = q.pool_bitmap)
    (h2 : p.phy_addr_start = q.phy_addr_start) (h3 : p.pool_size = q.pool_size)
    (h4 : p.locked = q.locked) : p = q := by
  cases p; cases q; cases h1; cases h2; cases h3; cases h4; rfl

theorem VirtualAddr.ext2 (p q : VirtualAddr) (h1 : p.vaddr_bitmap = q.vaddr_bitmap)
    (h2 : p.vaddr_start = q.vaddr_start) : p = q := by
  cases p; cases q; cases h1; cases h2; rfl

@[simp] theorem vaddrOf_setPool (pf pf2 : PoolFlags) (p : Pool) (s : MState) :
    vaddrOf pf2 (setPool pf p s) = vaddrOf pf2 s := by
  cases pf <;> cases pf2 <;> rfl

@[simp] theorem poolOf_acquire_same (pf : PoolFlags) (s : MState) :
    poolOf pf (acquire_pool pf s) = { poolOf pf s with locked := true } := by
  cases pf <;> rfl

@[simp] theorem poolOf_release_same (pf : PoolFlags) (s : MState) :
    poolOf pf (release_pool pf s) = { poolOf pf s with locked := false } := by
  cases pf <;> rfl

@[simp] theorem poolOf_release_other (pf : PoolFlags) (s : MState) :
    poolOf (otherPf pf) (release_pool pf s) = poolOf (otherPf pf) s := by
  cases pf <;> rfl

@[simp] theorem poolOf_acquire_other (pf : PoolFlags) (s : MState) :
    poolOf (otherPf pf) (acquire_pool pf s) = poolOf (otherPf pf) s := by
  cases pf <;> rfl

/-- What a successful `malloc_page pf n` returning an address did, when
every covering PDE is present: it reserved `n` previously-clear virtual
bits starting at some `idx`, set `n` previously-clear bits `js` of the
caller's pool, installed the `n` page-table entries, and changed nothing
else. -/
theorem malloc_page_char (pf : PoolFlags) (n : Nat) (s : MState) (a : Nat)
    (s1 : MState)
    (h : malloc_page pf n s = .ok (some a, s1))
    (hpde : ∀ i, i < (vaddrOf pf s).vaddr_bitmap.bits.length →
      s.pdes.contains (PDE_IDX ((vaddrOf pf s).vaddr_start + i * PG_SIZE)) = true)
    (hva : (vaddrOf pf s).vaddr_start % PG_SIZE = 0)
    (hvlt : (vaddrOf pf s).vaddr_start +
      (vaddrOf pf s).vaddr_bitmap.bits.length * PG_SIZE < MOD32) :
    ∃ idx js,
      idx + n ≤ (vaddrOf pf s).vaddr_bitmap.bits.length ∧
      (∀ t, t < n → (vaddrOf pf s).vaddr_bitmap.bits.getD (idx + t) false = false) ∧
      a = (vaddrOf pf s).vaddr_start + idx * PG_SIZE ∧
      vaddrOf pf s1 = { vaddrOf pf s with
        vaddr_bitmap := bitmap_set_range (vaddrOf pf s).vaddr_bitmap idx n true } ∧
      vaddrOf (otherPf pf) s1 = vaddrOf (otherPf pf) s ∧
      js.length = n ∧ js.Nodup ∧
      (∀ j ∈ js, j < (poolOf pf s).pool_bitmap.bits.length ∧
        (poolOf pf s).pool_bitmap.bits.getD j false = false) ∧
      poolOf pf s1 = { poolOf pf s with
        pool_bitmap := setBits js true (poolOf pf s).pool_bitmap } ∧
      poolOf (otherPf pf) s1 = poolOf (otherPf pf) s ∧
      (∀ t, t < n → pte_val s1 (vpage (a + t * PG_SIZE)) =
        (js.getD t 0 * PG_SIZE + (poolOf pf s).phy_addr_start) % MOD32 ||| 7) ∧
      (∀ k, (∀ t, t < n → k ≠ vpage (a + t * PG_SIZE)) → pte_val s1 k = pte_val s k) ∧
      s1.pdes = s.pdes ∧ s1.arenas = s.arenas ∧
      s1.k_block_descs = s.k_block_descs ∧ s1.u_block_descs = s.u_block_descs ∧
      s1.pgdir_null = s.pgdir_null := by
  simp only [malloc_page] at h
  split at h
  · exact absurd h (by simp)
  rename_i hbound
  split at h
  · exact absurd h (by simp)
  · exact absurd h (by simp)
  rename_i v sv hsplit
  cases pf with
  | PF_KERNEL =>
    simp only [vaddrOf, otherPf, poolOf] at hpde hva hvlt ⊢
    simp only [vaddr_get] at hsplit
    split at hsplit
    · rename_i hscan
      exact absurd hsplit (by simp)
    · rename_i idx hscan
      rw [Res.ok.injEq, Prod.mk.injEq, Option.some.injEq] at hsplit
      obtain ⟨hv, hsv⟩ := hsplit
      subst hv
      subst hsv
      obtain ⟨hlen, hfree⟩ := bitmap_scan_some _ _ _ hscan
      have hbnd : 0 < n ∧ n < 3840 := by
        by_contra hc
        exact hbound hc
      have hmod : (s.kernel_vaddr.vaddr_start + idx * PG_SIZE) % MOD32 =
          s.kernel_vaddr.vaddr_start + idx * PG_SIZE := by
        apply Nat.mod_eq_of_lt
        simp only [PG_SIZE, MOD32] at *
        omega
      rw [hmod] at h
      split at h
      · exact absurd h (by simp)
      · exact absurd h (by simp)
      · rename_i s2 hloop
        rw [Res.ok.injEq, Prod.mk.injEq, Option.some.injEq] at h
        obtain ⟨ha, hs1⟩ := h
        subst hs1
        have hvp : ∀ t1 t2, t1 < n → t2 < n → t1 ≠ t2 →
            vpage (s.kernel_vaddr.vaddr_start + idx * PG_SIZE + t1 * PG_SIZE) ≠
            vpage (s.kernel_vaddr.vaddr_start + idx * PG_SIZE + t2 * PG_SIZE) := by
          intro t1 t2 ht1 ht2 hne
          rw [vpage_of_lt _ (by simp only [PG_SIZE, MOD32] at *; omega),
            vpage_of_lt _ (by simp only [PG_SIZE, MOD32] at *; omega)]
          simp only [PG_SIZE, MOD32] at *
          omega
        obtain ⟨js, hjl, hjn, hjb, hpool, hother, hpte, hpk, hpdes⟩ :=
          malloc_page_loop_char .PF_KERNEL n _ _ s2 hloop
            (by
              intro t ht
              show s.pdes.contains _ = true
              rw [show s.kernel_vaddr.vaddr_start + idx * PG_SIZE + t * PG_SIZE =
                s.kernel_vaddr.vaddr_start + (idx + t) * PG_SIZE by ring]
              exact hpde (idx + t) (by omega))
            hvp
        obtain ⟨hkv, huv, hkd, hud, haren, hzer, hpg, hkps, hkpsz, hkpl,
          hups, hupsz, hupl⟩ := malloc_page_loop_frame .PF_KERNEL n _ _ _ s2 hloop
        refine ⟨idx, js, hlen, fun t ht => hfree t ht, ha.symm, ?_, ?_, hjl, hjn,
          hjb, ?_, hother, ?_, ?_, hpdes, haren, hkd, hud, hpg⟩
        · rw [hkv]
        · rw [huv]
        · apply Pool.ext4
          · exact hpool
          · exact hkps
          · exact hkpsz
          · exact hkpl
        · intro t ht
          rw [← ha]
          exact hpte t ht
        · intro k hk
          exact hpk k (fun t ht => by rw [ha]; exact hk t ht)
  | PF_USER =>
    simp only [vaddrOf, otherPf, poolOf] at hpde hva hvlt ⊢
    simp only [vaddr_get] at hsplit
    split at hsplit
    · rename_i hscan
      exact absurd hsplit (by simp)
    · rename_i idx hscan
      split at hsplit
      · rename_i hlt
        rw [Res.ok.injEq, Prod.mk.injEq, Option.some.injEq] at hsplit
        obtain ⟨hv, hsv⟩ := hsplit
        subst hv
        subst hsv
        obtain ⟨hlen, hfree⟩ := bitmap_scan_some _ _ _ hscan
        have hbnd : 0 < n ∧ n < 3840 := by
          by_contra hc
          exact hbound hc
        have hmod : (s.user_vaddr.vaddr_start + idx * PG_SIZE) % MOD32 =
            s.user_vaddr.vaddr_start + idx * PG_SIZE := by
          apply Nat.mod_eq_of_lt
          simp only [PG_SIZE, MOD32] at *
          omega
        rw [hmod] at h
        split at h
        · exact absurd h (by simp)
        · exact absurd h (by simp)
        · rename_i s2 hloop
          rw [Res.ok.injEq, Prod.mk.injEq, Option.some.injEq] at h
          obtain ⟨ha, hs1⟩ := h
          subst hs1
          have hvp : ∀ t1 t2, t1 < n → t2 < n → t1 ≠ t2 →
              vpage (s.user_vaddr.vaddr_start + idx * PG_SIZE + t1 * PG_SIZE) ≠
              vpage (s.user_vaddr.vaddr_start + idx * PG_SIZE + t2 * PG_SIZE) := by
            intro t1 t2 ht1 ht2 hne
            rw [vpage_of_lt _ (by simp only [PG_SIZE, MOD32] at *; omega),
              vpage_of_lt _ (by simp only [PG_SIZE, MOD32] at *; omega)]
            simp only [PG_SIZE, MOD32] at *
            omega
          obtain ⟨js, hjl, hjn, hjb, hpool, hother, hpte, hpk, hpdes⟩ :=
            malloc_page_loop_char .PF_USER n _ _ s2 hloop
              (by
                intro t ht
                show s.pdes.contains _ = true
                rw [show s.user_vaddr.vaddr_start + idx * PG_SIZE + t * PG_SIZE =
                  s.user_vaddr.vaddr_start + (idx + t) * PG_SIZE by ring]
                exact hpde (idx + t) (by omega))
              hvp
          obtain ⟨hkv, huv, hkd, hud, haren, hzer, hpg, hkps, hkpsz, hkpl,
            hups, hupsz, hupl⟩ := malloc_page_loop_frame .PF_USER n _ _ _ s2 hloop
          refine ⟨idx, js, hlen, fun t ht => hfree t ht, ha.symm, ?_, ?_, hjl, hjn,
            hjb, ?_, hother, ?_, ?_, hpdes, haren, hkd, hud, hpg⟩
          · rw [huv]
          · rw [hkv]
          · apply Pool.ext4
            · exact hpool
            · exact hups
            · exact hupsz
            · exact hupl
          · intro t ht
            rw [← ha]
            exact hpte t ht
          · intro k hk
            exact hpk k (fun t ht => by rw [ha]; exact hk t ht)
      · exact absurd hsplit (by simp)

/-- What a successful `mfree_page pf a n` does when the `n` pages starting
at `a` are mapped to frames `J t` of the caller's own pool: it clears
those pool bits and the `n` virtual bits, drops the arena headers stored
in the freed range, and leaves the rest of the state (but for the page
table) unchanged. -/
theorem mfree_page_restore (pf : PoolFlags) (a n idx : Nat) (J : Nat → Nat)
    (sx sy : MState)
    (h : mfree_page pf a n sx = .ok sy)
    (hn : 0 < n)
    (ha : a = (vaddrOf pf sx).vaddr_start + idx * PG_SIZE)
    (hidx : idx + n ≤ (vaddrOf pf sx).vaddr_bitmap.bits.length)
    (hva : (vaddrOf pf sx).vaddr_start % PG_SIZE = 0)
    (hvlt : (vaddrOf pf sx).vaddr_start +
      (vaddrOf pf sx).vaddr_bitmap.bits.length * PG_SIZE < MOD32)
    (hpte : ∀ t, t < n → pte_val sx (vpage (a + t * PG_SIZE)) =
      (J t * PG_SIZE + (poolOf pf sx).phy_addr_start) % MOD32 ||| 7)
    (hJ : ∀ t, t < n → J t < (poolOf pf sx).pool_bitmap.bits.length)
    (hka : sx.kernel_pool.phy_addr_start % PG_SIZE = 0)
    (hkres : 0x102000 ≤ sx.kernel_pool.phy_addr_start)
    (hkub : sx.kernel_pool.phy_addr_start +
      sx.kernel_pool.pool_bitmap.bits.length * PG_SIZE ≤ sx.user_pool.phy_addr_start)
    (hua : sx.user_pool.phy_addr_start % PG_SIZE = 0)
    (huub : sx.user_pool.phy_addr_start +
      sx.user_pool.pool_bitmap.bits.length * PG_SIZE < MOD32) :
    (poolOf pf sy).pool_bitmap =
      setBits (List.map J (List.range n)) false (poolOf pf sx).pool_bitmap ∧
    (poolOf pf sy).phy_addr_start = (poolOf pf sx).phy_addr_start ∧
    (poolOf pf sy).pool_size = (poolOf pf sx).pool_size ∧
    (poolOf pf sy).locked = (poolOf pf sx).locked ∧
    poolOf (otherPf pf) sy = poolOf (otherPf pf) sx ∧
    vaddrOf pf sy = { vaddrOf pf sx with
      vaddr_bitmap := bitmap_set_range (vaddrOf pf sx).vaddr_bitmap idx n false } ∧
    vaddrOf (otherPf pf) sy = vaddrOf (otherPf pf) sx ∧
    sy.arenas = sx.arenas.filter
      (fun kv => !(decide (a ≤ kv.1 ∧ kv.1 < a + n * PG_SIZE))) ∧
    sy.k_block_descs = sx.k_block_descs ∧ sy.u_block_descs = sx.u_block_descs ∧
    sy.pgdir_null = sx.pgdir_null := by
  have hmap0 : List.map (fun t => J (0 + t)) (List.range n) =
      List.map J (List.range n) :=
    List.map_congr_left (fun t _ => by rw [Nat.zero_add])
  cases pf with
  | PF_KERNEL =>
    simp only [vaddrOf, otherPf, poolOf] at ha hidx hva hvlt hpte hJ ⊢
    simp only [mfree_page] at h
    rw [if_neg (by
      rw [not_not]
      exact ⟨by omega, by
        rw [ha]
        simp only [PG_SIZE] at *
        omega⟩)] at h
    have hphy0 : addr_v2p a sx = J 0 * PG_SIZE + sx.kernel_pool.phy_addr_start := by
      simp only [addr_v2p]
      have := hpte 0 hn
      rw [show a + 0 * PG_SIZE = a by ring] at this
      rw [this]
      have hj0 := hJ 0 hn
      rw [show (J 0 * PG_SIZE + sx.kernel_pool.phy_addr_start) % MOD32 =
          J 0 * PG_SIZE + sx.kernel_pool.phy_addr_start by
        apply Nat.mod_eq_of_lt
        simp only [PG_SIZE, MOD32] at *
        omega]
      rw [lor_seven_eq_add _ (by simp only [PG_SIZE] at *; omega)]
      rw [ha]
      simp only [PG_SIZE, MOD32] at *
      omega
    rw [hphy0] at h
    rw [if_neg (by
      rw [not_not]
      refine ⟨by simp only [PG_SIZE] at *; omega, by omega⟩)] at h
    rw [if_neg (by
      have hj0 := hJ 0 hn
      simp only [PG_SIZE] at *
      omega)] at h
    split at h
    · exact absurd h (by simp)
    · rename_i s1 hloop
      injection h with hsy
      obtain ⟨hbm, hst, hsz, hlk, hup, hkv, huv, hkd, hud, haren, hzer, hpg⟩ :=
        mfree_loop_kernel_char a J n 0 sx s1 hloop
          (fun t _ ht2 => hpte t (by omega))
          (fun t _ ht2 => hJ t (by omega))
          (by
            intro t1 t2 _ ht1 _ ht2 hne
            rw [vpage_of_lt _ (by rw [ha]; simp only [PG_SIZE, MOD32] at *; omega),
              vpage_of_lt _ (by rw [ha]; simp only [PG_SIZE, MOD32] at *; omega)]
            rw [ha]
            simp only [PG_SIZE, MOD32] at *
            omega)
          (by rw [ha]; simp only [PG_SIZE] at *; omega)
          hka hkub (by omega)
      subst hsy
      have hbit : (a + MOD32 - s1.kernel_vaddr.vaddr_start) % MOD32 / PG_SIZE =
          idx := by
        rw [hkv, ha]
        simp only [PG_SIZE, MOD32] at *
        omega
      simp only [arenas_drop_range, vaddr_remove, hbit]
      refine ⟨?_, hst, hsz, hlk, hup, ?_, huv, ?_, hkd, hud, hpg⟩
      · rw [hbm, hmap0]
      · rw [hkv]
      · rw [haren]
  | PF_USER =>
    simp only [vaddrOf, otherPf, poolOf] at ha hidx hva hvlt hpte hJ ⊢
    simp only [mfree_page] at h
    rw [if_neg (by
      rw [not_not]
      exact ⟨by omega, by
        rw [ha]
        simp only [PG_SIZE] at *
        omega⟩)] at h
    have hphy0 : addr_v2p a sx = J 0 * PG_SIZE + sx.user_pool.phy_addr_start := by
      simp only [addr_v2p]
      have := hpte 0 hn
      rw [show a + 0 * PG_SIZE = a by ring] at this
      rw [this]
      have hj0 := hJ 0 hn
      rw [show (J 0 * PG_SIZE + sx.user_pool.phy_addr_start) % MOD32 =
          J 0 * PG_SIZE + sx.user_pool.phy_addr_start by
        apply Nat.mod_eq_of_lt
        simp only [PG_SIZE, MOD32] at *
        omega]
      rw [lor_seven_eq_add _ (by simp only [PG_SIZE] at *; omega)]
      rw [ha]
      simp only [PG_SIZE, MOD32] at *
      omega
    rw [hphy0] at h
    rw [if_neg (by
      rw [not_not]
      refine ⟨by simp only [PG_SIZE] at *; omega, by omega⟩)] at h
    rw [if_pos (by omega)] at h
    split at h
    · exact absurd h (by simp)
    · rename_i s1 hloop
      injection h with hsy
      obtain ⟨hbm, hst, hsz, hlk, hkp, hkv, huv, hkd, hud, haren, hzer, hpg⟩ :=
        mfree_loop_user_char a J n 0 sx s1 hloop
          (fun t _ ht2 => hpte t (by omega))
          (fun t _ ht2 => hJ t (by omega))
          (by
            intro t1 t2 _ ht1 _ ht2 hne
            rw [vpage_of_lt _ (by rw [ha]; simp only [PG_SIZE, MOD32] at *; omega),
              vpage_of_lt _ (by rw [ha]; simp only [PG_SIZE, MOD32] at *; omega)]
            rw [ha]
            simp only [PG_SIZE, MOD32] at *
            omega)
          (by rw [ha]; simp only [PG_SIZE] at *; omega)
          hua huub
      subst hsy
      have hbit : (a + MOD32 - s1.user_vaddr.vaddr_start) % MOD32 / PG_SIZE =
          idx := by
        rw [huv, ha]
        simp only [PG_SIZE, MOD32] at *
        omega
      simp only [arenas_drop_range, vaddr_remove, hbit]
      refine ⟨?_, hst, hsz, hlk, hkp, ?_, hkv, ?_, hkd, hud, hpg⟩
      · rw [hbm, hmap0]
      · rw [huv]
      · rw [haren]

/-- The slab-populating loop appends the block addresses
`a + sizeof_arena + idx*bs, …` in order; the `ASSERT(!elem_find)` checks
pass because each appended block is strictly larger than everything
already on the list. -/
theorem populate_from_ok (a bs : Nat) (hm : a + PG_SIZE ≤ MOD32) (hbs : 0 < bs) :
    ∀ cnt idx l,
    sizeof_arena + (idx + cnt) * bs ≤ PG_SIZE →
    (∀ b ∈ l, b < a + sizeof_arena + idx * bs) →
    populate_from a bs idx cnt l =
      .ok (l ++ (List.range cnt).map (fun t => a + sizeof_arena + (idx + t) * bs)) := by
  intro cnt
  induction cnt with
  | zero =>
    intro idx l hfit hlt
    simp [populate_from]
  | succ n ih =>
    intro idx l hfit hlt
    have hexp : (idx + (n + 1)) * bs = idx * bs + n * bs + bs := by ring
    have hexp2 : (idx + 1 + n) * bs = idx * bs + n * bs + bs := by ring
    have hexp3 : (idx + 1) * bs = idx * bs + bs := by ring
    have hb : arena2block a bs idx = a + sizeof_arena + idx * bs := by
      simp only [arena2block]
      apply Nat.mod_eq_of_lt
      simp only [sizeof_arena, PG_SIZE, MOD32] at *
      omega
    simp only [populate_from, hb]
    rw [if_neg (by
      intro hc
      have hmem : a + sizeof_arena + idx * bs ∈ l := List.elem_iff.mp hc
      exact absurd (hlt _ hmem) (by omega))]
    rw [ih (idx + 1) (l ++ [a + sizeof_arena + idx * bs])
      (by simp only [sizeof_arena, PG_SIZE] at *; omega)
      (by
        intro b hbm
        rcases List.mem_append.mp hbm with hbl | hbr
        · have := hlt b hbl
          omega
        · rw [List.mem_singleton.mp hbr]
          omega)]
    have hmap : List.map (fun t => a + sizeof_arena + (idx + t) * bs)
        (List.range (n + 1)) =
        (a + sizeof_arena + idx * bs) ::
          List.map (fun t => a + sizeof_arena + (idx + 1 + t) * bs) (List.range n) := by
      rw [List.range_succ_eq_map, List.map_cons, List.map_map]
      refine congrArg₂ _ (by rw [Nat.add_zero]) ?_
      apply List.map_congr_left
      intro t ht
      show a + sizeof_arena + (idx + (t + 1)) * bs = a + sizeof_arena + (idx + 1 + t) * bs
      ring
    rw [hmap, List.append_assoc, List.singleton_append]

/-- The unlink loop of sys_free succeeds and empties the list whenever the
list is a permutation of exactly the arena's blocks. -/
theorem unlink_from_ok (a bs : Nat) (hm : a + PG_SIZE ≤ MOD32) (hbs : 0 < bs) :
    ∀ cnt idx l,
    sizeof_arena + (idx + cnt) * bs ≤ PG_SIZE →
    l.Perm ((List.range cnt).map (fun t => a + sizeof_arena + (idx + t) * bs)) →
    unlink_from a bs idx cnt l = .ok [] := by
  intro cnt
  induction cnt with
  | zero =>
    intro idx l hfit hperm
    rw [List.range_zero, List.map_nil] at hperm
    rw [hperm.eq_nil]
    rfl
  | succ n ih =>
    intro idx l hfit hperm
    have hexp : (idx + (n + 1)) * bs = idx * bs + n * bs + bs := by ring
    have hexp2 : (idx + 1 + n) * bs = idx * bs + n * bs + bs := by ring
    have hb : arena2block a bs idx = a + sizeof_arena + idx * bs := by
      simp only [arena2block]
      apply Nat.mod_eq_of_lt
      simp only [sizeof_arena, PG_SIZE, MOD32] at *
      omega
    have hmap : List.map (fun t => a + sizeof_arena + (idx + t) * bs)
        (List.range (n + 1)) =
        (a + sizeof_arena + idx * bs) ::
          List.map (fun t => a + sizeof_arena + (idx + 1 + t) * bs) (List.range n) := by
      rw [List.range_succ_eq_map, List.map_cons, List.map_map]
      refine congrArg₂ _ (by rw [Nat.add_zero]) ?_
      apply List.map_congr_left
      intro t ht
      show a + sizeof_arena + (idx + (t + 1)) * bs = a + sizeof_arena + (idx + 1 + t) * bs
      ring
    rw [hmap] at hperm
    have hmem : a + sizeof_arena + idx * bs ∈ l :=
      hperm.mem_iff.mpr (List.mem_cons_self _ _)
    simp only [unlink_from, hb]
    rw [if_pos (List.elem_iff.mpr hmem)]
    apply ih (idx + 1)
    · simp only [sizeof_arena, PG_SIZE] at *
      omega
    · have := hperm.erase (a + sizeof_arena + idx * bs)
      rwa [List.erase_cons_head] at this

/-- For any request of at most 1024 bytes against an initialised
descriptor array, the descriptor search lands on one of the seven
descriptors. -/
theorem find_desc_idx_lt (descs : List BlockDesc) (size : Nat)
    (hwf : descsWF descs) (hsz : size ≤ 1024) :
    find_desc_idx descs size < DESC_CNT := by
  have h6 : size ≤ (descs.getD 6 default).block_size := by
    rw [(hwf.2 6 (by decide)).1]
    norm_num
    omega
  have hsome : ((List.range DESC_CNT).find?
      (fun i => decide (size ≤ (descs.getD i default).block_size))).isSome = true := by
    rw [List.find?_isSome]
    exact ⟨6, by decide, by simpa using h6⟩
  simp only [find_desc_idx]
  cases hf : (List.range DESC_CNT).find?
      (fun i => decide (size ≤ (descs.getD i default).block_size)) with
  | none => rw [hf] at hsome; exact absurd hsome (by simp)
  | some i =>
    have := List.mem_of_find?_eq_some hf
    rw [List.mem_range] at this
    simpa using this

/- Projection lemmas used to chase state components through the
lock/memset/arena/free-list operations of the allocation paths. -/

@[simp] theorem vaddrOf_memset (q : PoolFlags) (a l : Nat) (s : MState) :
    vaddrOf q (memset_state a l s) = vaddrOf q s := by cases q <;> rfl

@[simp] theorem vaddrOf_set_arena (q : PoolFlags) (a : Nat) (hd : ArenaHdr)
    (s : MState) : vaddrOf q (set_arena a hd s) = vaddrOf q s := by
  cases q <;> rfl

@[simp] theorem vaddrOf_set_free_list (q : PoolFlags) (isK : Bool) (d : Nat)
    (l : List Nat) (s : MState) :
    vaddrOf q (set_free_list isK d l s) = vaddrOf q s := by
  cases q <;> cases isK <;> rfl

@[simp] theorem vaddrOf_acquire (q pf : PoolFlags) (s : MState) :
    vaddrOf q (acquire_pool pf s) = vaddrOf q s := by cases q <;> cases pf <;> rfl

@[simp] theorem vaddrOf_release (q pf : PoolFlags) (s : MState) :
    vaddrOf q (release_pool pf s) = vaddrOf q s := by cases q <;> cases pf <;> rfl

@[simp] theorem poolOf_memset (q : PoolFlags) (a l : Nat) (s : MState) :
    poolOf q (memset_state a l s) = poolOf q s := by cases q <;> rfl

@[simp] theorem poolOf_set_arena (q : PoolFlags) (a : Nat) (hd : ArenaHdr)
    (s : MState) : poolOf q (set_arena a hd s) = poolOf q s := by cases q <;> rfl

@[simp] theorem poolOf_set_free_list (q : PoolFlags) (isK : Bool) (d : Nat)
    (l : List Nat) (s : MState) :
    poolOf q (set_free_list isK d l s) = poolOf q s := by
  cases q <;> cases isK <;> rfl

@[simp] theorem acquire_ptes (pf : PoolFlags) (s : MState) :
    (acquire_pool pf s).ptes = s.ptes := by cases pf <;> rfl

@[simp] theorem release_ptes (pf : PoolFlags) (s : MState) :
    (release_pool pf s).ptes = s.ptes := by cases pf <;> rfl

@[simp] theorem acquire_pdes (pf : PoolFlags) (s : MState) :
    (acquire_pool pf s).pdes = s.pdes := by cases pf <;> rfl

@[simp] theorem release_pdes (pf : PoolFlags) (s : MState) :
    (release_pool pf s).pdes = s.pdes := by cases pf <;> rfl

@[simp] theorem acquire_arenas (pf : PoolFlags) (s : MState) :
    (acquire_pool pf s).arenas = s.arenas := by cases pf <;> rfl

@[simp] theorem release_arenas (pf : PoolFlags) (s : MState) :
    (release_pool pf s).arenas = s.arenas := by cases pf <;> rfl

@[simp] theorem acquire_kdescs (pf : PoolFlags) (s : MState) :
    (acquire_pool pf s).k_block_descs = s.k_block_descs := by cases pf <;> rfl

@[simp] theorem release_kdescs (pf : PoolFlags) (s : MState) :
    (release_pool pf s).k_block_descs = s.k_block_descs := by cases pf <;> rfl

@[simp] theorem acquire_udescs (pf : PoolFlags) (s : MState) :
    (acquire_pool pf s).u_block_descs = s.u_block_descs := by cases pf <;> rfl

@[simp] theorem release_udescs (pf : PoolFlags) (s : MState) :
    (release_pool pf s).u_block_descs = s.u_block_descs := by cases pf <;> rfl

@[simp] theorem acquire_pgdir (pf : PoolFlags) (s : MState) :
    (acquire_pool pf s).pgdir_null = s.pgdir_null := by cases pf <;> rfl

@[simp] theorem release_pgdir (pf : PoolFlags) (s : MState) :
    (release_pool pf s).pgdir_null = s.pgdir_null := by cases pf <;> rfl

@[simp] theorem set_free_list_kernel_pool (isK : Bool) (d : Nat) (l : List Nat)
    (s : MState) : (set_free_list isK d l s).kernel_pool = s.kernel_pool := by
  cases isK <;> rfl

@[simp] theorem set_free_list_user_pool (isK : Bool) (d : Nat) (l : List Nat)
    (s : MState) : (set_free_list isK d l s).user_pool = s.user_pool := by
  cases isK <;> rfl

@[simp] theorem set_free_list_kernel_vaddr (isK : Bool) (d : Nat) (l : List Nat)
    (s : MState) : (set_free_list isK d l s).kernel_vaddr = s.kernel_vaddr := by
  cases isK <;> rfl

@[simp] theorem set_free_list_user_vaddr (isK : Bool) (d : Nat) (l : List Nat)
    (s : MState) : (set_free_list isK d l s).user_vaddr = s.user_vaddr := by
  cases isK <;> rfl

@[simp] theorem set_free_list_pgdir (isK : Bool) (d : Nat) (l : List Nat)
    (s : MState) : (set_free_list isK d l s).pgdir_null = s.pgdir_null := by
  cases isK <;> rfl

@[simp] theorem set_free_list_ptes (isK : Bool) (d : Nat) (l : List Nat)
    (s : MState) : (set_free_list isK d l s).ptes = s.ptes := by
  cases isK <;> rfl

@[simp] theorem set_free_list_pdes (isK : Bool) (d : Nat) (l : List Nat)
    (s : MState) : (set_free_list isK d l s).pdes = s.pdes := by
  cases isK <;> rfl

@[simp] theorem set_free_list_arenas (isK : Bool) (d : Nat) (l : List Nat)
    (s : MState) : (set_free_list isK d l s).arenas = s.arenas := by
  cases isK <;> rfl

@[simp] theorem set_free_list_zeroed (isK : Bool) (d : Nat) (l : List Nat)
    (s : MState) : (set_free_list isK d l s).zeroed = s.zeroed := by
  cases isK <;> rfl

/-- The identity `[l[0], l[1], …] = l` for `getD` over `range`. -/
theorem map_getD_range (l : List Nat) :
    (List.range l.length).map (fun t => l.getD t 0) = l := by
  apply List.ext_getElem
  · simp
  · intro i h1 h2
    simp [List.getD_eq_getElem?_getD, List.getElem?_eq_getElem h2]

theorem getD_mem_of_lt (l : List Nat) (t : Nat) (h : t < l.length) :
    l.getD t 0 ∈ l := by
  rw [List.getD_eq_getElem?_getD, List.getElem?_eq_getElem h]
  exact List.getElem_mem h

/-- Dispatch: per-pool bitmap equalities for the caller's and the other
domain give the two concrete pool-bitmap equalities. -/
theorem pools_restored (pf : PoolFlags) (s2 s : MState)
    (h1 : (poolOf pf s2).pool_bitmap = (poolOf pf s).pool_bitmap)
    (h2 : (poolOf (otherPf pf) s2).pool_bitmap = (poolOf (otherPf pf) s).pool_bitmap) :
    s2.kernel_pool.pool_bitmap = s.kernel_pool.pool_bitmap ∧
    s2.user_pool.pool_bitmap = s.user_pool.pool_bitmap := by
  cases pf
  · exact ⟨h1, h2⟩
  · exact ⟨h2, h1⟩

theorem vaddrs_restored (pf : PoolFlags) (s2 s : MState)
    (h1 : (vaddrOf pf s2).vaddr_bitmap = (vaddrOf pf s).vaddr_bitmap)
    (h2 : (vaddrOf (otherPf pf) s2).vaddr_bitmap = (vaddrOf (otherPf pf) s).vaddr_bitmap) :
    s2.kernel_vaddr.vaddr_bitmap = s.kernel_vaddr.vaddr_bitmap ∧
    s2.user_vaddr.vaddr_bitmap = s.user_vaddr.vaddr_bitmap := by
  cases pf
  · exact ⟨h1, h2⟩
  · exact ⟨h2, h1⟩

@[simp] theorem memset_arenas (a l : Nat) (s : MState) :
    (memset_state a l s).arenas =
      s.arenas.filter (fun kv => !(decide (a ≤ kv.1 ∧ kv.1 < a + l))) := rfl

@[simp] theorem acquire_kernel_start (pf : PoolFlags) (s : MState) :
    (acquire_pool pf s).kernel_pool.phy_addr_start =
      s.kernel_pool.phy_addr_start := by cases pf <;> rfl

@[simp] theorem acquire_user_start (pf : PoolFlags) (s : MState) :
    (acquire_pool pf s).user_pool.phy_addr_start =
      s.user_pool.phy_addr_start := by cases pf <;> rfl

@[simp] theorem acquire_kernel_bitmap (pf : PoolFlags) (s : MState) :
    (acquire_pool pf s).kernel_pool.pool_bitmap =
      s.kernel_pool.pool_bitmap := by cases pf <;> rfl

@[simp] theorem acquire_user_bitmap (pf : PoolFlags) (s : MState) :
    (acquire_pool pf s).user_pool.pool_bitmap =
      s.user_pool.pool_bitmap := by cases pf <;> rfl

@[simp] theorem release_kernel_start (pf : PoolFlags) (s : MState) :
    (release_pool pf s).kernel_pool.phy_addr_start =
      s.kernel_pool.phy_addr_start := by cases pf <;> rfl

@[simp] theorem release_user_start (pf : PoolFlags) (s : MState) :
    (release_pool pf s).user_pool.phy_addr_start =
      s.user_pool.phy_addr_start := by cases pf <;> rfl

@[simp] theorem release_kernel_bitmap (pf : PoolFlags) (s : MState) :
    (release_pool pf s).kernel_pool.pool_bitmap =
      s.kernel_pool.pool_bitmap := by cases pf <;> rfl

@[simp] theorem release_user_bitmap (pf : PoolFlags) (s : MState) :
    (release_pool pf s).user_pool.pool_bitmap =
      s.user_pool.pool_bitmap := by cases pf <;> rfl

/-- The allocator state the round trip must restore: the two physical
pool bitmaps, the two virtual pool bitmaps, every arena header
(extensionally) and, for every size class of both descriptor arrays, the
block size, blocks-per-arena and the free list up to reordering. -/
def roundtripConcl (s2 s : MState) : Prop :=
  s2.kernel_pool.pool_bitmap = s.kernel_pool.pool_bitmap ∧
  s2.user_pool.pool_bitmap = s.user_pool.pool_bitmap ∧
  s2.kernel_vaddr.vaddr_bitmap = s.kernel_vaddr.vaddr_bitmap ∧
  s2.user_vaddr.vaddr_bitmap = s.user_vaddr.vaddr_bitmap ∧
  (∀ k, alist_get s2.arenas k = alist_get s.arenas k) ∧
  (∀ e, (s2.k_block_descs.getD e default).block_size =
      (s.k_block_descs.getD e default).block_size ∧
    (s2.k_block_descs.getD e default).blocks_per_arena =
      (s.k_block_descs.getD e default).blocks_per_arena ∧
    ((s2.k_block_descs.getD e default).free_list).Perm
      ((s.k_block_descs.getD e default).free_list)) ∧
  (∀ e, (s2.u_block_descs.getD e default).block_size =
      (s.u_block_descs.getD e default).block_size ∧
    (s2.u_block_descs.getD e default).blocks_per_arena =
      (s.u_block_descs.getD e default).blocks_per_arena ∧
    ((s2.u_block_descs.getD e default).free_list).Perm
      ((s.u_block_descs.getD e default).free_list))

/-- Round trip through the large (multi-page) path of sys_malloc: under
the well-formedness invariant the subsequent sys_free restores the
tracked allocator state. -/
theorem roundtrip_large (isK : Bool) (size : Nat) (s s1 s2 : MState)
    (p : Option Nat)
    (hwf : stateWF s)
    (hpg : s.pgdir_null = isK)
    (hmal : sys_malloc_large isK size (acquire_pool (pfOf isK) s) = .ok (p, s1))
    (h : sys_free p s1 = .ok s2) :
    roundtripConcl s2 s := by
  obtain ⟨hg, hpdesW, haw, hkdw, hudw, hkbw, hubw⟩ := hwf
  obtain ⟨hka, hkres, hkub, hua, huub, hkva, hkhs, hkvlt, huva, huvlt⟩ := hg
  have hvaP : ∀ q, (vaddrOf q s).vaddr_start % PG_SIZE = 0 := by
    intro q
    cases q
    · exact hkva
    · exact huva
  have hvltP : ∀ q, (vaddrOf q s).vaddr_start +
      (vaddrOf q s).vaddr_bitmap.bits.length * PG_SIZE < MOD32 := by
    intro q
    cases q
    · exact hkvlt
    · exact huvlt
  have hpdeP : ∀ q, ∀ i, i < (vaddrOf q s).vaddr_bitmap.bits.length →
      s.pdes.contains (PDE_IDX ((vaddrOf q s).vaddr_start + i * PG_SIZE)) = true := by
    intro q
    cases q
    · exact hpdesW.1
    · exact hpdesW.2
  have harenVb : ∀ q, ∀ kv ∈ s.arenas, (vaddrOf q s).vaddr_start ≤ kv.1 →
      kv.1 < (vaddrOf q s).vaddr_start +
        (vaddrOf q s).vaddr_bitmap.bits.length * PG_SIZE →
      (vaddrOf q s).vaddr_bitmap.bits.getD
        ((kv.1 - (vaddrOf q s).vaddr_start) / PG_SIZE) false = true := by
    intro q kv hm
    cases q
    · exact (haw kv hm).2.1
    · exact (haw kv hm).2.2
  rw [sys_malloc_large.eq_def] at hmal
  split at hmal
  · exact absurd hmal (by simp)
  · rename_i sm hmp
    rw [Res.ok.injEq, Prod.mk.injEq] at hmal
    obtain ⟨hp, hs1⟩ := hmal
    subst hp
    subst hs1
    simp only [sys_free] at h
    exact absurd h (by simp)
  · rename_i a sm hmp
    rw [Res.ok.injEq, Prod.mk.injEq] at hmal
    obtain ⟨hp, hs1⟩ := hmal
    subst hp
    subst hs1
    obtain ⟨idx, js, hidxlen, hvfree, ha, hvmal, hvother, hjlen, hjnd, hjbits,
      hpoolmal, hpotherm, hptem, hptek, hpdesm, harenm, hkdm, hudm, hpgm⟩ :=
      malloc_page_char (pfOf isK) _ _ _ _ hmp
        (by simpa using hpdeP (pfOf isK))
        (by simpa using hvaP (pfOf isK))
        (by simpa using hvltP (pfOf isK))
    simp only [vaddrOf_acquire, poolOf_acquire_same, poolOf_acquire_other,
      acquire_pdes, acquire_arenas, acquire_kdescs, acquire_udescs,
      acquire_pgdir] at ha hvmal hvother hjbits hpoolmal hpotherm hptem hptek
    simp only [vaddrOf_acquire, poolOf_acquire_same, poolOf_acquire_other,
      acquire_pdes, acquire_arenas, acquire_kdescs, acquire_udescs,
      acquire_pgdir] at hpdesm harenm hkdm hudm hpgm hidxlen hvfree
    set N := div_round_up (size + sizeof_arena) PG_SIZE with hNdef
    have hN : 0 < N := by
      rw [hNdef]
      simp only [div_round_up, sizeof_arena, PG_SIZE]
      omega
    have hbm_m : (poolOf (pfOf isK) sm).pool_bitmap =
        setBits js true (poolOf (pfOf isK) s).pool_bitmap := by rw [hpoolmal]
    have hst_m : (poolOf (pfOf isK) sm).phy_addr_start =
        (poolOf (pfOf isK) s).phy_addr_start := by rw [hpoolmal]
    have hvs := hvaP (pfOf isK)
    have hvl := hvltP (pfOf isK)
    have halignA : a % PG_SIZE = 0 := by
      rw [ha]
      simp only [PG_SIZE] at hvs ⊢
      omega
    have haup : a + N * PG_SIZE ≤ (vaddrOf (pfOf isK) s).vaddr_start +
        (vaddrOf (pfOf isK) s).vaddr_bitmap.bits.length * PG_SIZE := by
      rw [ha]
      have h1 := hidxlen
      simp only [PG_SIZE] at h1 ⊢
      omega
    have haMOD : a + sizeof_arena < MOD32 := by
      simp only [PG_SIZE, MOD32, sizeof_arena] at haup hvl ⊢
      omega
    have hp0 : (a + sizeof_arena) % MOD32 = a + sizeof_arena :=
      Nat.mod_eq_of_lt haMOD
    rw [hp0] at h
    have hb2a : block2arena (a + sizeof_arena) = a := by
      have h1 := halignA
      have h2 := haMOD
      simp only [block2arena, sizeof_arena, PG_SIZE, MOD32] at h1 h2 ⊢
      omega
    have hfreshArena : ∀ kv ∈ s.arenas,
        ¬(a ≤ kv.1 ∧ kv.1 < a + N * PG_SIZE) := by
      intro kv hm
      rintro ⟨hr1, hr2⟩
      have hal := (haw kv hm).1
      have hvb := harenVb (pfOf isK) kv hm
        (by
          rw [ha] at hr1
          omega)
        (by omega)
      have hfree2 := hvfree
        ((kv.1 - (vaddrOf (pfOf isK) s).vaddr_start) / PG_SIZE - idx)
        (by
          rw [ha] at hr1 hr2
          simp only [PG_SIZE] at *
          omega)
      rw [show idx + ((kv.1 - (vaddrOf (pfOf isK) s).vaddr_start) / PG_SIZE - idx) =
          (kv.1 - (vaddrOf (pfOf isK) s).vaddr_start) / PG_SIZE from by
        rw [ha] at hr1
        simp only [PG_SIZE] at *
        omega] at hfree2
      rw [hvb] at hfree2
      exact absurd hfree2 (by simp)
    have hnoop : s.arenas.filter
        (fun kv => !(decide (a ≤ kv.1 ∧ kv.1 < a + N * PG_SIZE))) = s.arenas := by
      apply List.filter_eq_self.mpr
      intro kv hm
      simp [hfreshArena kv hm]
    simp only [sys_free] at h
    have hpgm2 : sm.pgdir_null = isK := by rw [hpgm, hpg]
    simp only [release_pgdir, set_arena_pgdir, memset_pgdir, hpgm2] at h
    split at h
    · exact absurd h (by simp)
    rename_i hkh
    rw [hb2a] at h
    simp only [acquire_arenas, release_arenas, set_arena_arenas,
      memset_arenas] at h
    rw [harenm, hnoop, alist_get_set_eq] at h
    simp only [Option.getD_some] at h
    split at h
    · rename_i hcond
      split at h
      · exact absurd h (by simp)
      · rename_i s3 hmf
        rw [Res.ok.injEq] at h
        subst h
        have hkstart_m : sm.kernel_pool.phy_addr_start =
            s.kernel_pool.phy_addr_start := by
          cases isK
          · exact congrArg Pool.phy_addr_start hpotherm
          · exact hst_m
        have hustart_m : sm.user_pool.phy_addr_start =
            s.user_pool.phy_addr_start := by
          cases isK
          · exact hst_m
          · exact congrArg Pool.phy_addr_start hpotherm
        have hklen_m : sm.kernel_pool.pool_bitmap.bits.length =
            s.kernel_pool.pool_bitmap.bits.length := by
          cases isK
          · exact congrArg (fun p : Pool => p.pool_bitmap.bits.length) hpotherm
          · exact (congrArg (fun b : Bitmap => b.bits.length) hbm_m).trans
              (setBits_length js true _)
        have hulen_m : sm.user_pool.pool_bitmap.bits.length =
            s.user_pool.pool_bitmap.bits.length := by
          cases isK
          · exact (congrArg (fun b : Bitmap => b.bits.length) hbm_m).trans
              (setBits_length js true _)
          · exact congrArg (fun p : Pool => p.pool_bitmap.bits.length) hpotherm
        have hpteq : ∀ k, pte_val (acquire_pool (pfOf isK) (release_pool (pfOf isK)
            (set_arena a { desc := none, large := true, cnt := N }
              (memset_state a (N * PG_SIZE) sm)))) k = pte_val sm k := by
          intro k
          simp only [pte_val, acquire_ptes, release_ptes, set_arena_ptes,
            memset_ptes]
        obtain ⟨hRbm, hRst, hRsz, hRlk, hRoth, hRv, hRvoth, hRaren, hRkd, hRud,
          hRpg⟩ :=
          mfree_page_restore (pfOf isK) a N idx (fun t => js.getD t 0) _ s3 hmf
            hN
            (by
              simp only [vaddrOf_acquire, vaddrOf_release, vaddrOf_set_arena,
                vaddrOf_memset, hvmal]
              exact ha)
            (by
              simp only [vaddrOf_acquire, vaddrOf_release, vaddrOf_set_arena,
                vaddrOf_memset, hvmal, bitmap_set_range_length]
              exact hidxlen)
            (by
              simp only [vaddrOf_acquire, vaddrOf_release, vaddrOf_set_arena,
                vaddrOf_memset, hvmal]
              exact hvs)
            (by
              simp only [vaddrOf_acquire, vaddrOf_release, vaddrOf_set_arena,
                vaddrOf_memset, hvmal, bitmap_set_range_length]
              exact hvl)
            (by
              intro t ht
              rw [hpteq]
              simp only [poolOf_acquire_same, poolOf_release_same,
                poolOf_set_arena, poolOf_memset, hst_m]
              exact hptem t ht)
            (by
              intro t ht
              simp only [poolOf_acquire_same, poolOf_release_same,
                poolOf_set_arena, poolOf_memset, hbm_m, setBits_length]
              exact (hjbits _ (getD_mem_of_lt js t (by rw [hjlen]; exact ht))).1)
            (by
              simp only [acquire_kernel_start, release_kernel_start,
                set_arena_kernel_pool, memset_kernel_pool, hkstart_m]
              exact hka)
            (by
              simp only [acquire_kernel_start, release_kernel_start,
                set_arena_kernel_pool, memset_kernel_pool, hkstart_m]
              exact hkres)
            (by
              simp only [acquire_kernel_start, release_kernel_start,
                acquire_user_start, release_user_start, acquire_kernel_bitmap,
                release_kernel_bitmap, set_arena_kernel_pool, memset_kernel_pool,
                set_arena_user_pool, memset_user_pool, hkstart_m, hustart_m,
                hklen_m]
              exact hkub)
            (by
              simp only [acquire_user_start, release_user_start,
                set_arena_user_pool, memset_user_pool, hustart_m]
              exact hua)
            (by
              simp only [acquire_user_start, release_user_start,
                acquire_user_bitmap, release_user_bitmap, set_arena_user_pool,
                memset_user_pool, hustart_m, hulen_m]
              exact huub)
        have hmapjs : List.map (fun t => js.getD t 0) (List.range N) = js := by
          rw [← hjlen]
          exact map_getD_range js
        have hsx_aren : (acquire_pool (pfOf isK) (release_pool (pfOf isK)
            (set_arena a { desc := none, large := true, cnt := N }
              (memset_state a (N * PG_SIZE) sm)))).arenas =
            alist_set s.arenas a { desc := none, large := true, cnt := N } := by
          simp only [acquire_arenas, release_arenas, set_arena_arenas,
            memset_arenas, harenm, hnoop]
        obtain ⟨hP1, hP2⟩ := pools_restored (pfOf isK)
          (release_pool (pfOf isK) s3) s
          (by
            simp only [poolOf_release_same]
            rw [hRbm]
            simp only [poolOf_acquire_same, poolOf_release_same,
              poolOf_set_arena, poolOf_memset, hbm_m, hmapjs]
            exact setBits_restore js _ (fun j hj => (hjbits j hj).2))
          (by
            rw [show (poolOf (otherPf (pfOf isK)) (release_pool (pfOf isK) s3)) =
              poolOf (otherPf (pfOf isK)) s3 from poolOf_release_other _ _]
            rw [hRoth]
            simp only [poolOf_acquire_other, poolOf_release_other,
              poolOf_set_arena, poolOf_memset, hpotherm])
        obtain ⟨hV1, hV2⟩ := vaddrs_restored (pfOf isK)
          (release_pool (pfOf isK) s3) s
          (by
            simp only [vaddrOf_release]
            rw [hRv]
            simp only [vaddrOf_acquire, vaddrOf_release, vaddrOf_set_arena,
              vaddrOf_memset, hvmal]
            exact bitmap_set_range_restore _ idx N (fun t ht => hvfree t ht))
          (by
            simp only [vaddrOf_release]
            rw [hRvoth]
            simp only [vaddrOf_acquire, vaddrOf_release, vaddrOf_set_arena,
              vaddrOf_memset, hvother])
        have hkdfin : (release_pool (pfOf isK) s3).k_block_descs =
            s.k_block_descs := by
          simp only [release_kdescs, hRkd, acquire_kdescs, set_arena_kdescs,
            memset_kdescs, hkdm]
        have hudfin : (release_pool (pfOf isK) s3).u_block_descs =
            s.u_block_descs := by
          simp only [release_udescs, hRud, acquire_udescs, set_arena_udescs,
            memset_udescs, hudm]
        refine ⟨hP1, hP2, hV1, hV2, ?_, ?_, ?_⟩
        · intro k
          simp only [release_arenas]
          rw [hRaren, hsx_aren]
          by_cases hkr : a ≤ k ∧ k < a + N * PG_SIZE
          · rw [alist_get_filter_none _ _ _ (fun kv hm he => by
              simp only [Bool.not_eq_false', decide_eq_true_eq]
              rw [he]
              exact hkr)]
            rw [alist_get_none s.arenas k (fun kv hm he =>
              hfreshArena kv hm (he ▸ hkr))]
          · rw [alist_get_filter_ne _ _ _ (fun kv hm he => by
              simp [he, hkr])]
            rw [alist_get_set_ne _ _ _ _ (show a ≠ k from fun hak => hkr
              (by
                rw [← hak]
                exact ⟨Nat.le_refl a, by simp only [PG_SIZE]; omega⟩))]
        · intro e
          rw [hkdfin]
          exact ⟨rfl, rfl, List.Perm.refl _⟩
        · intro e
          rw [hudfin]
          exact ⟨rfl, rfl, List.Perm.refl _⟩
    · rename_i hcond
      exact absurd (by simp) hcond

theorem descsOf_set_free_list (isK : Bool) (d : Nat) (l : List Nat) (s : MState) :
    (if isK then (set_free_list isK d l s).k_block_descs
      else (set_free_list isK d l s).u_block_descs) =
    List.modify (fun bd => { bd with free_list := l }) d
      (if isK then s.k_block_descs else s.u_block_descs) := by
  cases isK <;> rfl

theorem descsOf_other_set_free_list (isK : Bool) (d : Nat) (l : List Nat)
    (s : MState) :
    (if isK then (set_free_list isK d l s).u_block_descs
      else (set_free_list isK d l s).k_block_descs) =
    (if isK then s.u_block_descs else s.k_block_descs) := by
  cases isK <;> rfl

/-- Dispatch: restoration of the caller domain's descriptor array (up to
free-list permutation) together with equality of the other domain's array
give the two concrete descriptor-array conclusions. -/
theorem descs_restored (isK : Bool) (s2 s : MState)
    (hmine : ∀ e,
      ((if isK then s2.k_block_descs else s2.u_block_descs).getD e default).block_size =
        ((if isK then s.k_block_descs else s.u_block_descs).getD e default).block_size ∧
      ((if isK then s2.k_block_descs else s2.u_block_descs).getD e default).blocks_per_arena =
        ((if isK then s.k_block_descs else s.u_block_descs).getD e default).blocks_per_arena ∧
      (((if isK then s2.k_block_descs else s2.u_block_descs).getD e default).free_list).Perm
        (((if isK then s.k_block_descs else s.u_block_descs).getD e default).free_list))
    (hoth : (if isK then s2.u_block_descs else s2.k_block_descs) =
      (if isK then s.u_block_descs else s.k_block_descs)) :
    (∀ e, (s2.k_block_descs.getD e default).block_size =
        (s.k_block_descs.getD e default).block_size ∧
      (s2.k_block_descs.getD e default).blocks_per_arena =
        (s.k_block_descs.getD e default).blocks_per_arena ∧
      ((s2.k_block_descs.getD e default).free_list).Perm
        ((s.k_block_descs.getD e default).free_list)) ∧
    (∀ e, (s2.u_block_descs.getD e default).block_size =
        (s.u_block_descs.getD e default).block_size ∧
      (s2.u_block_descs.getD e default).blocks_per_arena =
        (s.u_block_descs.getD e default).blocks_per_arena ∧
      ((s2.u_block_descs.getD e default).free_list).Perm
        ((s.u_block_descs.getD e default).free_list)) := by
  cases isK
  · simp only [Bool.false_eq_true, if_false] at hmine hoth
    exact ⟨fun e => by rw [hoth]; exact ⟨rfl, rfl, List.Perm.refl _⟩, hmine⟩
  · simp only [if_true] at hmine hoth
    exact ⟨hmine, fun e => by rw [hoth]; exact ⟨rfl, rfl, List.Perm.refl _⟩⟩


set_option maxRecDepth 4000 in
/-- Round trip through the slab path of sys_malloc when the chosen size
class has a non-empty free list: pop the head block, free it again.  The
free list comes back rotated (the freed block returns at the tail), the
arena counter and everything else exactly. -/
theorem roundtrip_pop (isK : Bool) (d : Nat) (s s1 s2 : MState) (p : Option Nat)
    (hwf : stateWF s) (hpg : s.pgdir_null = isK) (hdlt : d < DESC_CNT)
    (hmal : sys_malloc_pop isK d (acquire_pool (pfOf isK) s) = .ok (p, s1))
    (h : sys_free p s1 = .ok s2) :
    roundtripConcl s2 s := by
  obtain ⟨hg, hpdesW, haw, hkdw, hudw, hkbw, hubw⟩ := hwf
  have h2d : 2 ^ d ≤ 64 := by
    have hd6 : d ≤ 6 := by
      simp only [DESC_CNT] at hdlt
      omega
    calc 2 ^ d ≤ 2 ^ 6 := Nat.pow_le_pow_right (by norm_num) hd6
    _ = 64 := by norm_num
  cases isK
  · -- user domain
    have hLlen := hudw.1
    have hbs := (hudw.2 d hdlt).1
    have hbpa := (hudw.2 d hdlt).2
    have hdL : d < s.u_block_descs.length := by
      rw [hLlen]
      exact hdlt
    have hsfl : ∀ (dd : Nat) (l : List Nat) (X : MState),
        set_free_list false dd l X = { X with u_block_descs := List.modify (fun bd => { bd with free_list := l }) dd X.u_block_descs } :=
      fun _ _ _ => rfl
    have hflv : ∀ (X : MState) (dd : Nat), free_list_of X false dd =
        (X.u_block_descs.getD dd default).free_list := fun _ _ => rfl
    simp only [sys_malloc_pop, hflv, hsfl, acquire_udescs, Bool.false_eq_true,
      if_false] at hmal
    split at hmal
    · exact absurd hmal (by simp)
    · rename_i b rest heq
      have hmg := modify_getD_self (fun bd => { bd with free_list := rest })
        s.u_block_descs d hdL
      have hbF := hubw d hdlt b (by
        rw [hflv, heq]
        exact List.mem_cons_self b rest)
      obtain ⟨hbM, hbOff, hbFit, hbKH, hbSome, hbDesc, hbCnt, hbCne⟩ := hbF
      cases ho : alist_get s.arenas (block2arena b) with
      | none =>
        rw [ho] at hbSome
        exact absurd hbSome (by simp)
      | some hdrb =>
        rw [ho] at hbDesc hbCnt hbCne
        simp only [Option.getD_some] at hbDesc hbCnt hbCne
        have hnoop2 : (s.arenas.filter
            (fun kv => !(decide (b ≤ kv.1 ∧ kv.1 < b + 16 * 2 ^ d)))) =
            s.arenas := by
          apply List.filter_eq_self.mpr
          intro kv hm
          have hal := (haw kv hm).1
          have hni : ¬(b ≤ kv.1 ∧ kv.1 < b + 16 * 2 ^ d) := by
            rintro ⟨h1, h2⟩
            simp only [PG_SIZE, sizeof_arena] at hal hbOff hbFit
            omega
          simp [hni]
        simp only [hmg, hbs, memset_arenas, acquire_arenas] at hmal
        rw [hnoop2, ho] at hmal
        simp only [Option.getD_some] at hmal
        rw [Res.ok.injEq, Prod.mk.injEq] at hmal
        obtain ⟨hp, hs1⟩ := hmal
        subst hp
        subst hs1
        simp only [sys_free] at h
        simp only [release_pgdir, set_arena_pgdir, memset_pgdir, acquire_pgdir,
          hpg] at h
        split at h
        · rename_i hcond
          exact absurd hcond.1 (by simp)
        rename_i hkh
        simp only [acquire_arenas, release_arenas, set_arena_arenas,
          memset_arenas, acquire_udescs] at h
        rw [hnoop2, alist_get_set_eq, Option.getD_some] at h
        split at h
        · rename_i hcond
          have hx : hdrb.desc = none := hcond.1
          rw [hbDesc] at hx
          exact absurd hx (by simp)
        rename_i hcond
        split at h
        · rename_i heq2
          have hx : hdrb.desc = none := heq2
          rw [hbDesc] at hx
          exact absurd hx (by simp)
        · rename_i dp heq2
          have hdp : dp = (false, d) := by
            have hx : hdrb.desc = some dp := heq2
            rw [hbDesc] at hx
            exact (Option.some.inj hx).symm
          subst hdp
          have hC : ((hdrb.cnt + MOD32 - 1) % MOD32 + 1) % MOD32 = hdrb.cnt := by
            simp only [ MOD32] at hbCnt ⊢
            omega
          have hmg2 := modify_getD_self
            (fun bd => { bd with free_list := rest ++ [b] })
            (List.modify (fun bd => { bd with free_list := rest }) d
              s.u_block_descs) d
            (by
              rw [List.length_modify, hLlen]
              exact hdlt)
          simp only [hflv, hsfl, desc_of, acquire_udescs, release_udescs,
            set_arena_udescs, memset_udescs, hmg, hmg2, hC, hbpa,
            Bool.false_eq_true, if_false] at h
          split at h
          · rename_i hcnd
            exact absurd hcnd hbCne
          · rename_i hcnd
            rw [Res.ok.injEq] at h
            subst h
            refine ⟨?_, ?_, ?_, ?_, ?_, ?_, ?_⟩
            · simp only [release_kernel_bitmap, set_arena_kernel_pool,
                set_free_list_kernel_pool, acquire_kernel_bitmap,
                release_kernel_bitmap, memset_kernel_pool]
            · simp only [release_user_bitmap, set_arena_user_pool,
                set_free_list_user_pool, acquire_user_bitmap,
                release_user_bitmap, memset_user_pool]
            · simp only [release_pool, acquire_pool, setPool_kernel_vaddr,
                set_arena_kernel_vaddr, memset_kernel_vaddr]
            · simp only [release_pool, acquire_pool, setPool_user_vaddr,
                set_arena_user_vaddr, memset_user_vaddr]
            · intro k
              simp only [release_arenas, set_arena_arenas, acquire_arenas,
                memset_arenas, hnoop2]
              by_cases hkb : k = block2arena b
              · subst hkb
                rw [alist_get_set_eq, ho]
              · rw [alist_get_set_ne _ _ _ _ (fun he => hkb he.symm),
                  alist_get_set_ne _ _ _ _ (fun he => hkb he.symm)]
            · intro e
              simp only [release_kdescs, set_arena_kdescs, acquire_kdescs,
                memset_kdescs]
              exact ⟨by trivial, by trivial, List.Perm.refl _⟩
            · intro e
              simp only [release_udescs, set_arena_udescs, acquire_udescs,
                memset_udescs]
              by_cases hed : e = d
              · subst hed
                rw [hmg2, hmg, heq]
                exact ⟨rfl, rfl, List.perm_append_singleton b rest⟩
              · rw [modify_getD_ne _ _ _ _ (fun hde => hed hde.symm),
                  modify_getD_ne _ _ _ _ (fun hde => hed hde.symm)]
                exact ⟨rfl, rfl, List.Perm.refl _⟩
  · -- kernel domain
    have hLlen := hkdw.1
    have hbs := (hkdw.2 d hdlt).1
    have hbpa := (hkdw.2 d hdlt).2
    have hdL : d < s.k_block_descs.length := by
      rw [hLlen]
      exact hdlt
    have hsfl : ∀ (dd : Nat) (l : List Nat) (X : MState),
        set_free_list true dd l X = { X with k_block_descs := List.modify (fun bd => { bd with free_list := l }) dd X.k_block_descs } :=
      fun _ _ _ => rfl
    have hflv : ∀ (X : MState) (dd : Nat), free_list_of X true dd =
        (X.k_block_descs.getD dd default).free_list := fun _ _ => rfl
    simp only [sys_malloc_pop, hflv, hsfl, acquire_kdescs, if_true] at hmal
    split at hmal
    · exact absurd hmal (by simp)
    · rename_i b rest heq
      have hmg := modify_getD_self (fun bd => { bd with free_list := rest })
        s.k_block_descs d hdL
      have hbF := hkbw d hdlt b (by
        rw [hflv, heq]
        exact List.mem_cons_self b rest)
      obtain ⟨hbM, hbOff, hbFit, hbKH, hbSome, hbDesc, hbCnt, hbCne⟩ := hbF
      cases ho : alist_get s.arenas (block2arena b) with
      | none =>
        rw [ho] at hbSome
        exact absurd hbSome (by simp)
      | some hdrb =>
        rw [ho] at hbDesc hbCnt hbCne
        simp only [Option.getD_some] at hbDesc hbCnt hbCne
        have hnoop2 : (s.arenas.filter
            (fun kv => !(decide (b ≤ kv.1 ∧ kv.1 < b + 16 * 2 ^ d)))) =
            s.arenas := by
          apply List.filter_eq_self.mpr
          intro kv hm
          have hal := (haw kv hm).1
          have hni : ¬(b ≤ kv.1 ∧ kv.1 < b + 16 * 2 ^ d) := by
            rintro ⟨h1, h2⟩
            simp only [PG_SIZE, sizeof_arena] at hal hbOff hbFit
            omega
          simp [hni]
        simp only [hmg, hbs, memset_arenas, acquire_arenas] at hmal
        rw [hnoop2, ho] at hmal
        simp only [Option.getD_some] at hmal
        rw [Res.ok.injEq, Prod.mk.injEq] at hmal
        obtain ⟨hp, hs1⟩ := hmal
        subst hp
        subst hs1
        simp only [sys_free] at h
        simp only [release_pgdir, set_arena_pgdir, memset_pgdir, acquire_pgdir,
          hpg] at h
        split at h
        · rename_i hcond
          have := hbKH rfl
          obtain ⟨-, hlt⟩ := hcond
          simp only [K_HEAP_START] at this hlt
          omega
        rename_i hkh
        simp only [acquire_arenas, release_arenas, set_arena_arenas,
          memset_arenas, acquire_kdescs] at h
        rw [hnoop2, alist_get_set_eq, Option.getD_some] at h
        split at h
        · rename_i hcond
          have hx : hdrb.desc = none := hcond.1
          rw [hbDesc] at hx
          exact absurd hx (by simp)
        rename_i hcond
        split at h
        · rename_i heq2
          have hx : hdrb.desc = none := heq2
          rw [hbDesc] at hx
          exact absurd hx (by simp)
        · rename_i dp heq2
          have hdp : dp = (true, d) := by
            have hx : hdrb.desc = some dp := heq2
            rw [hbDesc] at hx
            exact (Option.some.inj hx).symm
          subst hdp
          have hC : ((hdrb.cnt + MOD32 - 1) % MOD32 + 1) % MOD32 = hdrb.cnt := by
            simp only [ MOD32] at hbCnt ⊢
            omega
          have hmg2 := modify_getD_self
            (fun bd => { bd with free_list := rest ++ [b] })
            (List.modify (fun bd => { bd with free_list := rest }) d
              s.k_block_descs) d
            (by
              rw [List.length_modify, hLlen]
              exact hdlt)
          simp only [hflv, hsfl, desc_of, acquire_kdescs, release_kdescs,
            set_arena_kdescs, memset_kdescs, hmg, hmg2, hC, hbpa, if_true] at h
          split at h
          · rename_i hcnd
            exact absurd hcnd hbCne
          · rename_i hcnd
            rw [Res.ok.injEq] at h
            subst h
            refine ⟨?_, ?_, ?_, ?_, ?_, ?_, ?_⟩
            · simp only [release_kernel_bitmap, set_arena_kernel_pool,
                set_free_list_kernel_pool, acquire_kernel_bitmap,
                release_kernel_bitmap, memset_kernel_pool]
            · simp only [release_user_bitmap, set_arena_user_pool,
                set_free_list_user_pool, acquire_user_bitmap,
                release_user_bitmap, memset_user_pool]
            · simp only [release_pool, acquire_pool, setPool_kernel_vaddr,
                set_arena_kernel_vaddr, memset_kernel_vaddr]
            · simp only [release_pool, acquire_pool, setPool_user_vaddr,
                set_arena_user_vaddr, memset_user_vaddr]
            · intro k
              simp only [release_arenas, set_arena_arenas, acquire_arenas,
                memset_arenas, hnoop2]
              by_cases hkb : k = block2arena b
              · subst hkb
                rw [alist_get_set_eq, ho]
              · rw [alist_get_set_ne _ _ _ _ (fun he => hkb he.symm),
                  alist_get_set_ne _ _ _ _ (fun he => hkb he.symm)]
            · intro e
              simp only [release_kdescs, set_arena_kdescs, acquire_kdescs,
                memset_kdescs]
              by_cases hed : e = d
              · subst hed
                rw [hmg2, hmg, heq]
                exact ⟨rfl, rfl, List.perm_append_singleton b rest⟩
              · rw [modify_getD_ne _ _ _ _ (fun hde => hed hde.symm),
                  modify_getD_ne _ _ _ _ (fun hde => hed hde.symm)]
                exact ⟨rfl, rfl, List.Perm.refl _⟩
            · intro e
              simp only [release_udescs, set_arena_udescs, acquire_udescs,
                memset_udescs]
              exact ⟨by trivial, by trivial, List.Perm.refl _⟩

set_option maxRecDepth 4000 in
/-- Round trip through the slab path of sys_malloc (sizes up to 1024):
either pop an existing block or build a fresh one-page arena, then free
it again.  The fresh-arena case is reclaimed wholesale by sys_free, the
pop case returns the block to the list tail. -/
theorem roundtrip_small (isK : Bool) (size : Nat) (s s1 s2 : MState)
    (p : Option Nat)
    (hwf : stateWF s) (hpg : s.pgdir_null = isK) (hsz : size ≤ 1024)
    (hmal : sys_malloc_small isK size (acquire_pool (pfOf isK) s) = .ok (p, s1))
    (h : sys_free p s1 = .ok s2) :
    roundtripConcl s2 s := by
  have hdw : descsWF (if isK then s.k_block_descs else s.u_block_descs) := by
    cases isK
    · exact hwf.2.2.2.2.1
    · exact hwf.2.2.2.1
  have hdlt : find_desc_idx (if isK then s.k_block_descs else s.u_block_descs)
      size < DESC_CNT := find_desc_idx_lt _ _ hdw hsz
  obtain ⟨hg, hpdesW, haw, hkdw, hudw, hkbw, hubw⟩ := hwf
  obtain ⟨hka, hkres, hkub, hua, huub, hkva, hkhs, hkvlt, huva, huvlt⟩ := hg
  have hvaP : ∀ q, (vaddrOf q s).vaddr_start % PG_SIZE = 0 := by
    intro q
    cases q
    · exact hkva
    · exact huva
  have hvltP : ∀ q, (vaddrOf q s).vaddr_start +
      (vaddrOf q s).vaddr_bitmap.bits.length * PG_SIZE < MOD32 := by
    intro q
    cases q
    · exact hkvlt
    · exact huvlt
  have hpdeP : ∀ q, ∀ i, i < (vaddrOf q s).vaddr_bitmap.bits.length →
      s.pdes.contains (PDE_IDX ((vaddrOf q s).vaddr_start + i * PG_SIZE)) = true := by
    intro q
    cases q
    · exact hpdesW.1
    · exact hpdesW.2
  have harenVb : ∀ q, ∀ kv ∈ s.arenas, (vaddrOf q s).vaddr_start ≤ kv.1 →
      kv.1 < (vaddrOf q s).vaddr_start +
        (vaddrOf q s).vaddr_bitmap.bits.length * PG_SIZE →
      (vaddrOf q s).vaddr_bitmap.bits.getD
        ((kv.1 - (vaddrOf q s).vaddr_start) / PG_SIZE) false = true := by
    intro q kv hm
    cases q
    · exact (haw kv hm).2.1
    · exact (haw kv hm).2.2
  simp only [sys_malloc_small, acquire_kdescs, acquire_udescs] at hmal
  split at hmal
  · rename_i hKt
    subst hKt
    have hLlen := hkdw.1
    have hdltK : find_desc_idx s.k_block_descs size < DESC_CNT := by
      simpa using hdlt
    have hdL : find_desc_idx s.k_block_descs size < s.k_block_descs.length := by
      rw [hLlen]
      exact hdltK
    have hbs := (hkdw.2 _ hdltK).1
    have hbpa := (hkdw.2 _ hdltK).2
    split at hmal
    · rename_i hEmpB
      have hEmp := List.isEmpty_iff.mp hEmpB
      split at hmal
      · exact absurd hmal (by simp)
      · rename_i sm hmp
        rw [Res.ok.injEq, Prod.mk.injEq] at hmal
        obtain ⟨hp, hs1⟩ := hmal
        subst hp
        subst hs1
        simp only [sys_free] at h
        exact absurd h (by simp)
      · rename_i a sm hmp
        have hpfK : pfOf true = PoolFlags.PF_KERNEL := rfl
        rw [hpfK] at hmp
        obtain ⟨idx, js, hidxlen, hvfree, ha, hvmal, hvother, hjlen, hjnd,
          hjbits, hpoolmal, hpotherm, hptem, hptek, hpdesm, harenm, hkdm, hudm,
          hpgm⟩ :=
          malloc_page_char .PF_KERNEL _ _ _ _ hmp
            (by simpa using hpdeP .PF_KERNEL)
            (by simpa using hvaP .PF_KERNEL)
            (by simpa using hvltP .PF_KERNEL)
        simp only [vaddrOf, otherPf, poolOf, acquire_pool, setPool] at ha hvmal
        simp only [vaddrOf, otherPf, poolOf, acquire_pool, setPool] at hvother
        simp only [vaddrOf, otherPf, poolOf, acquire_pool, setPool] at hjbits
        simp only [vaddrOf, otherPf, poolOf, acquire_pool, setPool] at hpoolmal
        simp only [vaddrOf, otherPf, poolOf, acquire_pool, setPool] at hpotherm
        simp only [vaddrOf, otherPf, poolOf, acquire_pool, setPool] at hptem
        simp only [vaddrOf, otherPf, poolOf, acquire_pool, setPool] at hptek
        simp only [vaddrOf, otherPf, poolOf, acquire_pool, setPool] at hpdesm
        simp only [vaddrOf, otherPf, poolOf, acquire_pool, setPool] at harenm
        simp only [vaddrOf, otherPf, poolOf, acquire_pool, setPool] at hkdm
        simp only [vaddrOf, otherPf, poolOf, acquire_pool, setPool] at hudm
        simp only [vaddrOf, otherPf, poolOf, acquire_pool, setPool] at hpgm
        simp only [vaddrOf, otherPf, poolOf, acquire_pool, setPool] at hidxlen
        simp only [vaddrOf, otherPf, poolOf, acquire_pool, setPool] at hvfree
        have hbm_m : sm.kernel_pool.pool_bitmap =
            setBits js true s.kernel_pool.pool_bitmap := by rw [hpoolmal]
        have hst_m : sm.kernel_pool.phy_addr_start =
            s.kernel_pool.phy_addr_start := by rw [hpoolmal]
        have halignA : a % PG_SIZE = 0 := by
          rw [ha]
          simp only [PG_SIZE] at hkva ⊢
          omega
        have haup : a + PG_SIZE ≤ s.kernel_vaddr.vaddr_start +
            s.kernel_vaddr.vaddr_bitmap.bits.length * PG_SIZE := by
          rw [ha]
          have h1 := hidxlen
          simp only [PG_SIZE] at h1 ⊢
          omega
        have haMOD : a + PG_SIZE ≤ MOD32 := by
          have h1 := hkvlt
          omega
        have hfreshA : ∀ kv ∈ s.arenas, ¬(a ≤ kv.1 ∧ kv.1 < a + PG_SIZE) := by
          intro kv hm
          rintro ⟨hr1, hr2⟩
          have hal := (haw kv hm).1
          have hvb := (haw kv hm).2.1
            (by
              rw [ha] at hr1
              omega)
            (by omega)
          have hfree2 := hvfree
            ((kv.1 - s.kernel_vaddr.vaddr_start) / PG_SIZE - idx)
            (by
              rw [ha] at hr1 hr2
              simp only [PG_SIZE] at *
              omega)
          rw [show idx + ((kv.1 - s.kernel_vaddr.vaddr_start) / PG_SIZE - idx) =
              (kv.1 - s.kernel_vaddr.vaddr_start) / PG_SIZE from by
            rw [ha] at hr1
            simp only [PG_SIZE] at *
            omega] at hfree2
          rw [hvb] at hfree2
          exact absurd hfree2 (by simp)
        have hnoopA : s.arenas.filter
            (fun kv => !(decide (a ≤ kv.1 ∧ kv.1 < a + PG_SIZE))) = s.arenas :=
          List.filter_eq_self.mpr (fun kv hm => by simp [hfreshA kv hm])
        set D := find_desc_idx s.k_block_descs size with hDdef
        have h2d : 2 ^ D ≤ 64 := by
          have hd6 : D ≤ 6 := by
            simp only [DESC_CNT] at hdltK
            omega
          calc 2 ^ D ≤ 2 ^ 6 := Nat.pow_le_pow_right (by norm_num) hd6
          _ = 64 := by norm_num
        have hbs0 : 0 < 16 * 2 ^ D := by positivity
        have hfit : sizeof_arena +
            (0 + (PG_SIZE - sizeof_arena) / (16 * 2 ^ D)) * (16 * 2 ^ D) ≤
            PG_SIZE := by
          have hmul := Nat.div_mul_le_self (PG_SIZE - sizeof_arena) (16 * 2 ^ D)
          have hch2 : (0 + (PG_SIZE - sizeof_arena) / (16 * 2 ^ D)) *
              (16 * 2 ^ D) =
              (PG_SIZE - sizeof_arena) / (16 * 2 ^ D) * (16 * 2 ^ D) := by ring
          rw [hch2]
          simp only [sizeof_arena, PG_SIZE] at hmul ⊢
          omega
        have hbpa2 : 2 ≤ (PG_SIZE - sizeof_arena) / (16 * 2 ^ D) := by
          rw [Nat.le_div_iff_mul_le hbs0]
          simp only [sizeof_arena, PG_SIZE]
          omega
        have hsfl : ∀ (dd : Nat) (l : List Nat) (X : MState),
            set_free_list true dd l X = { X with k_block_descs := List.modify (fun bd => { bd with free_list := l }) dd X.k_block_descs } :=
          fun _ _ _ => rfl
        have hflv : ∀ (X : MState) (dd : Nat), free_list_of X true dd =
            (X.k_block_descs.getD dd default).free_list := fun _ _ => rfl
        simp only [hpfK, hflv, hsfl, memset_kdescs, set_arena_kdescs, hkdm,
          hbs, hbpa, hEmp] at hmal
        have hpop := populate_from_ok a (16 * 2 ^ D) haMOD hbs0
          ((PG_SIZE - sizeof_arena) / (16 * 2 ^ D)) 0 [] hfit
          (fun b hb => absurd hb (List.not_mem_nil b))
        rw [List.nil_append] at hpop
        have hmgM := modify_getD_self
          (fun bd => { bd with free_list := List.map (fun t => a + sizeof_arena + (0 + t) * (16 * 2 ^ D)) (List.range ((PG_SIZE - sizeof_arena) / (16 * 2 ^ D))) })
          s.k_block_descs D hdL
        simp only [hpop, sys_malloc_pop, hflv, hsfl, set_arena_kdescs,
          memset_kdescs, hkdm, hmgM, hbs] at hmal
        split at hmal
        · rename_i heqM
          have hlen0 := congrArg List.length heqM
          simp only [List.length_map, List.length_range,
            List.length_nil] at hlen0
          omega
        · rename_i b rest heqM
          have hbMem : b ∈ List.map
              (fun t => a + sizeof_arena + (0 + t) * (16 * 2 ^ D))
              (List.range ((PG_SIZE - sizeof_arena) / (16 * 2 ^ D))) := by
            rw [heqM]
            exact List.mem_cons_self b rest
          obtain ⟨t, htR, hbv⟩ := List.mem_map.mp hbMem
          have htlt := List.mem_range.mp htR
          have hch : a + sizeof_arena + (0 + t) * (16 * 2 ^ D) =
              a + sizeof_arena + t * (16 * 2 ^ D) := by ring
          rw [hch] at hbv
          have hexp2 : ((PG_SIZE - sizeof_arena) / (16 * 2 ^ D) - 1) *
              (16 * 2 ^ D) + 16 * 2 ^ D =
              (PG_SIZE - sizeof_arena) / (16 * 2 ^ D) * (16 * 2 ^ D) := by
            have h0 : 1 ≤ (PG_SIZE - sizeof_arena) / (16 * 2 ^ D) := by omega
            calc ((PG_SIZE - sizeof_arena) / (16 * 2 ^ D) - 1) * (16 * 2 ^ D) +
                16 * 2 ^ D =
                ((PG_SIZE - sizeof_arena) / (16 * 2 ^ D) - 1 + 1) *
                  (16 * 2 ^ D) := by ring
            _ = (PG_SIZE - sizeof_arena) / (16 * 2 ^ D) * (16 * 2 ^ D) := by
                rw [Nat.sub_add_cancel h0]
          have htb : t * (16 * 2 ^ D) ≤
              ((PG_SIZE - sizeof_arena) / (16 * 2 ^ D) - 1) * (16 * 2 ^ D) :=
            Nat.mul_le_mul_right _ (by omega)
          have hf2 := hfit
          rw [show (0 + (PG_SIZE - sizeof_arena) / (16 * 2 ^ D)) *
              (16 * 2 ^ D) =
              (PG_SIZE - sizeof_arena) / (16 * 2 ^ D) * (16 * 2 ^ D) from by
            ring] at hf2
          have hbb : a + sizeof_arena ≤ b ∧ b + 16 * 2 ^ D ≤ a + PG_SIZE := by
            constructor
            · omega
            · omega
          have hb2a : block2arena b = a := by
            have h1 := halignA
            have h2 := haMOD
            have h3 := hbb
            have h4 := hbs0
            simp only [block2arena, PG_SIZE, MOD32, sizeof_arena] at h1 h2 h3 ⊢
            omega
          have hBKH : K_HEAP_START ≤ b := by
            have h1 := hkhs
            have h3 := hbb
            rw [ha] at h3
            simp only [K_HEAP_START, sizeof_arena] at *
            omega
          have hnoopB : (alist_set s.arenas a
              { desc := some (true, D), large := false,
                cnt := (PG_SIZE - sizeof_arena) / (16 * 2 ^ D) }).filter
              (fun kv => !(decide (b ≤ kv.1 ∧ kv.1 < b + 16 * 2 ^ D))) =
              alist_set s.arenas a
              { desc := some (true, D), large := false,
                cnt := (PG_SIZE - sizeof_arena) / (16 * 2 ^ D) } := by
            apply List.filter_eq_self.mpr
            intro kv hm
            have hnk : ¬(b ≤ kv.1 ∧ kv.1 < b + 16 * 2 ^ D) := by
              rcases List.mem_cons.mp hm with hh | hh
              · rintro ⟨h1, h2⟩
                have hka2 : kv.1 = a := by rw [hh]
                have h3 := hbb
                simp only [sizeof_arena] at h3
                omega
              · have hmem2 := (List.mem_filter.mp hh).1
                have hal := (haw kv hmem2).1
                rintro ⟨h1, h2⟩
                have h3 := hbb
                simp only [PG_SIZE, sizeof_arena] at hal h3 halignA
                omega
            simp [hnk]
          have hmgR := modify_getD_self (fun bd => { bd with free_list := rest })
            (List.modify (fun bd => { bd with free_list := List.map (fun t => a + sizeof_arena + (0 + t) * (16 * 2 ^ D)) (List.range ((PG_SIZE - sizeof_arena) / (16 * 2 ^ D))) }) D s.k_block_descs)
            D
            (by
              rw [List.length_modify, hLlen]
              exact hdltK)
          simp only [if_true, hmgR, hmgM, hbs, memset_arenas, set_arena_arenas,
            harenm, hnoopA, hnoopB, hb2a, alist_get_set_eq,
            Option.getD_some] at hmal
          rw [Res.ok.injEq, Prod.mk.injEq] at hmal
          obtain ⟨hp, hs1⟩ := hmal
          subst hp
          subst hs1
          simp only [sys_free] at h
          simp only [release_pgdir, set_arena_pgdir, memset_pgdir,
            acquire_pgdir, hpg] at h
          split at h
          · rename_i hcond
            obtain ⟨-, hlt⟩ := hcond
            simp only [K_HEAP_START] at hlt hBKH
            omega
          rename_i hkh
          rw [hb2a] at h
          simp only [hpfK, acquire_arenas, release_arenas, set_arena_arenas,
            memset_arenas, harenm] at h
          have hpgm2 : sm.pgdir_null = true := by rw [hpgm, hpg]
          rw [hpgm2, hpfK] at h
          rw [hnoopB, alist_get_set_eq, Option.getD_some] at h
          split at h
          · rename_i hcond
            exact absurd hcond.1 (by simp)
          rename_i hcond
          split at h
          · rename_i heq2
            exact absurd heq2 (by simp)
          · rename_i dp heq2
            have hdp : dp = (true, D) := by
              have hx : (some (true, D) : Option (Bool × Nat)) = some dp := heq2
              exact (Option.some.inj hx).symm
            subst hdp
            have hble : (PG_SIZE - sizeof_arena) / (16 * 2 ^ D) ≤
                PG_SIZE - sizeof_arena := Nat.div_le_self _ _
            have hble2 : (PG_SIZE - sizeof_arena) / (16 * 2 ^ D) ≤ 4084 := by
              have h5 := hble
              simp only [PG_SIZE, sizeof_arena] at h5 ⊢
              omega
            have hCCgen : ∀ B : Nat, B ≤ 4084 →
                ((B + MOD32 - 1) % MOD32 + 1) % MOD32 = B := by
              intro B hB
              simp only [ MOD32]
              omega
            have hCC2 := hCCgen ((PG_SIZE - sizeof_arena) / (16 * 2 ^ D)) hble2
            have hmgL := modify_getD_self
              (fun bd => { bd with free_list := rest ++ [b] })
              (List.modify (fun bd => { bd with free_list := rest }) D (List.modify (fun bd => { bd with free_list := List.map (fun t => a + sizeof_arena + (0 + t) * (16 * 2 ^ D)) (List.range ((PG_SIZE - sizeof_arena) / (16 * 2 ^ D))) }) D s.k_block_descs))
              D
              (by
                rw [List.length_modify, List.length_modify, hLlen]
                exact hdltK)
            simp only [hflv, hsfl, desc_of, if_true, acquire_kdescs,
              release_kdescs, set_arena_kdescs, memset_kdescs, hmgL, hmgR,
              hmgM, hCC2, hbpa, hbs] at h
            have hperm : (rest ++ [b]).Perm (List.map
                (fun t => a + sizeof_arena + (0 + t) * (16 * 2 ^ D))
                (List.range ((PG_SIZE - sizeof_arena) / (16 * 2 ^ D)))) := by
              rw [heqM]
              exact List.perm_append_singleton b rest
            have hunl := unlink_from_ok a (16 * 2 ^ D) haMOD hbs0
              ((PG_SIZE - sizeof_arena) / (16 * 2 ^ D)) 0 (rest ++ [b]) hfit
              hperm
            simp only [hunl] at h
            split at h
            · exact absurd h (by simp)
            · rename_i s3 hmf
              rw [Res.ok.injEq] at h
              subst h
              have hmapjs : List.map (fun t => js.getD t 0) (List.range 1) =
                  js := by
                rw [show (1 : Nat) = js.length from hjlen.symm]
                exact map_getD_range js
              obtain ⟨hRbm, hRst, hRsz, hRlk, hRoth, hRv, hRvoth, hRaren,
                hRkd, hRud, hRpg⟩ :=
                mfree_page_restore .PF_KERNEL a 1 idx (fun t => js.getD t 0)
                  _ s3 hmf Nat.one_pos
                  (by
                    simp only [vaddrOf, acquire_pool, release_pool,
                      setPool_kernel_vaddr, set_arena_kernel_vaddr,
                      memset_kernel_vaddr, hvmal]
                    exact ha)
                  (by
                    simp only [vaddrOf, acquire_pool, release_pool,
                      setPool_kernel_vaddr, set_arena_kernel_vaddr,
                      memset_kernel_vaddr, hvmal, bitmap_set_range_length]
                    exact hidxlen)
                  (by
                    simp only [vaddrOf, acquire_pool, release_pool,
                      setPool_kernel_vaddr, set_arena_kernel_vaddr,
                      memset_kernel_vaddr, hvmal]
                    exact hkva)
                  (by
                    simp only [vaddrOf, acquire_pool, release_pool,
                      setPool_kernel_vaddr, set_arena_kernel_vaddr,
                      memset_kernel_vaddr, hvmal, bitmap_set_range_length]
                    exact hkvlt)
                  (by
                    intro t ht
                    have h1 := hptem t ht
                    simp only [pte_val] at h1 ⊢
                    simp only [acquire_ptes, release_ptes, set_arena_ptes,
                      memset_ptes, poolOf, acquire_kernel_start,
                      release_kernel_start, set_arena_kernel_pool,
                      memset_kernel_pool, hst_m]
                    exact h1)
                  (by
                    intro t ht
                    simp only [poolOf, acquire_kernel_bitmap,
                      release_kernel_bitmap, set_arena_kernel_pool,
                      memset_kernel_pool, hbm_m, setBits_length]
                    exact (hjbits _ (getD_mem_of_lt js t (by
                      rw [hjlen]
                      exact ht))).1)
                  (by
                    simp only [acquire_kernel_start, release_kernel_start,
                      set_arena_kernel_pool, memset_kernel_pool, hst_m]
                    exact hka)
                  (by
                    simp only [acquire_kernel_start, release_kernel_start,
                      set_arena_kernel_pool, memset_kernel_pool, hst_m]
                    exact hkres)
                  (by
                    simp only [acquire_kernel_start, release_kernel_start,
                      acquire_user_start, release_user_start,
                      acquire_kernel_bitmap, release_kernel_bitmap,
                      set_arena_kernel_pool, memset_kernel_pool,
                      set_arena_user_pool, memset_user_pool, hst_m, hbm_m,
                      setBits_length, hpotherm]
                    exact hkub)
                  (by
                    simp only [acquire_user_start, release_user_start,
                      set_arena_user_pool, memset_user_pool, hpotherm]
                    exact hua)
                  (by
                    simp only [acquire_user_start, release_user_start,
                      acquire_user_bitmap, release_user_bitmap,
                      set_arena_user_pool, memset_user_pool, hpotherm]
                    exact huub)
              refine ⟨?_, ?_, ?_, ?_, ?_, ?_, ?_⟩
              · simp only [poolOf] at hRbm
                rw [release_kernel_bitmap, hRbm, hmapjs]
                simp only [acquire_kernel_bitmap, release_kernel_bitmap,
                  set_arena_kernel_pool, memset_kernel_pool, hbm_m]
                exact setBits_restore js _ (fun j hj => (hjbits j hj).2)
              · simp only [otherPf, poolOf, acquire_pool, release_pool,
                  setPool, set_arena_user_pool, memset_user_pool,
                  hpotherm] at hRoth
                rw [release_user_bitmap, hRoth]
              · simp only [vaddrOf, acquire_pool, release_pool,
                  setPool_kernel_vaddr, set_arena_kernel_vaddr,
                  memset_kernel_vaddr, hvmal] at hRv
                rw [show (release_pool PoolFlags.PF_KERNEL s3).kernel_vaddr =
                  s3.kernel_vaddr from rfl]
                rw [hRv]
                exact bitmap_set_range_restore _ idx 1 (fun t ht => hvfree t ht)
              · simp only [vaddrOf, otherPf, acquire_pool, release_pool,
                  setPool_user_vaddr, set_arena_user_vaddr,
                  memset_user_vaddr, hvother] at hRvoth
                rw [show (release_pool PoolFlags.PF_KERNEL s3).user_vaddr =
                  s3.user_vaddr from rfl]
                rw [hRvoth]
              · intro k
                rw [release_arenas, hRaren]
                simp only [acquire_arenas, release_arenas, set_arena_arenas,
                  memset_arenas, hnoopB]
                by_cases hkr : a ≤ k ∧ k < a + 1 * PG_SIZE
                · rw [alist_get_filter_none _ _ _ (fun kv hm he => by
                    simp only [Bool.not_eq_false', decide_eq_true_eq]
                    rw [he]
                    exact hkr)]
                  rw [alist_get_none s.arenas k (fun kv hm he => hfreshA kv hm
                    (by
                      rw [he]
                      refine ⟨hkr.1, ?_⟩
                      have h2 := hkr.2
                      rw [one_mul] at h2
                      exact h2))]
                · rw [alist_get_filter_ne _ _ _ (fun kv hm he => by
                    simp only [he, Bool.not_eq_true', decide_eq_false_iff_not]
                    simp only [PG_SIZE] at hkr ⊢
                    omega)]
                  have hak : a ≠ k := fun hak => hkr (by
                    rw [← hak]
                    exact ⟨Nat.le_refl a, by simp only [PG_SIZE]; omega⟩)
                  rw [alist_get_set_ne _ _ _ _ hak,
                    alist_get_set_ne _ _ _ _ hak,
                    alist_get_set_ne _ _ _ _ hak]
              · intro e
                rw [release_kdescs, hRkd]
                simp only [acquire_kdescs, release_kdescs, set_arena_kdescs,
                  memset_kdescs]
                by_cases hed : e = D
                · subst hed
                  have hmgF := modify_getD_self
                    (fun bd => { bd with free_list := ([] : List Nat) })
                    (List.modify (fun bd => { bd with free_list := rest ++ [b] }) D (List.modify (fun bd => { bd with free_list := rest }) D (List.modify (fun bd => { bd with free_list := List.map (fun t => a + sizeof_arena + (0 + t) * (16 * 2 ^ D)) (List.range ((PG_SIZE - sizeof_arena) / (16 * 2 ^ D))) }) D s.k_block_descs)))
                    D
                    (by
                      rw [List.length_modify, List.length_modify,
                        List.length_modify, hLlen]
                      exact hdltK)
                  rw [hmgF, hmgL, hmgR, hmgM]
                  refine ⟨rfl, rfl, ?_⟩
                  rw [hEmp]
                · rw [modify_getD_ne _ _ _ _ (fun hde => hed hde.symm),
                    modify_getD_ne _ _ _ _ (fun hde => hed hde.symm),
                    modify_getD_ne _ _ _ _ (fun hde => hed hde.symm),
                    modify_getD_ne _ _ _ _ (fun hde => hed hde.symm)]
                  exact ⟨rfl, rfl, List.Perm.refl _⟩
              · intro e
                rw [release_udescs, hRud]
                simp only [acquire_udescs, release_udescs, set_arena_udescs,
                  memset_udescs, hudm]
                exact ⟨by trivial, by trivial, List.Perm.refl _⟩

    · rename_i hNE
      exact roundtrip_pop true _ s s1 s2 p
        ⟨⟨hka, hkres, hkub, hua, huub, hkva, hkhs, hkvlt, huva, huvlt⟩,
          hpdesW, haw, hkdw, hudw, hkbw, hubw⟩
        hpg hdltK hmal h
  · rename_i hKf
    have hKf2 : isK = false := by
      cases isK
      · rfl
      · exact absurd rfl hKf
    subst hKf2
    have hLlen := hudw.1
    have hdltK : find_desc_idx s.u_block_descs size < DESC_CNT := by
      simpa using hdlt
    have hdL : find_desc_idx s.u_block_descs size < s.u_block_descs.length := by
      rw [hLlen]
      exact hdltK
    have hbs := (hudw.2 _ hdltK).1
    have hbpa := (hudw.2 _ hdltK).2
    split at hmal
    · rename_i hEmpB
      have hEmp := List.isEmpty_iff.mp hEmpB
      split at hmal
      · exact absurd hmal (by simp)
      · rename_i sm hmp
        rw [Res.ok.injEq, Prod.mk.injEq] at hmal
        obtain ⟨hp, hs1⟩ := hmal
        subst hp
        subst hs1
        simp only [sys_free] at h
        exact absurd h (by simp)
      · rename_i a sm hmp
        have hpfU : pfOf false = PoolFlags.PF_USER := rfl
        rw [hpfU] at hmp
        obtain ⟨idx, js, hidxlen, hvfree, ha, hvmal, hvother, hjlen, hjnd,
          hjbits, hpoolmal, hpotherm, hptem, hptek, hpdesm, harenm, hkdm, hudm,
          hpgm⟩ :=
          malloc_page_char .PF_USER _ _ _ _ hmp
            (by simpa using hpdeP .PF_USER)
            (by simpa using hvaP .PF_USER)
            (by simpa using hvltP .PF_USER)
        simp only [vaddrOf, otherPf, poolOf, acquire_pool, setPool] at ha hvmal
        simp only [vaddrOf, otherPf, poolOf, acquire_pool, setPool] at hvother
        simp only [vaddrOf, otherPf, poolOf, acquire_pool, setPool] at hjbits
        simp only [vaddrOf, otherPf, poolOf, acquire_pool, setPool] at hpoolmal
        simp only [vaddrOf, otherPf, poolOf, acquire_pool, setPool] at hpotherm
        simp only [vaddrOf, otherPf, poolOf, acquire_pool, setPool] at hptem
        simp only [vaddrOf, otherPf, poolOf, acquire_pool, setPool] at hptek
        simp only [vaddrOf, otherPf, poolOf, acquire_pool, setPool] at hpdesm
        simp only [vaddrOf, otherPf, poolOf, acquire_pool, setPool] at harenm
        simp only [vaddrOf, otherPf, poolOf, acquire_pool, setPool] at hkdm
        simp only [vaddrOf, otherPf, poolOf, acquire_pool, setPool] at hudm
        simp only [vaddrOf, otherPf, poolOf, acquire_pool, setPool] at hpgm
        simp only [vaddrOf, otherPf, poolOf, acquire_pool, setPool] at hidxlen
        simp only [vaddrOf, otherPf, poolOf, acquire_pool, setPool] at hvfree
        have hbm_m : sm.user_pool.pool_bitmap =
            setBits js true s.user_pool.pool_bitmap := by rw [hpoolmal]
        have hst_m : sm.user_pool.phy_addr_start =
            s.user_pool.phy_addr_start := by rw [hpoolmal]
        have halignA : a % PG_SIZE = 0 := by
          rw [ha]
          simp only [PG_SIZE] at huva ⊢
          omega
        have haup : a + PG_SIZE ≤ s.user_vaddr.vaddr_start +
            s.user_vaddr.vaddr_bitmap.bits.length * PG_SIZE := by
          rw [ha]
          have h1 := hidxlen
          simp only [PG_SIZE] at h1 ⊢
          omega
        have haMOD : a + PG_SIZE ≤ MOD32 := by
          have h1 := huvlt
          omega
        have hfreshA : ∀ kv ∈ s.arenas, ¬(a ≤ kv.1 ∧ kv.1 < a + PG_SIZE) := by
          intro kv hm
          rintro ⟨hr1, hr2⟩
          have hal := (haw kv hm).1
          have hvb := (haw kv hm).2.2
            (by
              rw [ha] at hr1
              omega)
            (by omega)
          have hfree2 := hvfree
            ((kv.1 - s.user_vaddr.vaddr_start) / PG_SIZE - idx)
            (by
              rw [ha] at hr1 hr2
              simp only [PG_SIZE] at *
              omega)
          rw [show idx + ((kv.1 - s.user_vaddr.vaddr_start) / PG_SIZE - idx) =
              (kv.1 - s.user_vaddr.vaddr_start) / PG_SIZE from by
            rw [ha] at hr1
            simp only [PG_SIZE] at *
            omega] at hfree2
          rw [hvb] at hfree2
          exact absurd hfree2 (by simp)
        have hnoopA : s.arenas.filter
            (fun kv => !(decide (a ≤ kv.1 ∧ kv.1 < a + PG_SIZE))) = s.arenas :=
          List.filter_eq_self.mpr (fun kv hm => by simp [hfreshA kv hm])
        set D := find_desc_idx s.u_block_descs size with hDdef
        have h2d : 2 ^ D ≤ 64 := by
          have hd6 : D ≤ 6 := by
            simp only [DESC_CNT] at hdltK
            omega
          calc 2 ^ D ≤ 2 ^ 6 := Nat.pow_le_pow_right (by norm_num) hd6
          _ = 64 := by norm_num
        have hbs0 : 0 < 16 * 2 ^ D := by positivity
        have hfit : sizeof_arena +
            (0 + (PG_SIZE - sizeof_arena) / (16 * 2 ^ D)) * (16 * 2 ^ D) ≤
            PG_SIZE := by
          have hmul := Nat.div_mul_le_self (PG_SIZE - sizeof_arena) (16 * 2 ^ D)
          have hch2 : (0 + (PG_SIZE - sizeof_arena) / (16 * 2 ^ D)) *
              (16 * 2 ^ D) =
              (PG_SIZE - sizeof_arena) / (16 * 2 ^ D) * (16 * 2 ^ D) := by ring
          rw [hch2]
          simp only [sizeof_arena, PG_SIZE] at hmul ⊢
          omega
        have hbpa2 : 2 ≤ (PG_SIZE - sizeof_arena) / (16 * 2 ^ D) := by
          rw [Nat.le_div_iff_mul_le hbs0]
          simp only [sizeof_arena, PG_SIZE]
          omega
        have hsfl : ∀ (dd : Nat) (l : List Nat) (X : MState),
            set_free_list false dd l X = { X with u_block_descs := List.modify (fun bd => { bd with free_list := l }) dd X.u_block_descs } :=
          fun _ _ _ => rfl
        have hflv : ∀ (X : MState) (dd : Nat), free_list_of X false dd =
            (X.u_block_descs.getD dd default).free_list := fun _ _ => rfl
        simp only [hpfU, hflv, hsfl, memset_udescs, set_arena_udescs, hudm,
          hbs, hbpa, hEmp] at hmal
        have hpop := populate_from_ok a (16 * 2 ^ D) haMOD hbs0
          ((PG_SIZE - sizeof_arena) / (16 * 2 ^ D)) 0 [] hfit
          (fun b hb => absurd hb (List.not_mem_nil b))
        rw [List.nil_append] at hpop
        have hmgM := modify_getD_self
          (fun bd => { bd with free_list := List.map (fun t => a + sizeof_arena + (0 + t) * (16 * 2 ^ D)) (List.range ((PG_SIZE - sizeof_arena) / (16 * 2 ^ D))) })
          s.u_block_descs D hdL
        simp only [hpop, sys_malloc_pop, hflv, hsfl, set_arena_udescs,
          memset_udescs, hudm, hmgM, hbs] at hmal
        split at hmal
        · rename_i heqM
          have hlen0 := congrArg List.length heqM
          simp only [List.length_map, List.length_range,
            List.length_nil] at hlen0
          omega
        · rename_i b rest heqM
          have hbMem : b ∈ List.map
              (fun t => a + sizeof_arena + (0 + t) * (16 * 2 ^ D))
              (List.range ((PG_SIZE - sizeof_arena) / (16 * 2 ^ D))) := by
            rw [heqM]
            exact List.mem_cons_self b rest
          obtain ⟨t, htR, hbv⟩ := List.mem_map.mp hbMem
          have htlt := List.mem_range.mp htR
          have hch : a + sizeof_arena + (0 + t) * (16 * 2 ^ D) =
              a + sizeof_arena + t * (16 * 2 ^ D) := by ring
          rw [hch] at hbv
          have hexp2 : ((PG_SIZE - sizeof_arena) / (16 * 2 ^ D) - 1) *
              (16 * 2 ^ D) + 16 * 2 ^ D =
              (PG_SIZE - sizeof_arena) / (16 * 2 ^ D) * (16 * 2 ^ D) := by
            have h0 : 1 ≤ (PG_SIZE - sizeof_arena) / (16 * 2 ^ D) := by omega
            calc ((PG_SIZE - sizeof_arena) / (16 * 2 ^ D) - 1) * (16 * 2 ^ D) +
                16 * 2 ^ D =
                ((PG_SIZE - sizeof_arena) / (16 * 2 ^ D) - 1 + 1) *
                  (16 * 2 ^ D) := by ring
            _ = (PG_SIZE - sizeof_arena) / (16 * 2 ^ D) * (16 * 2 ^ D) := by
                rw [Nat.sub_add_cancel h0]
          have htb : t * (16 * 2 ^ D) ≤
              ((PG_SIZE - sizeof_arena) / (16 * 2 ^ D) - 1) * (16 * 2 ^ D) :=
            Nat.mul_le_mul_right _ (by omega)
          have hf2 := hfit
          rw [show (0 + (PG_SIZE - sizeof_arena) / (16 * 2 ^ D)) *
              (16 * 2 ^ D) =
              (PG_SIZE - sizeof_arena) / (16 * 2 ^ D) * (16 * 2 ^ D) from by
            ring] at hf2
          have hbb : a + sizeof_arena ≤ b ∧ b + 16 * 2 ^ D ≤ a + PG_SIZE := by
            constructor
            · omega
            · omega
          have hb2a : block2arena b = a := by
            have h1 := halignA
            have h2 := haMOD
            have h3 := hbb
            have h4 := hbs0
            simp only [block2arena, PG_SIZE, MOD32, sizeof_arena] at h1 h2 h3 ⊢
            omega
          have hnoopB : (alist_set s.arenas a
              { desc := some (false, D), large := false,
                cnt := (PG_SIZE - sizeof_arena) / (16 * 2 ^ D) }).filter
              (fun kv => !(decide (b ≤ kv.1 ∧ kv.1 < b + 16 * 2 ^ D))) =
              alist_set s.arenas a
              { desc := some (false, D), large := false,
                cnt := (PG_SIZE - sizeof_arena) / (16 * 2 ^ D) } := by
            apply List.filter_eq_self.mpr
            intro kv hm
            have hnk : ¬(b ≤ kv.1 ∧ kv.1 < b + 16 * 2 ^ D) := by
              rcases List.mem_cons.mp hm with hh | hh
              · rintro ⟨h1, h2⟩
                have hka2 : kv.1 = a := by rw [hh]
                have h3 := hbb
                simp only [sizeof_arena] at h3
                omega
              · have hmem2 := (List.mem_filter.mp hh).1
                have hal := (haw kv hmem2).1
                rintro ⟨h1, h2⟩
                have h3 := hbb
                simp only [PG_SIZE, sizeof_arena] at hal h3 halignA
                omega
            simp [hnk]
          have hmgR := modify_getD_self (fun bd => { bd with free_list := rest })
            (List.modify (fun bd => { bd with free_list := List.map (fun t => a + sizeof_arena + (0 + t) * (16 * 2 ^ D)) (List.range ((PG_SIZE - sizeof_arena) / (16 * 2 ^ D))) }) D s.u_block_descs)
            D
            (by
              rw [List.length_modify, hLlen]
              exact hdltK)
          simp only [Bool.false_eq_true, if_false, hmgR, hmgM, hbs,
            memset_arenas, set_arena_arenas, harenm, hnoopA, hnoopB, hb2a,
            alist_get_set_eq, Option.getD_some] at hmal
          rw [Res.ok.injEq, Prod.mk.injEq] at hmal
          obtain ⟨hp, hs1⟩ := hmal
          subst hp
          subst hs1
          simp only [sys_free] at h
          simp only [release_pgdir, set_arena_pgdir, memset_pgdir,
            acquire_pgdir, hpg] at h
          split at h
          · rename_i hcond
            have hx := hcond.1
            rw [hpgm, hpg] at hx
            exact absurd hx (by simp)
          rename_i hkh
          rw [hb2a] at h
          simp only [hpfU, acquire_arenas, release_arenas, set_arena_arenas,
            memset_arenas, harenm] at h
          have hpgm2 : sm.pgdir_null = false := by rw [hpgm, hpg]
          rw [hpgm2, hpfU] at h
          rw [hnoopB, alist_get_set_eq, Option.getD_some] at h
          split at h
          · rename_i hcond
            exact absurd hcond.1 (by simp)
          rename_i hcond
          split at h
          · rename_i heq2
            exact absurd heq2 (by simp)
          · rename_i dp heq2
            have hdp : dp = (false, D) := by
              have hx : (some (false, D) : Option (Bool × Nat)) = some dp := heq2
              exact (Option.some.inj hx).symm
            subst hdp
            have hble : (PG_SIZE - sizeof_arena) / (16 * 2 ^ D) ≤
                PG_SIZE - sizeof_arena := Nat.div_le_self _ _
            have hble2 : (PG_SIZE - sizeof_arena) / (16 * 2 ^ D) ≤ 4084 := by
              have h5 := hble
              simp only [PG_SIZE, sizeof_arena] at h5 ⊢
              omega
            have hCCgen : ∀ B : Nat, B ≤ 4084 →
                ((B + MOD32 - 1) % MOD32 + 1) % MOD32 = B := by
              intro B hB
              simp only [ MOD32]
              omega
            have hCC2 := hCCgen ((PG_SIZE - sizeof_arena) / (16 * 2 ^ D)) hble2
            have hmgL := modify_getD_self
              (fun bd => { bd with free_list := rest ++ [b] })
              (List.modify (fun bd => { bd with free_list := rest }) D (List.modify (fun bd => { bd with free_list := List.map (fun t => a + sizeof_arena + (0 + t) * (16 * 2 ^ D)) (List.range ((PG_SIZE - sizeof_arena) / (16 * 2 ^ D))) }) D s.u_block_descs))
              D
              (by
                rw [List.length_modify, List.length_modify, hLlen]
                exact hdltK)
            simp only [hflv, hsfl, desc_of, Bool.false_eq_true, if_false,
              if_true, acquire_udescs, release_udescs, set_arena_udescs,
              memset_udescs, hmgL, hmgR, hmgM, hCC2, hbpa, hbs] at h
            have hperm : (rest ++ [b]).Perm (List.map
                (fun t => a + sizeof_arena + (0 + t) * (16 * 2 ^ D))
                (List.range ((PG_SIZE - sizeof_arena) / (16 * 2 ^ D)))) := by
              rw [heqM]
              exact List.perm_append_singleton b rest
            have hunl := unlink_from_ok a (16 * 2 ^ D) haMOD hbs0
              ((PG_SIZE - sizeof_arena) / (16 * 2 ^ D)) 0 (rest ++ [b]) hfit
              hperm
            simp only [hunl] at h
            split at h
            · exact absurd h (by simp)
            · rename_i s3 hmf
              rw [Res.ok.injEq] at h
              subst h
              have hmapjs : List.map (fun t => js.getD t 0) (List.range 1) =
                  js := by
                rw [show (1 : Nat) = js.length from hjlen.symm]
                exact map_getD_range js
              obtain ⟨hRbm, hRst, hRsz, hRlk, hRoth, hRv, hRvoth, hRaren,
                hRkd, hRud, hRpg⟩ :=
                mfree_page_restore .PF_USER a 1 idx (fun t => js.getD t 0)
                  _ s3 hmf Nat.one_pos
                  (by
                    simp only [vaddrOf, acquire_pool, release_pool,
                      setPool_user_vaddr, set_arena_user_vaddr,
                      memset_user_vaddr, hvmal]
                    exact ha)
                  (by
                    simp only [vaddrOf, acquire_pool, release_pool,
                      setPool_user_vaddr, set_arena_user_vaddr,
                      memset_user_vaddr, hvmal, bitmap_set_range_length]
                    exact hidxlen)
                  (by
                    simp only [vaddrOf, acquire_pool, release_pool,
                      setPool_user_vaddr, set_arena_user_vaddr,
                      memset_user_vaddr, hvmal]
                    exact huva)
                  (by
                    simp only [vaddrOf, acquire_pool, release_pool,
                      setPool_user_vaddr, set_arena_user_vaddr,
                      memset_user_vaddr, hvmal, bitmap_set_range_length]
                    exact huvlt)
                  (by
                    intro t ht
                    have h1 := hptem t ht
                    simp only [pte_val] at h1 ⊢
                    simp only [acquire_ptes, release_ptes, set_arena_ptes,
                      memset_ptes, poolOf, acquire_user_start,
                      release_user_start, set_arena_user_pool,
                      memset_user_pool, hst_m]
                    exact h1)
                  (by
                    intro t ht
                    simp only [poolOf, acquire_user_bitmap,
                      release_user_bitmap, set_arena_user_pool,
                      memset_user_pool, hbm_m, setBits_length]
                    exact (hjbits _ (getD_mem_of_lt js t (by
                      rw [hjlen]
                      exact ht))).1)
                  (by
                    simp only [acquire_kernel_start, release_kernel_start,
                      set_arena_kernel_pool, memset_kernel_pool, hpotherm]
                    exact hka)
                  (by
                    simp only [acquire_kernel_start, release_kernel_start,
                      set_arena_kernel_pool, memset_kernel_pool, hpotherm]
                    exact hkres)
                  (by
                    simp only [acquire_kernel_start, release_kernel_start,
                      acquire_user_start, release_user_start,
                      acquire_kernel_bitmap, release_kernel_bitmap,
                      set_arena_kernel_pool, memset_kernel_pool,
                      set_arena_user_pool, memset_user_pool, hpotherm, hst_m]
                    exact hkub)
                  (by
                    simp only [acquire_user_start, release_user_start,
                      set_arena_user_pool, memset_user_pool, hst_m]
                    exact hua)
                  (by
                    simp only [acquire_user_start, release_user_start,
                      acquire_user_bitmap, release_user_bitmap,
                      set_arena_user_pool, memset_user_pool, hst_m, hbm_m,
                      setBits_length]
                    exact huub)
              refine ⟨?_, ?_, ?_, ?_, ?_, ?_, ?_⟩
              · simp only [otherPf, poolOf, acquire_pool, release_pool,
                  setPool, set_arena_kernel_pool, memset_kernel_pool,
                  hpotherm] at hRoth
                rw [release_kernel_bitmap, hRoth]
              · simp only [poolOf] at hRbm
                rw [release_user_bitmap, hRbm, hmapjs]
                simp only [acquire_user_bitmap, release_user_bitmap,
                  set_arena_user_pool, memset_user_pool, hbm_m]
                exact setBits_restore js _ (fun j hj => (hjbits j hj).2)
              · simp only [vaddrOf, otherPf, acquire_pool, release_pool,
                  setPool_kernel_vaddr, set_arena_kernel_vaddr,
                  memset_kernel_vaddr, hvother] at hRvoth
                rw [show (release_pool PoolFlags.PF_USER s3).kernel_vaddr =
                  s3.kernel_vaddr from rfl]
                rw [hRvoth]
              · simp only [vaddrOf, acquire_pool, release_pool,
                  setPool_user_vaddr, set_arena_user_vaddr,
                  memset_user_vaddr, hvmal] at hRv
                rw [show (release_pool PoolFlags.PF_USER s3).user_vaddr =
                  s3.user_vaddr from rfl]
                rw [hRv]
                exact bitmap_set_range_restore _ idx 1 (fun t ht => hvfree t ht)
              · intro k
                rw [release_arenas, hRaren]
                simp only [acquire_arenas, release_arenas, set_arena_arenas,
                  memset_arenas, hnoopB]
                by_cases hkr : a ≤ k ∧ k < a + 1 * PG_SIZE
                · rw [alist_get_filter_none _ _ _ (fun kv hm he => by
                    simp only [Bool.not_eq_false', decide_eq_true_eq]
                    rw [he]
                    exact hkr)]
                  rw [alist_get_none s.arenas k (fun kv hm he => hfreshA kv hm
                    (by
                      rw [he]
                      refine ⟨hkr.1, ?_⟩
                      have h2 := hkr.2
                      rw [one_mul] at h2
                      exact h2))]
                · rw [alist_get_filter_ne _ _ _ (fun kv hm he => by
                    simp only [he, Bool.not_eq_true', decide_eq_false_iff_not]
                    simp only [PG_SIZE] at hkr ⊢
                    omega)]
                  have hak : a ≠ k := fun hak => hkr (by
                    rw [← hak]
                    exact ⟨Nat.le_refl a, by simp only [PG_SIZE]; omega⟩)
                  rw [alist_get_set_ne _ _ _ _ hak,
                    alist_get_set_ne _ _ _ _ hak,
                    alist_get_set_ne _ _ _ _ hak]
              · intro e
                rw [release_kdescs, hRkd]
                simp only [acquire_kdescs, release_kdescs, set_arena_kdescs,
                  memset_kdescs, hkdm]
                exact ⟨by trivial, by trivial, List.Perm.refl _⟩
              · intro e
                rw [release_udescs, hRud]
                simp only [acquire_udescs, release_udescs, set_arena_udescs,
                  memset_udescs]
                by_cases hed : e = D
                · subst hed
                  have hmgF := modify_getD_self
                    (fun bd => { bd with free_list := ([] : List Nat) })
                    (List.modify (fun bd => { bd with free_list := rest ++ [b] }) D (List.modify (fun bd => { bd with free_list := rest }) D (List.modify (fun bd => { bd with free_list := List.map (fun t => a + sizeof_arena + (0 + t) * (16 * 2 ^ D)) (List.range ((PG_SIZE - sizeof_arena) / (16 * 2 ^ D))) }) D s.u_block_descs)))
                    D
                    (by
                      rw [List.length_modify, List.length_modify,
                        List.length_modify, hLlen]
                      exact hdltK)
                  rw [hmgF, hmgL, hmgR, hmgM]
                  refine ⟨rfl, rfl, ?_⟩
                  rw [hEmp]
                · rw [modify_getD_ne _ _ _ _ (fun hde => hed hde.symm),
                    modify_getD_ne _ _ _ _ (fun hde => hed hde.symm),
                    modify_getD_ne _ _ _ _ (fun hde => hed hde.symm),
                    modify_getD_ne _ _ _ _ (fun hde => hed hde.symm)]
                  exact ⟨rfl, rfl, List.Perm.refl _⟩
    · rename_i hNE
      exact roundtrip_pop false _ s s1 s2 p
        ⟨⟨hka, hkres, hkub, hua, huub, hkva, hkhs, hkvlt, huva, huvlt⟩,
          hpdesW, haw, hkdw, hudw, hkbw, hubw⟩
        hpg hdltK hmal h

/- ### C1 — the amended round-trip theorem and its witness -/

/-- C1 (amended): under the well-formedness invariant `stateWF` (aligned
pool geometry, page-directory entries present for both virtual pools,
arenas on live allocation pages, consistent descriptors and free lists),
a successful round trip `sys_free(sys_malloc(size))` restores both
physical-pool bitmaps, both virtual-pool bitmaps, every arena header,
and every size class's block size, blocks-per-arena and free list **up
to permutation**.  The claim's exact restoration fails in two ways shown
by the counterexample: the free-list order is not restored (the popped
block is appended at the tail), and a user allocation that must build a
fresh page table leaks a kernel-pool frame — `stateWF`'s `pdesPresent`
clause excludes the latter. -/
theorem malloc_free_roundtrip (size : Nat) (s s2 : MState)
    (hwf : stateWF s)
    (h : malloc_free_trip size s = .ok s2) :
    roundtripConcl s2 s := by
  simp only [malloc_free_trip] at h
  split at h
  · exact absurd h (by simp)
  · rename_i p s1 hmal
    simp only [sys_malloc] at hmal
    split at hmal
    all_goals
      split at hmal
      · rw [Res.ok.injEq, Prod.mk.injEq] at hmal
        obtain ⟨hp, hs1⟩ := hmal
        subst hp
        subst hs1
        simp only [sys_free] at h
        exact absurd h (by simp)
      · split at hmal
        · exact roundtrip_large s.pgdir_null size s s1 s2 p hwf rfl hmal h
        · rename_i hgt
          exact roundtrip_small s.pgdir_null size s s1 s2 p hwf rfl (by omega)
            hmal h

/-- The state produced by the witness round trip
`sys_free(sys_malloc(2000))` on `baseState` (the trip succeeds, so the
panic arm is never taken). -/
def tripState : MState :=
  match malloc_free_trip 2000 baseState with
  | .ok st => st
  | .panic => baseState

set_option maxRecDepth 10000 in
/-- C1 (witness): the round-trip theorem applied to the concrete
`baseState` at size 2000 (the large path, one page): the invariant
holds, the trip succeeds, and the tracked allocator state is
restored. -/
theorem malloc_free_roundtrip_witness :
    stateWF baseState ∧ malloc_free_trip 2000 baseState = .ok tripState ∧
      roundtripConcl tripState baseState :=
  ⟨by
    simp only [stateWF, poolsGeom, pdesPresent, arenasWF, descsWF, blocksWF]
    refine ⟨?_, ⟨?_, ?_⟩, ?_, ⟨?_, ?_⟩, ⟨?_, ?_⟩, ?_, ?_⟩ <;> decide,
   by decide,
   malloc_free_roundtrip 2000 baseState tripState
    (by
      simp only [stateWF, poolsGeom, pdesPresent, arenasWF, descsWF, blocksWF]
      refine ⟨?_, ⟨?_, ?_⟩, ?_, ⟨?_, ?_⟩, ⟨?_, ?_⟩, ?_, ?_⟩ <;> decide)
    (by decide)⟩
